import Mathlib

/-!
# black-pages-backend: job filtering and application lifecycle

A shallow embedding of the Go sources of the job board backend.

* Go packages become namespaces (`models`, `utils`, `repositories`, `services`), and methods keep
  their Go names (`services.applicationService.ApplyToJob`).
* The relational store behind gorm is an explicit value `DB` holding one list of rows per table.
  A row carries the columns only; the associations that gorm fills through `Preload` are attached
  by the repository functions that preload them.
* Storage can fail. Every repository call consults `Env.fails`, an oracle that says whether the
  call comes back with a storage error different from `gorm.ErrRecordNotFound`.
* `time.Time` is an integer instant, `Before` is the strict order; `uint` identifiers are natural
  numbers (the code performs no arithmetic on them).
* A service method returns its Go result together with the store after the call.
* `First` is the first matching row of the table list: tables are listed in primary-key order,
  which is the order in which the identifier sequences hand out keys.
* Of the timestamps that gorm maintains by itself, the `UpdatedAt` that `Save` writes into a job
  and into its row is modelled, the clock reading of gorm being an argument of the method; in the
  other tables a row holds the timestamps that the service code wrote.
* The clock is an argument of the service methods that read it, one argument per reading.
* A run-time panic (slice bound out of range, failed type assertion) is the result `none` of the
  methods that contain such an operation.
* The object store behind the file service is an argument, and the calls made to it are part of
  the result.
* A Go `string` is a `String`, and `len` of it is the number of its UTF-8 bytes.
* The sort field and the sort direction of a job filter reach the text after `ORDER BY` as the
  caller wrote them. The model reads an ordering (a column and a direction), an ordering followed
  by `LIMIT n` and an ordering followed by `OFFSET n`; for any other text the engine returns
  some of the rows that satisfy the conditions, and which ones is left open.
* The file of the user repository is not among the sources: its three methods that the modelled
  services call are modelled from the storage interface of the specification. The helpers for the
  password hash and the token are arguments of the method that calls them.
* Of the column tags, the unique indexes and the `default` values of `bool` fields are modelled;
  the column type `json` is not, a row holds the text that the service wrote.
-/

set_option autoImplicit false

/-! ## Errors and time -/

/-- Go `error` values that occur in the modelled code. -/
inductive Error where
  /-- The value of `errors.New(msg)`. -/
  | New (msg : String)
  /-- The sentinel `gorm.ErrRecordNotFound`. -/
  | ErrRecordNotFound
  /-- Any other error reported by the storage layer. -/
  | Storage
  deriving DecidableEq, Repr

/-- An instant of `time.Time`. -/
abbrev Time := Int

/-- The method `t.Before(u)`: `t` is strictly earlier than `u`. -/
def Time.Before (t u : Time) : Bool := decide (t < u)

/-! ## Package `models` -/

namespace models

/-- Columns of `models.User`. The `JobSeeker` and `Employer` associations are never loaded by the
modelled code and are left out. -/
structure User where
  ID : Nat := 0
  Email : String := ""
  PasswordHash : String := ""
  UserType : String := ""
  IsVerified : Bool := false
  CreatedAt : Time := 0
  UpdatedAt : Time := 0
  deriving DecidableEq, Repr

/-- Columns of `models.Employer`. -/
structure Employer where
  ID : Nat := 0
  UserID : Nat := 0
  CompanyName : String := ""
  EmployerType : String := ""
  Industry : String := ""
  PrimaryPhone : String := ""
  ContactPerson : String := ""
  ContactPersonDesig : String := ""
  City : String := ""
  State : String := ""
  PinCode : String := ""
  WebsiteURL : String := ""
  LogoURL : String := ""
  IsHiring : Bool := false
  CreatedAt : Time := 0
  UpdatedAt : Time := 0
  deriving DecidableEq, Repr

/-- Columns of `models.JobSeeker`. -/
structure JobSeeker where
  ID : Nat := 0
  UserID : Nat := 0
  FullName : String := ""
  JobSeekerType : String := ""
  CurrentCity : String := ""
  Phone : String := ""
  DesiredField : String := ""
  ResumeURL : String := ""
  PortfolioURL : String := ""
  Skills : String := ""
  CreatedAt : Time := 0
  UpdatedAt : Time := 0
  deriving DecidableEq, Repr

/-- The struct `models.Job`: its columns and the `Employer` association. The `Applications`
association is never loaded by the modelled code and is left out. -/
structure Job where
  ID : Nat := 0
  EmployerID : Nat := 0
  Employer : Employer := {}
  Title : String := ""
  JobType : String := ""
  Industry : String := ""
  TargetAudience : String := ""
  EmploymentMode : String := ""
  StartMonth : String := ""
  Duration : String := ""
  ApplicationDeadline : Time := 0
  CompensationRange : String := ""
  IsPaid : Bool := false
  City : String := ""
  State : String := ""
  RequiredSkills : String := ""
  MinExperience : String := ""
  PortfolioRequired : Bool := false
  ResumeRequired : Bool := false
  Description : String := ""
  AboutTeam : String := ""
  ContactEmail : String := ""
  IsActive : Bool := false
  CreatedAt : Time := 0
  UpdatedAt : Time := 0
  deriving DecidableEq, Repr

/-- The struct `models.Application`: its columns and the `Job` and `JobSeeker` associations. -/
structure Application where
  ID : Nat := 0
  JobID : Nat := 0
  Job : Job := {}
  JobSeekerID : Nat := 0
  JobSeeker : JobSeeker := {}
  Status : String := ""
  AppliedAt : Time := 0
  UpdatedAt : Time := 0
  deriving DecidableEq, Repr

/-- The struct `models.StudentProfile`: its columns and the `JobSeeker` association. -/
structure StudentProfile where
  ID : Nat := 0
  JobSeekerID : Nat := 0
  JobSeeker : JobSeeker := {}
  CollegeName : String := ""
  Degree : String := ""
  YearSemester : String := ""
  SoftwareProficiency : String := ""
  PreviousInternships : String := ""
  FreelanceProjects : String := ""
  PreferredStartMonth : String := ""
  PreferredDuration : String := ""
  WillingToRelocate : Bool := false
  CreatedAt : Time := 0
  UpdatedAt : Time := 0
  deriving DecidableEq, Repr

/-- The struct `models.FirmProfile`: its columns and the `Employer` association. -/
structure FirmProfile where
  ID : Nat := 0
  EmployerID : Nat := 0
  Employer : Employer := {}
  YearFounded : Int := 0
  FirmSize : String := ""
  LegalEntityType : String := ""
  PrimaryDiscipline : String := ""
  SecondaryDisciplines : String := ""
  InstagramURL : String := ""
  LinkedInURL : String := ""
  PreferredDuration : String := ""
  StipendRange : String := ""
  ProjectImages : String := ""
  CreatedAt : Time := 0
  UpdatedAt : Time := 0
  deriving DecidableEq, Repr

end models

/-! ## Package `utils` -/

namespace utils

/-- The function `ArrayToJSON` of `internal/utils/json.go`: the loop appends the separator before
every element but the first, then the element itself. A nil slice and an empty slice both have
length zero and are both the empty list. -/
def ArrayToJSON (arr : List String) : String :=
  if arr.length = 0 then "[]"
  else
    let json := "[\""
    let json := arr.enum.foldl
      (fun json p => (if p.1 > 0 then json ++ "\",\"" else json) ++ p.2) json
    json ++ "\"]"

end utils

/-! ## The store behind gorm -/

/-- The tables of the relational store, one list of rows per table in insertion order, and the
last value handed out by the identifier sequence of each table that the modelled code inserts
into. A stored row holds the columns; its association fields are the zero value. -/
structure DB where
  jobSeekers : List models.JobSeeker := []
  employers : List models.Employer := []
  studentProfiles : List models.StudentProfile := []
  firmProfiles : List models.FirmProfile := []
  jobs : List models.Job := []
  applications : List models.Application := []
  applicationSeq : Nat := 0
  studentProfileSeq : Nat := 0
  firmProfileSeq : Nat := 0
  users : List models.User := []
  userSeq : Nat := 0
  jobSeekerSeq : Nat := 0
  employerSeq : Nat := 0
  jobSeq : Nat := 0
  deriving Repr

/-- The repository calls of the modelled code, as points where storage may fail. -/
inductive RepoOp where
  | jobSeekerGetByID
  | employerGetByID
  | jobGetByID
  | jobGetWithFilters
  | applicationCreate
  | applicationGetByID
  | applicationGetByJobAndJobSeeker
  | applicationDelete
  | studentProfileCreate
  | studentProfileGetByJobSeekerID
  | firmProfileCreate
  | firmProfileGetByEmployerID
  | applicationUpdate
  | applicationGetByJobSeekerID
  | applicationGetByJobID
  | userGetByID
  | userEmailExists
  | userCreate
  | jobSeekerGetByUserID
  | jobSeekerCreate
  | jobSeekerUpdate
  | employerGetByUserID
  | employerCreate
  | jobCreate
  | jobUpdate
  deriving DecidableEq, Repr

/-- What the surroundings decide during one service call. `fails op` says that the repository
call `op` comes back with a storage error other than `gorm.ErrRecordNotFound`.
`orderBy ordering rows` is the order in which the database engine returns `rows` under
`ORDER BY ordering` for a text that is an ordering, a column and a direction: some rearrangement
of `rows`; it is consulted for such texts only. `orderByRaw text limit rows` is what the engine
returns of `rows` for a statement with the limit `limit` whose text after `ORDER BY` is none of
the forms that the model reads: the text of the caller stands in the statement as it is, and all
that is taken for granted is that every returned row is one of `rows`. `orderApplications` is the
order of rows of the applications table under the fixed ordering of the source. -/
structure Env where
  fails : RepoOp → Bool
  orderBy : String → List models.Job → List models.Job
  orderBy_perm : ∀ clause rows, (orderBy clause rows).Perm rows
  orderByRaw : String → Option Int → List models.Job → List models.Job
  orderByRaw_mem : ∀ text limit rows job, job ∈ orderByRaw text limit rows → job ∈ rows
  orderApplications : String → List models.Application → List models.Application
  orderApplications_perm : ∀ clause rows, (orderApplications clause rows).Perm rows

/-- Storage that never fails and returns rows in table order. -/
def Env.reliable : Env where
  fails := fun _ => false
  orderBy := fun _ rows => rows
  orderBy_perm := fun _ rows => List.Perm.refl rows
  orderByRaw := fun _ _ rows => rows
  orderByRaw_mem := fun _ _ _ _ h => h
  orderApplications := fun _ rows => rows
  orderApplications_perm := fun _ rows => List.Perm.refl rows

/-- Storage in which exactly the repository call `op` fails. -/
def Env.failing (op : RepoOp) : Env where
  fails := fun o => decide (o = op)
  orderBy := fun _ rows => rows
  orderBy_perm := fun _ rows => List.Perm.refl rows
  orderByRaw := fun _ _ rows => rows
  orderByRaw_mem := fun _ _ _ _ h => h
  orderApplications := fun _ rows => rows
  orderApplications_perm := fun _ rows => List.Perm.refl rows

/-- Storage that never fails and returns job rows in the reverse of table order: the order of
`id DESC` and of `created_at DESC` for a table listed in the order of its keys. -/
def Env.descending : Env where
  fails := fun _ => false
  orderBy := fun _ rows => rows.reverse
  orderBy_perm := fun _ rows => List.reverse_perm rows
  orderByRaw := fun _ _ rows => rows
  orderByRaw_mem := fun _ _ _ _ h => h
  orderApplications := fun _ rows => rows
  orderApplications_perm := fun _ rows => List.Perm.refl rows

/-! ## Package `repositories` -/

namespace repositories

/-- The method `jobSeekerRepository.GetByID`: `First(&jobSeeker, id)`. -/
def jobSeekerRepository.GetByID (db : DB) (env : Env) (id : Nat) : Except Error models.JobSeeker :=
  if env.fails .jobSeekerGetByID then .error .Storage
  else match db.jobSeekers.find? (fun js => js.ID == id) with
    | some jobSeeker => .ok jobSeeker
    | none => .error .ErrRecordNotFound

/-- The method `employerRepository.GetByID`: `First(&employer, id)`. -/
def employerRepository.GetByID (db : DB) (env : Env) (id : Nat) : Except Error models.Employer :=
  if env.fails .employerGetByID then .error .Storage
  else match db.employers.find? (fun e => e.ID == id) with
    | some employer => .ok employer
    | none => .error .ErrRecordNotFound

/-- The effect of `Preload("Employer")` on one job: the employer row with the key `EmployerID`
is attached when there is one. -/
def preloadEmployer (db : DB) (job : models.Job) : models.Job :=
  match db.employers.find? (fun e => e.ID == job.EmployerID) with
  | some employer => { job with Employer := employer }
  | none => job

/-- The method `jobRepository.GetByID`: `Preload("Employer").First(&job, id)`. -/
def jobRepository.GetByID (db : DB) (env : Env) (id : Nat) : Except Error models.Job :=
  if env.fails .jobGetByID then .error .Storage
  else match db.jobs.find? (fun j => j.ID == id) with
    | some job => .ok (preloadEmployer db job)
    | none => .error .ErrRecordNotFound

/-- The effect of `Preload("Job").Preload("JobSeeker")` on one application. -/
def preloadJobAndJobSeeker (db : DB) (application : models.Application) : models.Application :=
  let application := match db.jobs.find? (fun j => j.ID == application.JobID) with
    | some job => { application with Job := job }
    | none => application
  match db.jobSeekers.find? (fun js => js.ID == application.JobSeekerID) with
  | some jobSeeker => { application with JobSeeker := jobSeeker }
  | none => application

/-- The method `applicationRepository.Create`: the row is inserted with the next identifier of
the sequence, which is written back into the struct. The association fields are no columns. -/
def applicationRepository.Create (db : DB) (env : Env) (application : models.Application) :
    Except Error (models.Application × DB) :=
  if env.fails .applicationCreate then .error .Storage
  else
    let row : models.Application :=
      { application with ID := db.applicationSeq + 1, Job := {}, JobSeeker := {} }
    .ok ({ application with ID := row.ID },
         { db with applications := db.applications ++ [row], applicationSeq := row.ID })

/-- The method `applicationRepository.GetByID`:
`Preload("Job").Preload("JobSeeker").First(&application, id)`. -/
def applicationRepository.GetByID (db : DB) (env : Env) (id : Nat) :
    Except Error models.Application :=
  if env.fails .applicationGetByID then .error .Storage
  else match db.applications.find? (fun a => a.ID == id) with
    | some application => .ok (preloadJobAndJobSeeker db application)
    | none => .error .ErrRecordNotFound

/-- The method `applicationRepository.GetByJobAndJobSeeker`:
`Where("job_id = ? AND job_seeker_id = ?", jobID, jobSeekerID).First(&application)`. -/
def applicationRepository.GetByJobAndJobSeeker (db : DB) (env : Env) (jobID jobSeekerID : Nat) :
    Except Error models.Application :=
  if env.fails .applicationGetByJobAndJobSeeker then .error .Storage
  else match db.applications.find? (fun a => a.JobID == jobID && a.JobSeekerID == jobSeekerID) with
    | some application => .ok application
    | none => .error .ErrRecordNotFound

/-- The method `applicationRepository.Delete`: `Delete(&models.Application{}, id)` removes the
rows with that primary key and reports no error when there is none. -/
def applicationRepository.Delete (db : DB) (env : Env) (id : Nat) : Except Error DB :=
  if env.fails .applicationDelete then .error .Storage
  else .ok { db with applications := db.applications.filter (fun a => !(a.ID == id)) }

/-- The method `applicationRepository.Update`: `Save(application)` writes all columns of the row
with the primary key of the struct, and inserts the row when no row has that key. The struct that
the modelled code saves has been loaded by `GetByID`, so its key is one that a sequence handed
out; the insert of a struct without a key does not occur. Saving the loaded `Job` and `JobSeeker`
associations leaves their rows alone. -/
def applicationRepository.Update (db : DB) (env : Env) (application : models.Application) :
    Except Error DB :=
  if env.fails .applicationUpdate then .error .Storage
  else
    let row : models.Application := { application with Job := {}, JobSeeker := {} }
    if db.applications.any (fun a => a.ID == application.ID) then
      .ok { db with
        applications := db.applications.map (fun a => if a.ID == application.ID then row else a) }
    else .ok { db with applications := db.applications ++ [row] }

/-- The method `applicationRepository.GetByJobSeekerID`:
`Preload("Job").Preload("Job.Employer").Where("job_seeker_id = ?", jobSeekerID)`
`.Order("applied_at DESC").Find(&applications)`. -/
def applicationRepository.GetByJobSeekerID (db : DB) (env : Env) (jobSeekerID : Nat) :
    Except Error (List models.Application) :=
  if env.fails .applicationGetByJobSeekerID then .error .Storage
  else
    let rows := db.applications.filter (fun a => a.JobSeekerID == jobSeekerID)
    let rows := env.orderApplications "applied_at DESC" rows
    .ok (rows.map (fun a =>
      match db.jobs.find? (fun j => j.ID == a.JobID) with
      | some job => { a with Job := preloadEmployer db job }
      | none => a))

/-- The method `applicationRepository.GetByJobID`:
`Preload("JobSeeker").Where("job_id = ?", jobID).Order("applied_at DESC").Find(&applications)`. -/
def applicationRepository.GetByJobID (db : DB) (env : Env) (jobID : Nat) :
    Except Error (List models.Application) :=
  if env.fails .applicationGetByJobID then .error .Storage
  else
    let rows := db.applications.filter (fun a => a.JobID == jobID)
    let rows := env.orderApplications "applied_at DESC" rows
    .ok (rows.map (fun a =>
      match db.jobSeekers.find? (fun js => js.ID == a.JobSeekerID) with
      | some jobSeeker => { a with JobSeeker := jobSeeker }
      | none => a))

/-- The method `studentProfileRepository.Create`. The column `job_seeker_id` carries a unique
index, so the insert is refused when the seeker already has a row. -/
def studentProfileRepository.Create (db : DB) (env : Env) (profile : models.StudentProfile) :
    Except Error (models.StudentProfile × DB) :=
  if env.fails .studentProfileCreate then .error .Storage
  else if db.studentProfiles.any (fun p => p.JobSeekerID == profile.JobSeekerID) then
    .error .Storage
  else
    let row : models.StudentProfile :=
      { profile with ID := db.studentProfileSeq + 1, JobSeeker := {} }
    .ok ({ profile with ID := row.ID },
         { db with studentProfiles := db.studentProfiles ++ [row], studentProfileSeq := row.ID })

/-- The method `studentProfileRepository.GetByJobSeekerID`:
`Preload("JobSeeker").Where("job_seeker_id = ?", jobSeekerID).First(&profile)`. -/
def studentProfileRepository.GetByJobSeekerID (db : DB) (env : Env) (jobSeekerID : Nat) :
    Except Error models.StudentProfile :=
  if env.fails .studentProfileGetByJobSeekerID then .error .Storage
  else match db.studentProfiles.find? (fun p => p.JobSeekerID == jobSeekerID) with
    | some profile =>
      (match db.jobSeekers.find? (fun js => js.ID == profile.JobSeekerID) with
        | some jobSeeker => .ok { profile with JobSeeker := jobSeeker }
        | none => .ok profile)
    | none => .error .ErrRecordNotFound

/-- The method `firmProfileRepository.Create`. The column `employer_id` carries a unique index,
so the insert is refused when the employer already has a row. -/
def firmProfileRepository.Create (db : DB) (env : Env) (profile : models.FirmProfile) :
    Except Error (models.FirmProfile × DB) :=
  if env.fails .firmProfileCreate then .error .Storage
  else if db.firmProfiles.any (fun p => p.EmployerID == profile.EmployerID) then
    .error .Storage
  else
    let row : models.FirmProfile :=
      { profile with ID := db.firmProfileSeq + 1, Employer := {} }
    .ok ({ profile with ID := row.ID },
         { db with firmProfiles := db.firmProfiles ++ [row], firmProfileSeq := row.ID })

/-- The method `firmProfileRepository.GetByEmployerID`:
`Preload("Employer").Where("employer_id = ?", employerID).First(&profile)`. -/
def firmProfileRepository.GetByEmployerID (db : DB) (env : Env) (employerID : Nat) :
    Except Error models.FirmProfile :=
  if env.fails .firmProfileGetByEmployerID then .error .Storage
  else match db.firmProfiles.find? (fun p => p.EmployerID == employerID) with
    | some profile =>
      (match db.employers.find? (fun e => e.ID == profile.EmployerID) with
        | some employer => .ok { profile with Employer := employer }
        | none => .ok profile)
    | none => .error .ErrRecordNotFound

/-! ### The job query builder -/

/-- The struct `repositories.JobFilters`; a nil `*bool` is `none`. -/
structure JobFilters where
  EmployerID : Nat := 0
  Industry : String := ""
  JobType : String := ""
  City : String := ""
  TargetAudience : String := ""
  EmploymentMode : String := ""
  IsPaid : Option Bool := none
  IsActive : Option Bool := none
  OrderBy : String := ""
  OrderDirection : String := ""
  Limit : Int := 0
  deriving DecidableEq, Repr

/-- `likeAnySuffix k t` holds when `k` accepts `t` or one of its proper suffixes: what is left
for the rest of a pattern after `%` has consumed some characters. -/
def likeAnySuffix (k : List Char → Bool) : List Char → Bool
  | [] => k []
  | c :: t => k (c :: t) || likeAnySuffix k t

/-- SQL `LIKE` of a pattern against a whole text: `%` stands for any run of characters,
an underscore for exactly one character, and a backslash takes the next pattern character
literally. -/
def likeMatch : List Char → List Char → Bool
  | [], t => t.isEmpty
  | c :: p, t =>
    if c = '%' then likeAnySuffix (likeMatch p) t
    else if c = '_' then
      (match t with
        | [] => false
        | _ :: t' => likeMatch p t')
    else if c = '\\' then
      (match p, t with
        | d :: p', x :: t' => x == d && likeMatch p' t'
        | _, _ => false)
    else
      (match t with
        | [] => false
        | x :: t' => x == c && likeMatch p t')

/-- The operator `text ILIKE pattern`: `LIKE` without regard to letter case (letters A to Z). -/
def ilike (text pattern : String) : Bool :=
  likeMatch (pattern.toList.map Char.toLower) (text.toList.map Char.toLower)

/-- The conditions that the builder hands to `Where`, each with its SQL text in the source. -/
inductive Cond where
  /-- The text `industry = ?`. -/
  | industry (v : String)
  /-- The text `job_type = ?`. -/
  | jobType (v : String)
  /-- The text `city ILIKE ?`. -/
  | cityILike (pattern : String)
  /-- The text `target_audience = ? OR target_audience = ?`. -/
  | targetAudienceOr (a b : String)
  /-- The text `employment_mode = ?`. -/
  | employmentMode (v : String)
  /-- The text `is_paid = ?`. -/
  | isPaid (v : Bool)
  /-- The text `is_active = ?`. -/
  | isActive (v : Bool)
  /-- The text `employer_id = ?`. -/
  | employerID (v : Nat)
  deriving DecidableEq, Repr

/-- Whether a job row satisfies one condition. -/
def Cond.holds : Cond → models.Job → Bool
  | .industry v, job => job.Industry == v
  | .jobType v, job => job.JobType == v
  | .cityILike pattern, job => ilike job.City pattern
  | .targetAudienceOr a b, job => job.TargetAudience == a || job.TargetAudience == b
  | .employmentMode v, job => job.EmploymentMode == v
  | .isPaid v, job => job.IsPaid == v
  | .isActive v, job => job.IsActive == v
  | .employerID v, job => job.EmployerID == v

/-- The statement that a `*gorm.DB` for `Model(&models.Job{})` has accumulated: the conditions
of the `Where` calls, the clauses of the `Order` calls and the value of the last `Limit` call. -/
structure Query where
  wheres : List Cond := []
  orders : List String := []
  limit : Option Int := none
  deriving DecidableEq, Repr

/-- The method `Where` of gorm: one more condition. In the generated SQL the conditions are joined
by `AND`, and a condition whose text contains `OR` is put in parentheses. -/
def Query.Where (q : Query) (c : Cond) : Query := { q with wheres := q.wheres ++ [c] }

/-- The method `Order` of gorm: one more ordering clause. -/
def Query.Order (q : Query) (clause : String) : Query := { q with orders := q.orders ++ [clause] }

/-- The method `Limit` of gorm. -/
def Query.Limit (q : Query) (limit : Int) : Query := { q with limit := some limit }

/-- The columns of the jobs table, under the names that gorm gives to the fields of
`models.Job`. -/
def jobColumns : List String :=
  ["id", "employer_id", "title", "job_type", "industry", "target_audience", "employment_mode",
   "start_month", "duration", "application_deadline", "compensation_range", "is_paid", "city",
   "state", "required_skills", "min_experience", "portfolio_required", "resume_required",
   "description", "about_team", "contact_email", "is_active", "created_at", "updated_at"]

/-- The two directions of an ordering, in capitals or in small letters. -/
def orderDirections : List String := ["ASC", "DESC", "asc", "desc"]

/-- The texts that are an ordering of the jobs table: a column, a blank and a direction. -/
def orderingClauses : List String :=
  jobColumns.flatMap (fun column =>
    orderDirections.map (fun direction => column ++ " " ++ direction))

/-- A number written with decimal digits only. -/
def readNumber (text : List Char) : Option Nat :=
  if text ≠ [] ∧ text.all Char.isDigit = true then
    some (text.foldl (fun n c => 10 * n + (c.toNat - '0'.toNat)) 0)
  else none

/-- A text that consists of an ordering, the keyword between blanks, and a number: the ordering
and the number. -/
def readKeyword (keyword clause : String) : Option (String × Nat) :=
  orderingClauses.findSome? (fun ordering =>
    if (ordering ++ keyword).toList.isPrefixOf clause.toList then
      (readNumber (clause.toList.drop (ordering ++ keyword).length)).map (fun n => (ordering, n))
    else none)

/-- What the text after `ORDER BY` asks of the engine, as far as the model reads it. The method
`OrderBy` of the builder puts the field and the direction of the caller into that place as they
are, so the text can be more than an ordering. -/
inductive OrderText where
  /-- An ordering, or no text at all: the rows are put in order. -/
  | ordering
  /-- The text `ordering LIMIT n`: the rows are put in order and cut to the first `n`. -/
  | limit (ordering : String) (n : Nat)
  /-- The text `ordering OFFSET n`: the rows are put in order and the first `n` are skipped. -/
  | offset (ordering : String) (n : Nat)
  /-- Any other text. -/
  | other
  deriving DecidableEq, Repr

/-- The reading of the text after `ORDER BY`. -/
def readOrderText (clause : String) : OrderText :=
  if clause = "" ∨ orderingClauses.contains clause = true then .ordering
  else match readKeyword " LIMIT " clause with
    | some (ordering, n) => .limit ordering n
    | none =>
      match readKeyword " OFFSET " clause with
      | some (ordering, n) => .offset ordering n
      | none => .other

/-- The rows that the engine returns of the rows that satisfy the conditions, for the text after
`ORDER BY` and the limit of the statement. For an ordering the rows are put in order and cut to
the limit. A `LIMIT n` inside the text cuts the rows to `n` when the statement has no limit of
its own; an `OFFSET n` inside the text skips `n` rows before the limit of the statement applies.
Everything else, a text with `LIMIT` in a statement that has a limit included (the engine
refuses two limits), is left to `Env.orderByRaw`. -/
def engineRows (env : Env) (clause : String) (limit : Option Int) (rows : List models.Job) :
    List models.Job :=
  match readOrderText clause, limit with
  | .ordering, some n => (env.orderBy clause rows).take n.toNat
  | .ordering, none => env.orderBy clause rows
  | .limit ordering k, none => (env.orderBy ordering rows).take k
  | .offset ordering k, some n => ((env.orderBy ordering rows).drop k).take n.toNat
  | .offset ordering k, none => (env.orderBy ordering rows).drop k
  | _, limit => env.orderByRaw clause limit rows

/-- The rows that `Preload("Employer").Find(&jobs)` returns for a statement: of the rows that
satisfy every condition, those that the engine returns for the text after `ORDER BY` and the
limit, each with its employer attached. -/
def Query.Find (q : Query) (db : DB) (env : Env) : List models.Job :=
  let rows := db.jobs.filter (fun job => q.wheres.all (fun c => c.holds job))
  let rows := engineRows env (", ".intercalate q.orders) q.limit rows
  rows.map (preloadEmployer db)

/-- The struct `JobQueryBuilder`. -/
structure JobQueryBuilder where
  query : Query
  deriving DecidableEq, Repr

/-- The function `NewJobQueryBuilder`: `db.Model(&models.Job{})`. -/
def NewJobQueryBuilder : JobQueryBuilder := { query := {} }

/-- The method `JobQueryBuilder.WithIndustry`. -/
def JobQueryBuilder.WithIndustry (b : JobQueryBuilder) (industry : String) : JobQueryBuilder :=
  if industry ≠ "" then { b with query := b.query.Where (.industry industry) } else b

/-- The method `JobQueryBuilder.WithJobType`. -/
def JobQueryBuilder.WithJobType (b : JobQueryBuilder) (jobType : String) : JobQueryBuilder :=
  if jobType ≠ "" then { b with query := b.query.Where (.jobType jobType) } else b

/-- The method `JobQueryBuilder.WithCity`. -/
def JobQueryBuilder.WithCity (b : JobQueryBuilder) (city : String) : JobQueryBuilder :=
  if city ≠ "" then { b with query := b.query.Where (.cityILike ("%" ++ city ++ "%")) } else b

/-- The method `JobQueryBuilder.WithTargetAudience`. -/
def JobQueryBuilder.WithTargetAudience (b : JobQueryBuilder) (audience : String) :
    JobQueryBuilder :=
  if audience ≠ "" then { b with query := b.query.Where (.targetAudienceOr audience "any") }
  else b

/-- The method `JobQueryBuilder.WithEmploymentMode`. -/
def JobQueryBuilder.WithEmploymentMode (b : JobQueryBuilder) (mode : String) : JobQueryBuilder :=
  if mode ≠ "" then { b with query := b.query.Where (.employmentMode mode) } else b

/-- The method `JobQueryBuilder.WithPaidStatus`. -/
def JobQueryBuilder.WithPaidStatus (b : JobQueryBuilder) (isPaid : Bool) : JobQueryBuilder :=
  { b with query := b.query.Where (.isPaid isPaid) }

/-- The method `JobQueryBuilder.WithIsActive`. -/
def JobQueryBuilder.WithIsActive (b : JobQueryBuilder) (isActive : Option Bool) :
    JobQueryBuilder :=
  match isActive with
  | some v => { b with query := b.query.Where (.isActive v) }
  | none => b

/-- The method `JobQueryBuilder.WithEmployerID`. -/
def JobQueryBuilder.WithEmployerID (b : JobQueryBuilder) (employerID : Nat) : JobQueryBuilder :=
  if employerID > 0 then { b with query := b.query.Where (.employerID employerID) } else b

/-- The method `JobQueryBuilder.OrderBy`. -/
def JobQueryBuilder.OrderBy (b : JobQueryBuilder) (field direction : String) : JobQueryBuilder :=
  if field ≠ "" ∧ direction ≠ "" then
    { b with query := b.query.Order (field ++ " " ++ direction) }
  else { b with query := b.query.Order "created_at DESC" }

/-- The method `JobQueryBuilder.Limit`. -/
def JobQueryBuilder.Limit (b : JobQueryBuilder) (limit : Int) : JobQueryBuilder :=
  if limit > 0 then { b with query := b.query.Limit limit } else b

/-- The method `JobQueryBuilder.Build`. -/
def JobQueryBuilder.Build (b : JobQueryBuilder) : Query := b.query

/-- The builder that `jobRepository.GetWithFilters` has assembled when it calls `Build`. -/
def jobRepository.GetWithFilters.builder (filters : JobFilters) : JobQueryBuilder :=
  let builder := NewJobQueryBuilder
  let builder := if filters.EmployerID > 0 then builder.WithEmployerID filters.EmployerID
    else builder
  let builder := ((((((builder.WithIndustry filters.Industry).WithJobType
    filters.JobType).WithCity filters.City).WithTargetAudience
    filters.TargetAudience).WithEmploymentMode filters.EmploymentMode).OrderBy
    filters.OrderBy filters.OrderDirection).Limit filters.Limit
  let builder := match filters.IsPaid with
    | some isPaid => builder.WithPaidStatus isPaid
    | none => builder
  builder.WithIsActive filters.IsActive

/-- The method `jobRepository.GetWithFilters`. -/
def jobRepository.GetWithFilters (db : DB) (env : Env) (filters : JobFilters) :
    Except Error (List models.Job) :=
  if env.fails .jobGetWithFilters then .error .Storage
  else .ok ((jobRepository.GetWithFilters.builder filters).Build.Find db env)

end repositories

/-! ## Package `services` -/

namespace services

/-- The struct `ApplyJobRequest`. -/
structure ApplyJobRequest where
  JobID : Nat := 0
  deriving DecidableEq, Repr

/-- The method `applicationService.ApplyToJob`. The clock is read twice: `now` is the reading
compared with the deadline, `stamp` the reading stored as `AppliedAt`. -/
def applicationService.ApplyToJob (db : DB) (env : Env) (now stamp : Time) (jobSeekerID : Nat)
    (req : ApplyJobRequest) : Except Error models.Application × DB :=
  match repositories.jobSeekerRepository.GetByID db env jobSeekerID with
  | .error _ => (.error (.New "job seeker profile not found"), db)
  | .ok jobSeeker =>
    match repositories.jobRepository.GetByID db env req.JobID with
    | .error err =>
      if err = .ErrRecordNotFound then (.error (.New "job not found"), db)
      else (.error err, db)
    | .ok job =>
      if !job.IsActive then (.error (.New "job is no longer active"), db)
      else if job.ApplicationDeadline.Before now then
        (.error (.New "application deadline has passed"), db)
      else
        match repositories.applicationRepository.GetByJobAndJobSeeker db env req.JobID
            jobSeekerID with
        | .ok _ => (.error (.New "you have already applied to this job"), db)
        | .error _ =>
          if job.ResumeRequired && jobSeeker.ResumeURL == "" then
            (.error (.New "resume is required for this job"), db)
          else if job.PortfolioRequired && jobSeeker.PortfolioURL == "" then
            (.error (.New "portfolio is required for this job"), db)
          else
            let application : models.Application :=
              { JobID := req.JobID, JobSeekerID := jobSeekerID, Status := "applied",
                AppliedAt := stamp }
            match repositories.applicationRepository.Create db env application with
            | .error _ => (.error (.New "failed to submit application"), db)
            | .ok (application, db') =>
              (.ok { application with Job := job, JobSeeker := jobSeeker }, db')

/-- The method `applicationService.WithdrawApplication`; the Go result `nil` is `none`. -/
def applicationService.WithdrawApplication (db : DB) (env : Env) (applicationID : Nat)
    (jobSeekerID : Nat) : Option Error × DB :=
  match repositories.applicationRepository.GetByID db env applicationID with
  | .error _ => (some (.New "application not found"), db)
  | .ok application =>
    if application.JobSeekerID ≠ jobSeekerID then
      (some (.New "unauthorized to withdraw this application"), db)
    else if application.Status = "selected" ∨ application.Status = "rejected" then
      (some (.New "cannot withdraw application that has been processed"), db)
    else
      match repositories.applicationRepository.Delete db env applicationID with
      | .error err => (some err, db)
      | .ok db' => (none, db')

/-- The struct `UpdateApplicationStatusRequest`. -/
structure UpdateApplicationStatusRequest where
  Status : String := ""
  deriving DecidableEq, Repr

/-- The tag `binding:"required,oneof=applied shortlisted rejected selected"` of the field
`Status`: what `ShouldBindJSON` checks in the handler before it calls the service. -/
def UpdateApplicationStatusRequest.binding (req : UpdateApplicationStatusRequest) : Bool :=
  req.Status != "" &&
    (req.Status == "applied" || req.Status == "shortlisted" || req.Status == "rejected" ||
      req.Status == "selected")

/-- The method `applicationService.UpdateApplicationStatus`; `now` is the reading of the clock
stored as `UpdatedAt`. -/
def applicationService.UpdateApplicationStatus (db : DB) (env : Env) (now : Time)
    (applicationID : Nat) (employerID : Nat) (req : UpdateApplicationStatusRequest) :
    Except Error models.Application × DB :=
  match repositories.applicationRepository.GetByID db env applicationID with
  | .error _ => (.error (.New "application not found"), db)
  | .ok application =>
    if application.Job.EmployerID ≠ employerID then
      (.error (.New "unauthorized to update this application"), db)
    else
      let application := { application with Status := req.Status, UpdatedAt := now }
      match repositories.applicationRepository.Update db env application with
      | .error _ => (.error (.New "failed to update application status"), db)
      | .ok db' => (.ok application, db')

/-- One call of the application lifecycle, with what the surroundings decide during it. -/
inductive LifecycleOp where
  | apply (env : Env) (now stamp : Time) (jobSeekerID : Nat) (req : ApplyJobRequest)
  | updateStatus (env : Env) (now : Time) (applicationID employerID : Nat)
      (req : UpdateApplicationStatusRequest)
  | withdraw (env : Env) (applicationID jobSeekerID : Nat)

/-- The store after one call of the application lifecycle. -/
def LifecycleOp.run (db : DB) : LifecycleOp → DB
  | .apply env now stamp jobSeekerID req =>
    (applicationService.ApplyToJob db env now stamp jobSeekerID req).2
  | .updateStatus env now applicationID employerID req =>
    (applicationService.UpdateApplicationStatus db env now applicationID employerID req).2
  | .withdraw env applicationID jobSeekerID =>
    (applicationService.WithdrawApplication db env applicationID jobSeekerID).2

/-- The store after a sequence of calls, executed one after the other. -/
def runLifecycle (ops : List LifecycleOp) (db : DB) : DB := ops.foldl LifecycleOp.run db

/-- The struct `services.JobFilters`, bound from the query string of the request. -/
structure JobFilters where
  Industry : String := ""
  JobType : String := ""
  City : String := ""
  TargetAudience : String := ""
  EmploymentMode : String := ""
  IsPaid : Option Bool := none
  IsActive : Option Bool := none
  OrderBy : String := ""
  OrderDirection : String := ""
  Limit : Int := 0
  deriving DecidableEq, Repr

/-- The local `repoFilters` of `jobService.GetAllJobs`; `&activeOnly` points to `true`. -/
def jobService.GetAllJobs.repoFilters (filters : JobFilters) : repositories.JobFilters :=
  let activeOnly := true
  { Industry := filters.Industry
    JobType := filters.JobType
    City := filters.City
    TargetAudience := filters.TargetAudience
    EmploymentMode := filters.EmploymentMode
    IsPaid := filters.IsPaid
    IsActive := some activeOnly
    OrderBy := filters.OrderBy
    OrderDirection := filters.OrderDirection
    Limit := filters.Limit }

/-- The method `jobService.GetAllJobs`. -/
def jobService.GetAllJobs (db : DB) (env : Env) (filters : JobFilters) :
    Except Error (List models.Job) :=
  repositories.jobRepository.GetWithFilters db env (jobService.GetAllJobs.repoFilters filters)

/-- The struct `CreateStudentProfileRequest`. -/
structure CreateStudentProfileRequest where
  CollegeName : String := ""
  Degree : String := ""
  YearSemester : String := ""
  SoftwareProficiency : List String := []
  PreviousInternships : List String := []
  FreelanceProjects : List String := []
  PreferredStartMonth : String := ""
  PreferredDuration : String := ""
  WillingToRelocate : Bool := false
  deriving DecidableEq, Repr

/-- The method `studentProfileService.CreateProfile`. -/
def studentProfileService.CreateProfile (db : DB) (env : Env) (jobSeekerID : Nat)
    (req : CreateStudentProfileRequest) : Except Error models.StudentProfile × DB :=
  match repositories.jobSeekerRepository.GetByID db env jobSeekerID with
  | .error _ => (.error (.New "job seeker profile not found"), db)
  | .ok jobSeeker =>
    if jobSeeker.JobSeekerType ≠ "student" then
      (.error (.New "student profile can only be created for student job seekers"), db)
    else
      match repositories.studentProfileRepository.GetByJobSeekerID db env jobSeekerID with
      | .ok _ => (.error (.New "student profile already exists"), db)
      | .error _ =>
        let softwareJSON := utils.ArrayToJSON req.SoftwareProficiency
        let internshipsJSON := utils.ArrayToJSON req.PreviousInternships
        let projectsJSON := utils.ArrayToJSON req.FreelanceProjects
        let profile : models.StudentProfile :=
          { JobSeekerID := jobSeekerID
            CollegeName := req.CollegeName
            Degree := req.Degree
            YearSemester := req.YearSemester
            SoftwareProficiency := softwareJSON
            PreviousInternships := internshipsJSON
            FreelanceProjects := projectsJSON
            PreferredStartMonth := req.PreferredStartMonth
            PreferredDuration := req.PreferredDuration
            WillingToRelocate := req.WillingToRelocate }
        match repositories.studentProfileRepository.Create db env profile with
        | .error _ => (.error (.New "failed to create student profile"), db)
        | .ok (profile, db') => (.ok { profile with JobSeeker := jobSeeker }, db')

/-- The struct `CreateFirmProfileRequest`. -/
structure CreateFirmProfileRequest where
  YearFounded : Int := 0
  FirmSize : String := ""
  LegalEntityType : String := ""
  PrimaryDiscipline : String := ""
  SecondaryDisciplines : List String := []
  InstagramURL : String := ""
  LinkedInURL : String := ""
  PreferredDuration : String := ""
  StipendRange : String := ""
  ProjectImages : List String := []
  deriving DecidableEq, Repr

/-- The method `firmProfileService.CreateProfile`. -/
def firmProfileService.CreateProfile (db : DB) (env : Env) (employerID : Nat)
    (req : CreateFirmProfileRequest) : Except Error models.FirmProfile × DB :=
  match repositories.employerRepository.GetByID db env employerID with
  | .error _ => (.error (.New "employer profile not found"), db)
  | .ok employer =>
    if employer.EmployerType ≠ "firm" then
      (.error (.New "firm profile can only be created for firm employers"), db)
    else
      match repositories.firmProfileRepository.GetByEmployerID db env employerID with
      | .ok _ => (.error (.New "firm profile already exists"), db)
      | .error _ =>
        let disciplinesJSON := utils.ArrayToJSON req.SecondaryDisciplines
        let imagesJSON := utils.ArrayToJSON req.ProjectImages
        let profile : models.FirmProfile :=
          { EmployerID := employerID
            YearFounded := req.YearFounded
            FirmSize := req.FirmSize
            LegalEntityType := req.LegalEntityType
            PrimaryDiscipline := req.PrimaryDiscipline
            SecondaryDisciplines := disciplinesJSON
            InstagramURL := req.InstagramURL
            LinkedInURL := req.LinkedInURL
            PreferredDuration := req.PreferredDuration
            StipendRange := req.StipendRange
            ProjectImages := imagesJSON }
        match repositories.firmProfileRepository.Create db env profile with
        | .error _ => (.error (.New "failed to create firm profile"), db)
        | .ok (profile, db') => (.ok { profile with Employer := employer }, db')

end services

/-! ## Sample data -/

/-- A student job seeker with a resume and no portfolio. -/
def sampleSeeker : models.JobSeeker :=
  { ID := 1, UserID := 1, FullName := "Asha Rao", JobSeekerType := "student",
    ResumeURL := "https://resume.com/test.pdf" }

/-- An employer of type firm. -/
def sampleEmployer : models.Employer :=
  { ID := 1, UserID := 2, CompanyName := "Studio Nine", EmployerType := "firm" }

/-- An active job for students with deadline 100 that requires a resume. -/
def sampleJob : models.Job :=
  { ID := 1, EmployerID := 1, Title := "Intern", TargetAudience := "students",
    ApplicationDeadline := 100, ResumeRequired := true, IsActive := true }

/-- The job `sampleJob` as `jobRepository.GetByID` returns it, employer attached. -/
def sampleJobLoaded : models.Job := { sampleJob with Employer := sampleEmployer }

/-- A store with one seeker, one employer, one job and no application. -/
def sampleDB : DB :=
  { jobSeekers := [sampleSeeker], employers := [sampleEmployer], jobs := [sampleJob] }

/-- The row of the first application of the sample seeker to the sample job, made at instant 50. -/
def sampleApplication : models.Application :=
  { ID := 1, JobID := 1, JobSeekerID := 1, Status := "applied", AppliedAt := 50 }

/-- The store `sampleDB` after that application. -/
def sampleDBApplied : DB :=
  { sampleDB with applications := [sampleApplication], applicationSeq := 1 }

/-- An active job for professionals. -/
def sampleJobProfessionals : models.Job :=
  { ID := 2, EmployerID := 1, Title := "Architect", TargetAudience := "professionals",
    ApplicationDeadline := 100, IsActive := true }

/-- An active job for any audience. -/
def sampleJobAny : models.Job :=
  { ID := 3, EmployerID := 1, Title := "Drafter", TargetAudience := "any",
    ApplicationDeadline := 100, IsActive := true }

/-- A job for students that is no longer active. -/
def sampleJobInactive : models.Job :=
  { ID := 4, EmployerID := 1, Title := "Modeller", TargetAudience := "students",
    ApplicationDeadline := 100, IsActive := false }

/-- A store with four jobs of one employer. -/
def sampleCatalog : DB :=
  { employers := [sampleEmployer],
    jobs := [sampleJob, sampleJobProfessionals, sampleJobAny, sampleJobInactive] }

/-- The store `sampleDB` with its job replaced by the inactive job, whose key is 4. -/
def sampleDBInactive : DB := { sampleDB with jobs := [sampleJobInactive] }

/-- The sample application after the employer selected it at instant 60. -/
def sampleApplicationSelected : models.Application :=
  { sampleApplication with Status := "selected", UpdatedAt := 60 }

/-- The store `sampleDBApplied` after the employer selected the application at instant 60. -/
def sampleDBSelected : DB := { sampleDBApplied with applications := [sampleApplicationSelected] }

/-! ## Vocabulary for sequences of lifecycle calls -/

namespace services

/-- Whether a status is one of the four states of an application. -/
def isApplicationStatus (status : String) : Bool :=
  status == "applied" || status == "shortlisted" || status == "rejected" || status == "selected"

/-- Whether a status is one of the two terminal states. -/
def isTerminalStatus (status : String) : Bool :=
  status == "selected" || status == "rejected"

/-- Whether the application stored under a key has a terminal status. -/
def hasTerminalStatus (db : DB) (applicationID : Nat) : Bool :=
  match db.applications.find? (fun a => a.ID == applicationID) with
  | some application => isTerminalStatus application.Status
  | none => false

/-- A call keeps the application under a key terminal when it is no status update of that
application to a status that is not terminal. -/
def LifecycleOp.keepsTerminal (applicationID : Nat) : LifecycleOp → Bool
  | .updateStatus _ _ id _ req => id != applicationID || isTerminalStatus req.Status
  | _ => true

/-- The duplicate lookup of the call is carried out by storage. -/
def LifecycleOp.duplicateLookupWorks : LifecycleOp → Bool
  | .apply env _ _ _ _ => !env.fails .applicationGetByJobAndJobSeeker
  | _ => true

/-- The request of the call passes the binding of `UpdateApplicationStatusRequest`, so that the
handler hands it to the service. -/
def LifecycleOp.bound : LifecycleOp → Bool
  | .updateStatus _ _ _ _ req => req.binding
  | _ => true

/-- The three calls of the counterexample to blocked withdrawal: the sample seeker applies, the
employer selects the application and then moves it back to "applied". -/
def sampleReopen : List LifecycleOp :=
  [.apply Env.reliable 50 50 1 { JobID := 1 },
   .updateStatus Env.reliable 60 1 1 { Status := "selected" },
   .updateStatus Env.reliable 70 1 1 { Status := "applied" }]

/-- What the lifecycle calls maintain in the applications table: the keys are distinct and were
handed out by the sequence, and no two rows have the same job and job seeker. -/
structure LifecycleInv (db : DB) : Prop where
  keys : (db.applications.map (fun a => a.ID)).Nodup
  sequence : ∀ a ∈ db.applications, a.ID ≤ db.applicationSeq
  pairs : (db.applications.map (fun a => (a.JobID, a.JobSeekerID))).Nodup

/-- Four calls on the sample store: the seeker applies, applies once more, the employer
shortlists the application, and the seeker applies a third time. -/
def sampleRepeatedApply : List LifecycleOp :=
  [.apply Env.reliable 50 50 1 { JobID := 1 },
   .apply Env.reliable 55 55 1 { JobID := 1 },
   .updateStatus Env.reliable 60 1 1 { Status := "shortlisted" },
   .apply Env.reliable 65 65 1 { JobID := 1 }]

end services

/-! ## Application statistics -/

namespace services

/-- The function `min` of `job_service.go`. -/
def min (a b : Int) : Int := if a < b then a else b

/-- The slice expression `s[:high]`; `none` stands for the run-time panic on a bound that is
negative or exceeds the length. -/
def sliceTo {α : Type} (s : List α) (high : Int) : Option (List α) :=
  if 0 ≤ high ∧ high ≤ (s.length : Int) then some (s.take high.toNat) else none

/-- The dynamic values that the modelled code stores in a `map[string]interface{}`. -/
inductive StatValue where
  | int (n : Int)
  | applications (l : List models.Application)
  | string (s : String)
  | time (t : Time)
  deriving DecidableEq, Repr

/-- A Go `map[string]interface{}`: the value stored under each key, `none` for an absent key. -/
abbrev Stats := String → Option StatValue

/-- The composite literal of a map: later entries of the list do not occur twice in the modelled
code, the first entry with the key is the one stored. -/
def Stats.literal (entries : List (String × StatValue)) : Stats :=
  fun key => (entries.find? (fun p => p.1 == key)).map (fun p => p.2)

/-- The assignment `stats[key] = v`. -/
def Stats.set (stats : Stats) (key : String) (v : StatValue) : Stats :=
  fun k => if k = key then some v else stats k

/-- The statement `stats[key] = stats[key].(int) + 1`; `none` stands for the panic of the type
assertion when the key is absent or holds no `int`. -/
def Stats.increment (stats : Stats) (key : String) : Option Stats :=
  match stats key with
  | some (.int n) => some (stats.set key (.int (n + 1)))
  | _ => none

/-- The loop over the applications with its `switch app.Status`, which `GetApplicationStats` and
`GetJobApplicationStats` both contain; `none` stands for a panic. -/
def applicationService.countByStatus (applications : List models.Application) (stats : Stats) :
    Option Stats :=
  applications.foldlM (fun stats app =>
    if app.Status = "applied" then stats.increment "applied"
    else if app.Status = "shortlisted" then stats.increment "shortlisted"
    else if app.Status = "rejected" then stats.increment "rejected"
    else if app.Status = "selected" then stats.increment "selected"
    else some stats) stats

/-- The method `applicationService.GetApplicationStats`; the outer `none` stands for a panic. -/
def applicationService.GetApplicationStats (db : DB) (env : Env) (jobSeekerID : Nat) :
    Option (Except Error Stats) :=
  match repositories.jobSeekerRepository.GetByID db env jobSeekerID with
  | .error _ => some (.error (.New "job seeker profile not found"))
  | .ok _ =>
    match repositories.applicationRepository.GetByJobSeekerID db env jobSeekerID with
    | .error err => some (.error err)
    | .ok applications =>
      match sliceTo applications (min 5 applications.length) with
      | none => none
      | some recent =>
        let stats : Stats := Stats.literal
          [("total_applications", .int applications.length),
           ("applied", .int 0),
           ("shortlisted", .int 0),
           ("rejected", .int 0),
           ("selected", .int 0),
           ("recent_applications", .applications recent)]
        match applicationService.countByStatus applications stats with
        | none => none
        | some stats => some (.ok stats)

/-- The method `applicationService.GetJobApplicationStats`; the outer `none` stands for a
panic. -/
def applicationService.GetJobApplicationStats (db : DB) (env : Env) (jobID : Nat)
    (employerID : Nat) : Option (Except Error Stats) :=
  match repositories.jobRepository.GetByID db env jobID with
  | .error _ => some (.error (.New "job not found"))
  | .ok job =>
    if job.EmployerID ≠ employerID then
      some (.error (.New "unauthorized to view stats for this job"))
    else
      match repositories.applicationRepository.GetByJobID db env jobID with
      | .error err => some (.error err)
      | .ok applications =>
        let stats : Stats := Stats.literal
          [("total_applications", .int applications.length),
           ("applied", .int 0),
           ("shortlisted", .int 0),
           ("rejected", .int 0),
           ("selected", .int 0),
           ("job_title", .string job.Title),
           ("application_deadline", .time job.ApplicationDeadline)]
        match applicationService.countByStatus applications stats with
        | none => none
        | some stats => some (.ok stats)

end services

/-! ## File intake -/

namespace filepath

/-- The loop of `filepath.Ext` over the path read backwards: it stops without an extension at a
path separator and returns the suffix from the first dot it meets. -/
def Ext.scan : List Char → List Char → Option (List Char)
  | [], _ => none
  | c :: rest, suffix =>
    if c = '/' then none
    else if c = '.' then some ('.' :: suffix)
    else Ext.scan rest (c :: suffix)

/-- The function `filepath.Ext` of the Go library: the suffix beginning at the final dot in the
final element of the path, empty when there is no dot. -/
def Ext (path : String) : String :=
  match Ext.scan path.toList.reverse [] with
  | some ext => String.mk ext
  | none => ""

end filepath

namespace strings

/-- The function `strings.ToLower` of the Go library on the letters A to Z; the Go function maps
the other upper-case letters of Unicode as well. -/
def ToLower (s : String) : String := String.mk (s.toList.map Char.toLower)

end strings

namespace services

/-- The fields of `multipart.FileHeader` that the modelled code reads. -/
structure FileHeader where
  Filename : String := ""
  Size : Int := 0
  deriving DecidableEq, Repr

/-- The type `FileType`. -/
abbrev FileType := String

/-- The constant `FileTypeResume`. -/
def FileTypeResume : FileType := "resume"

/-- The constant `FileTypePortfolio`. -/
def FileTypePortfolio : FileType := "portfolio"

/-- The method `UploadFile` of the interface `StorageService`, with the Go results `(string,
error)`. -/
abbrev StorageService := Nat → FileType → FileHeader → String × Option Error

/-- One call of `StorageService.UploadFile`. -/
structure StorageCall where
  userID : Nat
  fileType : FileType
  file : FileHeader
  deriving DecidableEq, Repr

/-- The method `fileService.ValidateFile`; the messages are those of `fmt.Errorf`, with `%d` the
decimal numeral and `%v` of a string slice its elements between brackets, separated by blanks. -/
def fileService.ValidateFile (file : FileHeader) (allowedTypes : List String) (maxSize : Int) :
    Option Error :=
  if file.Size > maxSize then
    some (.New ("file size " ++ toString file.Size ++ " bytes exceeds maximum " ++
      toString maxSize ++ " bytes"))
  else
    let ext := strings.ToLower (filepath.Ext file.Filename)
    if allowedTypes.any (fun allowedType => ext == allowedType) then none
    else some (.New ("file type " ++ ext ++ " not allowed. Allowed types: [" ++
      " ".intercalate allowedTypes ++ "]"))

/-- The method `fileService.UploadResume`: the Go results `(string, error)` and the calls of the
storage service that were made. -/
def fileService.UploadResume (storage : StorageService) (userID : Nat) (file : FileHeader) :
    (String × Option Error) × List StorageCall :=
  match fileService.ValidateFile file [".pdf"] (10 * 1024 * 1024) with
  | some err => (("", some err), [])
  | none => (storage userID FileTypeResume file, [{ userID, fileType := FileTypeResume, file }])

/-- The method `fileService.UploadPortfolio`. -/
def fileService.UploadPortfolio (storage : StorageService) (userID : Nat) (file : FileHeader) :
    (String × Option Error) × List StorageCall :=
  match fileService.ValidateFile file [".pdf"] (25 * 1024 * 1024) with
  | some err => (("", some err), [])
  | none =>
    (storage userID FileTypePortfolio file, [{ userID, fileType := FileTypePortfolio, file }])

/-- A storage service that returns one fixed address. -/
def sampleStorage : StorageService :=
  fun _ _ _ => ("https://black-pages-dev.s3.us-east-1.amazonaws.com/resume/file.pdf", none)

end services

/-! ## The specification's reading of the job filter -/

namespace repositories

/-- The filter as the specification words it: the conjunction of the predicates of the supplied
fields, where a field that is zero, empty or nil contributes no predicate. The predicates are
the exact match on the employer, the industry, the job type, the employment mode, the paid flag
and the active flag, the city pattern, and the audience match that also admits `any`. -/
def JobFilters.matchesSpec (filters : JobFilters) (job : models.Job) : Bool :=
  (decide (filters.EmployerID = 0) || job.EmployerID == filters.EmployerID) &&
  (filters.Industry == "" || job.Industry == filters.Industry) &&
  (filters.JobType == "" || job.JobType == filters.JobType) &&
  (filters.City == "" || ilike job.City ("%" ++ filters.City ++ "%")) &&
  (filters.TargetAudience == "" ||
    (job.TargetAudience == filters.TargetAudience || job.TargetAudience == "any")) &&
  (filters.EmploymentMode == "" || job.EmploymentMode == filters.EmploymentMode) &&
  (match filters.IsPaid with
    | some v => job.IsPaid == v
    | none => true) &&
  (match filters.IsActive with
    | some v => job.IsActive == v
    | none => true)

/-- A filter that supplies no field at all. -/
def JobFilters.suppliesNothing (filters : JobFilters) : Prop :=
  filters.EmployerID = 0 ∧ filters.Industry = "" ∧ filters.JobType = "" ∧ filters.City = "" ∧
  filters.TargetAudience = "" ∧ filters.EmploymentMode = "" ∧ filters.IsPaid = none ∧
  filters.IsActive = none

/-- The filter `g` supplies every field that `f` supplies, with the same value, and possibly
more fields. -/
def JobFilters.suppliesMore (g f : JobFilters) : Prop :=
  (f.EmployerID = 0 ∨ g.EmployerID = f.EmployerID) ∧
  (f.Industry = "" ∨ g.Industry = f.Industry) ∧
  (f.JobType = "" ∨ g.JobType = f.JobType) ∧
  (f.City = "" ∨ g.City = f.City) ∧
  (f.TargetAudience = "" ∨ g.TargetAudience = f.TargetAudience) ∧
  (f.EmploymentMode = "" ∨ g.EmploymentMode = f.EmploymentMode) ∧
  (f.IsPaid = none ∨ g.IsPaid = f.IsPaid) ∧
  (f.IsActive = none ∨ g.IsActive = f.IsActive)

/-- The sort field and the sort direction of the filter are what the specification expects of
the caller it trusts: one of them is left out, so that the default ordering applies, or the field
is a column of the jobs table and the direction is one of the two directions. -/
def JobFilters.ordersByColumn (filters : JobFilters) : Bool :=
  filters.OrderBy == "" || filters.OrderDirection == "" ||
    (jobColumns.contains filters.OrderBy && orderDirections.contains filters.OrderDirection)

end repositories

/-- A filter without any predicate whose sort direction carries a limit. -/
def sampleFilterLimitText : repositories.JobFilters :=
  { OrderBy := "id", OrderDirection := "DESC LIMIT 1" }

/-- A filter without any predicate, with limit 5, whose sort direction carries an offset. -/
def sampleFilterOffsetText : repositories.JobFilters :=
  { OrderBy := "id", OrderDirection := "DESC OFFSET 1", Limit := 5 }

/-! ## The specification's reading of the city filter -/

namespace repositories

/-- The city match as the specification words it: the stored city contains the filter string as a
substring at some position, letter case (letters A to Z) disregarded. -/
def containsFold (city c : String) : Bool :=
  decide ((c.toList.map Char.toLower) <:+: (city.toList.map Char.toLower))

/-- The characters that `LIKE` does not take literally. -/
def likeSpecial (ch : Char) : Bool := ch == '%' || ch == '_' || ch == '\\'

end repositories

/-! ## Users, base profiles and jobs: repositories -/

namespace repositories

/-- Modelled from the spec: the method `userRepository.GetByID`, called by the profile services.
The file of the user repository is not among the sources. The storage interface of the
specification offers a get-by-id per entity type that returns the entity or a NotFound-style
signal distinct from other failures; the lookup is taken to be `First(&user, id)`, as in the
repositories at hand. -/
def userRepository.GetByID (db : DB) (env : Env) (id : Nat) : Except Error models.User :=
  if env.fails .userGetByID then .error .Storage
  else match db.users.find? (fun u => u.ID == id) with
    | some user => .ok user
    | none => .error .ErrRecordNotFound

/-- Modelled from the spec: the method `userRepository.EmailExists`, called by `Register`, which
returns a `bool` and no error: whether a user with this email is stored. A count that storage
does not carry out reports no user. -/
def userRepository.EmailExists (db : DB) (env : Env) (email : String) : Bool :=
  if env.fails .userEmailExists then false
  else db.users.any (fun u => u.Email == email)

/-- Modelled from the spec: the method `userRepository.Create`, called by `Register`: the create
operation of the storage interface, taken to be `Create(user)` as in the repositories at hand.
The row is inserted with the next identifier of the sequence, which is written back into the
struct; the column `email` of `models.User` carries a unique index, so the insert is refused when
a user with the email is stored. -/
def userRepository.Create (db : DB) (env : Env) (user : models.User) :
    Except Error (models.User × DB) :=
  if env.fails .userCreate then .error .Storage
  else if db.users.any (fun u => u.Email == user.Email) then .error .Storage
  else
    let row : models.User := { user with ID := db.userSeq + 1 }
    .ok (row, { db with users := db.users ++ [row], userSeq := row.ID })

/-- The method `jobSeekerRepository.Create`. The column `user_id` carries a unique index, so the
insert is refused when the user already has a row. The column type `json` of `skills` is not
modelled: the row holds the text that the service wrote. -/
def jobSeekerRepository.Create (db : DB) (env : Env) (jobSeeker : models.JobSeeker) :
    Except Error (models.JobSeeker × DB) :=
  if env.fails .jobSeekerCreate then .error .Storage
  else if db.jobSeekers.any (fun js => js.UserID == jobSeeker.UserID) then .error .Storage
  else
    let row : models.JobSeeker := { jobSeeker with ID := db.jobSeekerSeq + 1 }
    .ok (row, { db with jobSeekers := db.jobSeekers ++ [row], jobSeekerSeq := row.ID })

/-- The method `jobSeekerRepository.GetByUserID`: `Where("user_id = ?", userID).First(&jobSeeker)`. -/
def jobSeekerRepository.GetByUserID (db : DB) (env : Env) (userID : Nat) :
    Except Error models.JobSeeker :=
  if env.fails .jobSeekerGetByUserID then .error .Storage
  else match db.jobSeekers.find? (fun js => js.UserID == userID) with
    | some jobSeeker => .ok jobSeeker
    | none => .error .ErrRecordNotFound

/-- The method `jobSeekerRepository.Update`: `Save(jobSeeker)` writes all columns of the row with
the primary key of the struct, and inserts the row when no row has that key. The struct that the
modelled code saves has been loaded by `GetByUserID` and keeps its `UserID`. -/
def jobSeekerRepository.Update (db : DB) (env : Env) (jobSeeker : models.JobSeeker) :
    Except Error DB :=
  if env.fails .jobSeekerUpdate then .error .Storage
  else if db.jobSeekers.any (fun js => js.ID == jobSeeker.ID) then
    .ok { db with
      jobSeekers := db.jobSeekers.map (fun js => if js.ID == jobSeeker.ID then jobSeeker else js) }
  else .ok { db with jobSeekers := db.jobSeekers ++ [jobSeeker] }

/-- The method `employerRepository.Create`. The column `user_id` carries a unique index, so the
insert is refused when the user already has a row. -/
def employerRepository.Create (db : DB) (env : Env) (employer : models.Employer) :
    Except Error (models.Employer × DB) :=
  if env.fails .employerCreate then .error .Storage
  else if db.employers.any (fun e => e.UserID == employer.UserID) then .error .Storage
  else
    let row : models.Employer := { employer with ID := db.employerSeq + 1 }
    .ok (row, { db with employers := db.employers ++ [row], employerSeq := row.ID })

/-- The method `employerRepository.GetByUserID`: `Where("user_id = ?", userID).First(&employer)`. -/
def employerRepository.GetByUserID (db : DB) (env : Env) (userID : Nat) :
    Except Error models.Employer :=
  if env.fails .employerGetByUserID then .error .Storage
  else match db.employers.find? (fun e => e.UserID == userID) with
    | some employer => .ok employer
    | none => .error .ErrRecordNotFound

/-- What gorm inserts for a `bool` field with a `default` tag: the zero value `false` is replaced
by the default, in the row and in the struct. -/
def insertDefault (value fallback : Bool) : Bool := if value = false then fallback else value

/-- The method `jobRepository.Create`: the row is inserted with the next identifier of the
sequence, which is written back into the struct. The fields `ResumeRequired` and `IsActive` of
`models.Job` are tagged `default:true`. The `Employer` association is no column, and the struct
that the modelled code creates carries none. The column type `json` of `required_skills` is not
modelled: the row holds the text that the service wrote. -/
def jobRepository.Create (db : DB) (env : Env) (job : models.Job) :
    Except Error (models.Job × DB) :=
  if env.fails .jobCreate then .error .Storage
  else
    let job : models.Job :=
      { job with
        ID := db.jobSeq + 1
        ResumeRequired := insertDefault job.ResumeRequired true
        IsActive := insertDefault job.IsActive true }
    let row : models.Job := { job with Employer := {} }
    .ok (job, { db with jobs := db.jobs ++ [row], jobSeq := row.ID })

/-- The method `jobRepository.Update`: `Save(job)` sets `UpdatedAt` of the struct to the clock
reading `stamp` of gorm, writes all columns of the row with the primary key of the struct, and
inserts the row when no row has that key. The struct that the modelled code saves has been loaded
by `GetByID`. Saving the loaded `Employer` association leaves its row alone. The struct comes
back with the new `UpdatedAt`. -/
def jobRepository.Update (db : DB) (env : Env) (stamp : Time) (job : models.Job) :
    Except Error (models.Job × DB) :=
  if env.fails .jobUpdate then .error .Storage
  else
    let job : models.Job := { job with UpdatedAt := stamp }
    let row : models.Job := { job with Employer := {} }
    if db.jobs.any (fun j => j.ID == job.ID) then
      .ok (job, { db with jobs := db.jobs.map (fun j => if j.ID == job.ID then row else j) })
    else .ok (job, { db with jobs := db.jobs ++ [row] })

end repositories

/-! ## Users, base profiles and jobs: services -/

namespace services

/-- The statements that `CreateJob`, `UpdateJob`, `jobSeekerService.CreateProfile` and
`jobSeekerService.UpdateProfile` each repeat inline for a list with a first element: the text
`["` and the first element, then for every further element the text `","` and the element, then
the text `"]`. -/
def inlineSkillsJSON (first : String) (rest : List String) : String :=
  let skillsJSON := "[\"" ++ first
  let skillsJSON := rest.foldl (fun skillsJSON skill => skillsJSON ++ ("\",\"" ++ skill)) skillsJSON
  skillsJSON ++ "\"]"

/-- The struct `CreateJobRequest`. -/
structure CreateJobRequest where
  Title : String := ""
  JobType : String := ""
  Industry : String := ""
  TargetAudience : String := ""
  EmploymentMode : String := ""
  StartMonth : String := ""
  Duration : String := ""
  ApplicationDeadline : Time := 0
  CompensationRange : String := ""
  IsPaid : Bool := false
  City : String := ""
  State : String := ""
  RequiredSkills : List String := []
  MinExperience : String := ""
  PortfolioRequired : Bool := false
  ResumeRequired : Bool := false
  Description : String := ""
  AboutTeam : String := ""
  ContactEmail : String := ""
  deriving DecidableEq, Repr

/-- The value of the variable `skillsJSON` of `CreateJob` when the job struct is built: the empty
string unless the list has an element. -/
def jobService.CreateJob.skillsJSON (requiredSkills : List String) : String :=
  match requiredSkills with
  | [] => ""
  | first :: rest => inlineSkillsJSON first rest

/-- The method `jobService.CreateJob`. -/
def jobService.CreateJob (db : DB) (env : Env) (now : Time) (employerID : Nat)
    (req : CreateJobRequest) : Except Error models.Job × DB :=
  match repositories.employerRepository.GetByID db env employerID with
  | .error _ => (.error (.New "employer not found"), db)
  | .ok employer =>
    if req.ApplicationDeadline.Before now then
      (.error (.New "application deadline cannot be in the past"), db)
    else
      let skillsJSON := jobService.CreateJob.skillsJSON req.RequiredSkills
      let job : models.Job :=
        { EmployerID := employerID
          Title := req.Title
          JobType := req.JobType
          Industry := req.Industry
          TargetAudience := req.TargetAudience
          EmploymentMode := req.EmploymentMode
          StartMonth := req.StartMonth
          Duration := req.Duration
          ApplicationDeadline := req.ApplicationDeadline
          CompensationRange := req.CompensationRange
          IsPaid := req.IsPaid
          City := req.City
          State := req.State
          RequiredSkills := skillsJSON
          MinExperience := req.MinExperience
          PortfolioRequired := req.PortfolioRequired
          ResumeRequired := req.ResumeRequired
          Description := req.Description
          AboutTeam := req.AboutTeam
          ContactEmail := req.ContactEmail
          IsActive := true }
      match repositories.jobRepository.Create db env job with
      | .error _ => (.error (.New "failed to create job"), db)
      | .ok (job, db') => (.ok { job with Employer := employer }, db')

/-- The struct `UpdateJobRequest`; a nil pointer is `none`. -/
structure UpdateJobRequest where
  Title : String := ""
  JobType : String := ""
  Industry : String := ""
  TargetAudience : String := ""
  EmploymentMode : String := ""
  StartMonth : String := ""
  Duration : String := ""
  ApplicationDeadline : Option Time := none
  CompensationRange : String := ""
  IsPaid : Option Bool := none
  City : String := ""
  State : String := ""
  RequiredSkills : List String := []
  MinExperience : String := ""
  PortfolioRequired : Option Bool := none
  ResumeRequired : Option Bool := none
  Description : String := ""
  AboutTeam : String := ""
  ContactEmail : String := ""
  IsActive : Option Bool := none
  deriving DecidableEq, Repr

/-- The statements of `UpdateJob` that follow the deadline block, from `CompensationRange` to
`IsActive`, as one pass over the loaded job. -/
def jobService.UpdateJob.afterDeadline (job : models.Job) (req : UpdateJobRequest) : models.Job :=
  let job := if req.CompensationRange ≠ "" then
    { job with CompensationRange := req.CompensationRange } else job
  let job := match req.IsPaid with
    | some isPaid => { job with IsPaid := isPaid }
    | none => job
  let job := if req.City ≠ "" then { job with City := req.City } else job
  let job := if req.State ≠ "" then { job with State := req.State } else job
  let job := match req.RequiredSkills with
    | first :: rest => { job with RequiredSkills := inlineSkillsJSON first rest }
    | [] => job
  let job := if req.MinExperience ≠ "" then { job with MinExperience := req.MinExperience }
    else job
  let job := match req.PortfolioRequired with
    | some portfolioRequired => { job with PortfolioRequired := portfolioRequired }
    | none => job
  let job := match req.ResumeRequired with
    | some resumeRequired => { job with ResumeRequired := resumeRequired }
    | none => job
  let job := if req.Description ≠ "" then { job with Description := req.Description } else job
  let job := if req.AboutTeam ≠ "" then { job with AboutTeam := req.AboutTeam } else job
  let job := if req.ContactEmail ≠ "" then { job with ContactEmail := req.ContactEmail } else job
  match req.IsActive with
  | some isActive => { job with IsActive := isActive }
  | none => job

/-- The statements of `UpdateJob` between the ownership check and the save: the fields of the
loaded job are overwritten one after the other, and a supplied deadline that lies before the
clock reading ends the method with an error. -/
def jobService.UpdateJob.patch (job : models.Job) (req : UpdateJobRequest) (now : Time) :
    Except Error models.Job :=
  let job := if req.Title ≠ "" then { job with Title := req.Title } else job
  let job := if req.JobType ≠ "" then { job with JobType := req.JobType } else job
  let job := if req.Industry ≠ "" then { job with Industry := req.Industry } else job
  let job := if req.TargetAudience ≠ "" then { job with TargetAudience := req.TargetAudience }
    else job
  let job := if req.EmploymentMode ≠ "" then { job with EmploymentMode := req.EmploymentMode }
    else job
  let job := if req.StartMonth ≠ "" then { job with StartMonth := req.StartMonth } else job
  let job := if req.Duration ≠ "" then { job with Duration := req.Duration } else job
  match req.ApplicationDeadline with
  | some deadline =>
    if deadline.Before now then .error (.New "application deadline cannot be in the past")
    else
      .ok (jobService.UpdateJob.afterDeadline { job with ApplicationDeadline := deadline } req)
  | none => .ok (jobService.UpdateJob.afterDeadline job req)

/-- The method `jobService.UpdateJob`; `now` is the clock reading of the deadline check and
`stamp` the one of the save. -/
def jobService.UpdateJob (db : DB) (env : Env) (now stamp : Time) (employerID jobID : Nat)
    (req : UpdateJobRequest) : Except Error models.Job × DB :=
  match repositories.jobRepository.GetByID db env jobID with
  | .error _ => (.error (.New "job not found"), db)
  | .ok job =>
    if job.EmployerID ≠ employerID then (.error (.New "unauthorized to update this job"), db)
    else
      match jobService.UpdateJob.patch job req now with
      | .error err => (.error err, db)
      | .ok job =>
        match repositories.jobRepository.Update db env stamp job with
        | .error _ => (.error (.New "failed to update job"), db)
        | .ok (job, db') => (.ok job, db')

/-- The struct `CreateJobSeekerRequest`. -/
structure CreateJobSeekerRequest where
  FullName : String := ""
  JobSeekerType : String := ""
  CurrentCity : String := ""
  Phone : String := ""
  DesiredField : String := ""
  ResumeURL : String := ""
  PortfolioURL : String := ""
  Skills : List String := []
  deriving DecidableEq, Repr

/-- The value of the variable `skillsJSON` of `jobSeekerService.CreateProfile` when the profile
struct is built: the empty string unless the list has an element. -/
def jobSeekerService.CreateProfile.skillsJSON (skills : List String) : String :=
  match skills with
  | [] => ""
  | first :: rest => inlineSkillsJSON first rest

/-- The method `jobSeekerService.CreateProfile`. The result of the lookup of an existing profile
is used without its error: any failure of the lookup leaves `existing` nil. -/
def jobSeekerService.CreateProfile (db : DB) (env : Env) (userID : Nat)
    (req : CreateJobSeekerRequest) : Except Error models.JobSeeker × DB :=
  match repositories.userRepository.GetByID db env userID with
  | .error _ => (.error (.New "user not found"), db)
  | .ok user =>
    if user.UserType ≠ "job_seeker" then (.error (.New "user is not a job seeker"), db)
    else
      match repositories.jobSeekerRepository.GetByUserID db env userID with
      | .ok _ => (.error (.New "job seeker profile already exists"), db)
      | .error _ =>
        let skillsJSON := jobSeekerService.CreateProfile.skillsJSON req.Skills
        let jobSeeker : models.JobSeeker :=
          { UserID := userID
            FullName := req.FullName
            JobSeekerType := req.JobSeekerType
            CurrentCity := req.CurrentCity
            Phone := req.Phone
            DesiredField := req.DesiredField
            ResumeURL := req.ResumeURL
            PortfolioURL := req.PortfolioURL
            Skills := skillsJSON }
        match repositories.jobSeekerRepository.Create db env jobSeeker with
        | .error _ => (.error (.New "failed to create job seeker profile"), db)
        | .ok (jobSeeker, db') => (.ok jobSeeker, db')

/-- The struct `UpdateJobSeekerRequest`. -/
structure UpdateJobSeekerRequest where
  FullName : String := ""
  JobSeekerType : String := ""
  CurrentCity : String := ""
  Phone : String := ""
  DesiredField : String := ""
  ResumeURL : String := ""
  PortfolioURL : String := ""
  Skills : List String := []
  deriving DecidableEq, Repr

/-- The statements of `jobSeekerService.UpdateProfile` between the lookup and the save. -/
def jobSeekerService.UpdateProfile.patch (jobSeeker : models.JobSeeker)
    (req : UpdateJobSeekerRequest) : models.JobSeeker :=
  let jobSeeker := if req.FullName ≠ "" then { jobSeeker with FullName := req.FullName }
    else jobSeeker
  let jobSeeker := if req.JobSeekerType ≠ "" then
    { jobSeeker with JobSeekerType := req.JobSeekerType } else jobSeeker
  let jobSeeker := if req.CurrentCity ≠ "" then { jobSeeker with CurrentCity := req.CurrentCity }
    else jobSeeker
  let jobSeeker := if req.Phone ≠ "" then { jobSeeker with Phone := req.Phone } else jobSeeker
  let jobSeeker := if req.DesiredField ≠ "" then
    { jobSeeker with DesiredField := req.DesiredField } else jobSeeker
  let jobSeeker := if req.ResumeURL ≠ "" then { jobSeeker with ResumeURL := req.ResumeURL }
    else jobSeeker
  let jobSeeker := if req.PortfolioURL ≠ "" then
    { jobSeeker with PortfolioURL := req.PortfolioURL } else jobSeeker
  match req.Skills with
  | first :: rest => { jobSeeker with Skills := inlineSkillsJSON first rest }
  | [] => jobSeeker

/-- The method `jobSeekerService.UpdateProfile`. -/
def jobSeekerService.UpdateProfile (db : DB) (env : Env) (userID : Nat)
    (req : UpdateJobSeekerRequest) : Except Error models.JobSeeker × DB :=
  match repositories.jobSeekerRepository.GetByUserID db env userID with
  | .error _ => (.error (.New "job seeker profile not found"), db)
  | .ok jobSeeker =>
    let jobSeeker := jobSeekerService.UpdateProfile.patch jobSeeker req
    match repositories.jobSeekerRepository.Update db env jobSeeker with
    | .error _ => (.error (.New "failed to update job seeker profile"), db)
    | .ok db' => (.ok jobSeeker, db')

/-- The struct `CreateEmployerRequest`. -/
structure CreateEmployerRequest where
  CompanyName : String := ""
  EmployerType : String := ""
  Industry : String := ""
  PrimaryPhone : String := ""
  ContactPerson : String := ""
  ContactPersonDesig : String := ""
  City : String := ""
  State : String := ""
  PinCode : String := ""
  WebsiteURL : String := ""
  LogoURL : String := ""
  deriving DecidableEq, Repr

/-- The method `employerService.CreateProfile`. The result of the lookup of an existing profile
is used without its error: any failure of the lookup leaves `existing` nil. -/
def employerService.CreateProfile (db : DB) (env : Env) (userID : Nat)
    (req : CreateEmployerRequest) : Except Error models.Employer × DB :=
  match repositories.userRepository.GetByID db env userID with
  | .error _ => (.error (.New "user not found"), db)
  | .ok user =>
    if user.UserType ≠ "employer" then (.error (.New "user is not an employer"), db)
    else
      match repositories.employerRepository.GetByUserID db env userID with
      | .ok _ => (.error (.New "employer profile already exists"), db)
      | .error _ =>
        let employer : models.Employer :=
          { UserID := userID
            CompanyName := req.CompanyName
            EmployerType := req.EmployerType
            Industry := req.Industry
            PrimaryPhone := req.PrimaryPhone
            ContactPerson := req.ContactPerson
            ContactPersonDesig := req.ContactPersonDesig
            City := req.City
            State := req.State
            PinCode := req.PinCode
            WebsiteURL := req.WebsiteURL
            LogoURL := req.LogoURL
            IsHiring := false }
        match repositories.employerRepository.Create db env employer with
        | .error _ => (.error (.New "failed to create employer profile"), db)
        | .ok (employer, db') => (.ok employer, db')

/-- A call of one of the two methods that create a base profile, with the storage faults of the
call. -/
inductive ProfileOp where
  | createJobSeeker (env : Env) (userID : Nat) (req : CreateJobSeekerRequest)
  | createEmployer (env : Env) (userID : Nat) (req : CreateEmployerRequest)

/-- The store after one call. -/
def ProfileOp.run (db : DB) : ProfileOp → DB
  | .createJobSeeker env userID req => (jobSeekerService.CreateProfile db env userID req).2
  | .createEmployer env userID req => (employerService.CreateProfile db env userID req).2

/-- The store after a sequence of calls. -/
def runProfileOps (ops : List ProfileOp) (db : DB) : DB := ops.foldl ProfileOp.run db

/-- The function `validatePassword`. The length of a Go string is its number of bytes, and the
three regular expressions look for one character of their class anywhere in the text. -/
def validatePassword (password : String) : Option Error :=
  if password.utf8ByteSize < 8 then
    some (.New "password must be at least 8 characters long")
  else
    let hasUpper := password.toList.any (fun c => decide ('A' ≤ c ∧ c ≤ 'Z'))
    let hasLower := password.toList.any (fun c => decide ('a' ≤ c ∧ c ≤ 'z'))
    let hasNumber := password.toList.any (fun c => decide ('0' ≤ c ∧ c ≤ '9'))
    if !hasUpper then some (.New "password must contain at least one uppercase letter")
    else if !hasLower then some (.New "password must contain at least one lowercase letter")
    else if !hasNumber then some (.New "password must contain at least one number")
    else none

/-- The struct `RegisterRequest`. -/
structure RegisterRequest where
  Email : String := ""
  Password : String := ""
  UserType : String := ""
  deriving DecidableEq, Repr

/-- The struct `AuthResponse`. -/
structure AuthResponse where
  Token : String := ""
  User : models.User := {}
  deriving DecidableEq, Repr

/-- The functions `utils.HashPassword` and `utils.GenerateJWT`, whose file is not among the
sources: they are arguments of the methods that call them. -/
structure AuthUtils where
  HashPassword : String → Except Error String
  GenerateJWT : Nat → String → String → Except Error String

/-- The method `authService.Register`. -/
def authService.Register (db : DB) (env : Env) (auth : AuthUtils) (req : RegisterRequest) :
    Except Error AuthResponse × DB :=
  match validatePassword req.Password with
  | some err => (.error err, db)
  | none =>
    if repositories.userRepository.EmailExists db env req.Email then
      (.error (.New "email already registered"), db)
    else
      match auth.HashPassword req.Password with
      | .error _ => (.error (.New "failed to hash password"), db)
      | .ok hashedPassword =>
        let user : models.User :=
          { Email := req.Email
            PasswordHash := hashedPassword
            UserType := req.UserType
            IsVerified := false }
        match repositories.userRepository.Create db env user with
        | .error _ => (.error (.New "failed to create user"), db)
        | .ok (user, db') =>
          match auth.GenerateJWT user.ID user.Email user.UserType with
          | .error _ => (.error (.New "failed to generate token"), db')
          | .ok token =>
            let user := { user with PasswordHash := "" }
            (.ok { Token := token, User := user }, db')

end services

/-! ## The specification's reading of the job update -/

namespace services

/-- The update as the specification words it: every patchable field takes the value of the
request when the request supplies one (a non-empty string, a non-nil pointer, a non-empty skill
list, stored in its encoded form) and keeps its previous value otherwise; the other fields, among
them `ID`, `EmployerID` and `CreatedAt`, keep their values. -/
def UpdateJobRequest.applyTo (req : UpdateJobRequest) (job : models.Job) : models.Job :=
  { job with
    Title := if req.Title ≠ "" then req.Title else job.Title
    JobType := if req.JobType ≠ "" then req.JobType else job.JobType
    Industry := if req.Industry ≠ "" then req.Industry else job.Industry
    TargetAudience := if req.TargetAudience ≠ "" then req.TargetAudience else job.TargetAudience
    EmploymentMode := if req.EmploymentMode ≠ "" then req.EmploymentMode else job.EmploymentMode
    StartMonth := if req.StartMonth ≠ "" then req.StartMonth else job.StartMonth
    Duration := if req.Duration ≠ "" then req.Duration else job.Duration
    ApplicationDeadline := req.ApplicationDeadline.getD job.ApplicationDeadline
    CompensationRange :=
      if req.CompensationRange ≠ "" then req.CompensationRange else job.CompensationRange
    IsPaid := req.IsPaid.getD job.IsPaid
    City := if req.City ≠ "" then req.City else job.City
    State := if req.State ≠ "" then req.State else job.State
    RequiredSkills :=
      if req.RequiredSkills ≠ [] then utils.ArrayToJSON req.RequiredSkills
      else job.RequiredSkills
    MinExperience := if req.MinExperience ≠ "" then req.MinExperience else job.MinExperience
    PortfolioRequired := req.PortfolioRequired.getD job.PortfolioRequired
    ResumeRequired := req.ResumeRequired.getD job.ResumeRequired
    Description := if req.Description ≠ "" then req.Description else job.Description
    AboutTeam := if req.AboutTeam ≠ "" then req.AboutTeam else job.AboutTeam
    ContactEmail := if req.ContactEmail ≠ "" then req.ContactEmail else job.ContactEmail
    IsActive := req.IsActive.getD job.IsActive }

end services

/-- The store in which every row of the jobs table with the key of `job` holds the columns of
`job`, and everything else is as in `db`. -/
def DB.withJob (db : DB) (job : models.Job) : DB :=
  { db with
    jobs := db.jobs.map (fun j => if j.ID == job.ID then { job with Employer := {} } else j) }

/-! ## Sample data: users and base profiles -/

/-- A user with the role of a job seeker. -/
def sampleUserSeeker : models.User :=
  { ID := 1, Email := "asha@example.com", PasswordHash := "hash", UserType := "job_seeker" }

/-- A user with the role of an employer. -/
def sampleUserEmployer : models.User :=
  { ID := 2, Email := "studio@example.com", PasswordHash := "hash", UserType := "employer" }

/-- A store with the two users and no profile. -/
def sampleUsers : DB := { users := [sampleUserSeeker, sampleUserEmployer], userSeq := 2 }

/-- A request for the profile of a student that names no skill. -/
def sampleSeekerRequest : services.CreateJobSeekerRequest :=
  { FullName := "Asha Rao", JobSeekerType := "student", CurrentCity := "Pune",
    Phone := "100", DesiredField := "Architecture",
    ResumeURL := "https://resume.com/test.pdf" }

/-- The row that `sampleSeekerRequest` creates for the first user. -/
def sampleSeekerRow : models.JobSeeker :=
  { ID := 1, UserID := 1, FullName := "Asha Rao", JobSeekerType := "student",
    CurrentCity := "Pune", Phone := "100", DesiredField := "Architecture",
    ResumeURL := "https://resume.com/test.pdf", Skills := "" }

/-- A request for the profile of a firm. -/
def sampleEmployerRequest : services.CreateEmployerRequest :=
  { CompanyName := "Studio Nine", EmployerType := "firm" }

/-- The row that `sampleEmployerRequest` creates for the second user. -/
def sampleEmployerRow : models.Employer :=
  { ID := 1, UserID := 2, CompanyName := "Studio Nine", EmployerType := "firm" }

/-- The store `sampleUsers` after both users have created their profile. -/
def sampleUsersWithProfiles : DB :=
  { sampleUsers with
    jobSeekers := [sampleSeekerRow], jobSeekerSeq := 1
    employers := [sampleEmployerRow], employerSeq := 1 }

/-- The row of the first user when its profile was created with the one skill AutoCAD. -/
def sampleSeekerSkilled : models.JobSeeker :=
  { sampleSeekerRow with Skills := "[\"AutoCAD\"]" }

/-- The store `sampleUsers` after the first user has created that profile. -/
def sampleUsersSkilled : DB :=
  { sampleUsers with jobSeekers := [sampleSeekerSkilled], jobSeekerSeq := 1 }

/-- The sample job with the one required skill Revit. -/
def sampleJobSkilled : models.Job := { sampleJob with RequiredSkills := "[\"Revit\"]" }

/-- The store `sampleDB` with that job in the place of the sample job. -/
def sampleDBSkilled : DB := { sampleDB with jobs := [sampleJobSkilled] }

/-- A request for a job that names no skill. -/
def sampleJobRequest : services.CreateJobRequest :=
  { Title := "Intern", TargetAudience := "students", ApplicationDeadline := 100,
    ResumeRequired := true }

/-! ## Vocabulary for sequences of profile creations -/

namespace services

/-- What the two creating methods maintain in the tables of the base profiles: every job seeker
profile belongs to a stored user with the role "job_seeker", every employer profile belongs to a
stored user with the role "employer", and no two profiles of one kind belong to the same user. -/
structure ProfileInv (db : DB) : Prop where
  seekerRole : ∀ js ∈ db.jobSeekers, ∃ user,
    db.users.find? (fun u => u.ID == js.UserID) = some user ∧ user.UserType = "job_seeker"
  employerRole : ∀ e ∈ db.employers, ∃ user,
    db.users.find? (fun u => u.ID == e.UserID) = some user ∧ user.UserType = "employer"
  seekerUnique : (db.jobSeekers.map (fun js => js.UserID)).Nodup
  employerUnique : (db.employers.map (fun e => e.UserID)).Nodup

/-- Five calls on the store with the two users: the first user creates a job seeker profile and
asks for an employer profile, the second user creates an employer profile, and the first user
asks for a job seeker profile twice more, the second time while the lookup of the existing
profile fails. -/
def sampleProfileOps : List ProfileOp :=
  [.createJobSeeker Env.reliable 1 sampleSeekerRequest,
   .createEmployer Env.reliable 1 sampleEmployerRequest,
   .createEmployer Env.reliable 2 sampleEmployerRequest,
   .createJobSeeker Env.reliable 1 sampleSeekerRequest,
   .createJobSeeker (Env.failing .jobSeekerGetByUserID) 1 sampleSeekerRequest]

end services

/-! ## Sample data: registration -/

/-- Helpers for the password hash and the token that never fail. -/
def sampleAuthUtils : services.AuthUtils :=
  { HashPassword := fun password => .ok ("hash:" ++ password)
    GenerateJWT := fun _ email _ => .ok ("token:" ++ email) }

/-! ## Theorems -/

/-! ### `ArrayToJSON` -/

namespace utils

/-- The loop of `ArrayToJSON` from the second element on: every element is preceded by the
separator. -/
theorem foldl_enumFrom_sep (sep : String) (l : List String) (n : Nat) (hn : 0 < n) (acc : String) :
    (l.enumFrom n).foldl (fun json p => (if p.1 > 0 then json ++ sep else json) ++ p.2) acc
      = l.foldl (fun json x => json ++ sep ++ x) acc := by
  induction l generalizing n acc with
  | nil => rfl
  | cons x xs ih =>
    simp only [List.enumFrom_cons, List.foldl_cons]
    rw [ih (n + 1) (Nat.succ_pos n)]
    simp [hn]

/-- The accumulator loop of `String.intercalate` is the same fold. -/
theorem intercalate_go_eq_foldl (sep : String) (l : List String) (acc : String) :
    String.intercalate.go acc sep l = l.foldl (fun json x => json ++ sep ++ x) acc := by
  induction l generalizing acc with
  | nil => rfl
  | cons x xs ih => simp [String.intercalate.go, ih]

/-- A fixed front part of the accumulator can be taken out of the fold. -/
theorem foldl_sep_append (sep a b : String) (l : List String) :
    l.foldl (fun json x => json ++ sep ++ x) (a ++ b)
      = a ++ l.foldl (fun json x => json ++ sep ++ x) b := by
  induction l generalizing b with
  | nil => rfl
  | cons x xs ih =>
    simp only [List.foldl_cons]
    rw [String.append_assoc a b sep, String.append_assoc a (b ++ sep) x, ih]

/-- The encoding of a non-empty list: opening, the elements joined by the separator, closing. -/
theorem ArrayToJSON_cons (x : String) (xs : List String) :
    ArrayToJSON (x :: xs) = "[\"" ++ "\",\"".intercalate (x :: xs) ++ "\"]" := by
  unfold ArrayToJSON
  simp only [List.length_cons, Nat.succ_ne_zero, if_false, List.enum, List.enumFrom_cons, List.foldl_cons]
  rw [foldl_enumFrom_sep _ _ _ (by decide)]
  simp only [String.intercalate, intercalate_go_eq_foldl]
  rw [foldl_sep_append]
  simp

/-- Claim C5, evaluated on the code: the lists `["a\",\"b"]` (one element) and `["a", "b"]`
(two elements) have the same encoding `["a","b"]`, so no decoder whatsoever returns every non-empty
list from its encoding. An element that contains a double quote is not escaped. -/
theorem ArrayToJSON_roundtrip_fails :
    ArrayToJSON ["a\",\"b"] = "[\"a\",\"b\"]" ∧
    ArrayToJSON ["a", "b"] = "[\"a\",\"b\"]" ∧
    ¬ ∃ decode : String → Option (List String),
        ∀ S : List String, S ≠ [] → decode (ArrayToJSON S) = some S := by
  have h1 : ArrayToJSON ["a\",\"b"] = "[\"a\",\"b\"]" := by decide
  have h2 : ArrayToJSON ["a", "b"] = "[\"a\",\"b\"]" := by decide
  refine ⟨h1, h2, ?_⟩
  rintro ⟨decode, hdec⟩
  have e1 := hdec ["a\",\"b"] (by simp)
  have e2 := hdec ["a", "b"] (by simp)
  rw [h1] at e1
  rw [h2, e1] at e2
  simp at e2

/-- Claim C6: `ArrayToJSON` returns `[]` for the empty list and otherwise the opening `["`, the
elements in order joined by `","`, and the closing `"]`; the three lists of the test are encoded
as the test expects, spaces inside elements included. -/
theorem ArrayToJSON_eq_join (arr : List String) :
    ArrayToJSON arr =
        (if arr = [] then "[]" else "[\"" ++ "\",\"".intercalate arr ++ "\"]") ∧
    ArrayToJSON [] = "[]" ∧
    ArrayToJSON ["AutoCAD"] = "[\"AutoCAD\"]" ∧
    ArrayToJSON ["AutoCAD", "Revit", "SketchUp"] = "[\"AutoCAD\",\"Revit\",\"SketchUp\"]" ∧
    ArrayToJSON ["Adobe Creative Suite", "3D Modeling"]
      = "[\"Adobe Creative Suite\",\"3D Modeling\"]" := by
  refine ⟨?_, by decide, by decide, by decide, by decide⟩
  cases arr with
  | nil => rfl
  | cons x xs => rw [ArrayToJSON_cons]; simp

end utils

/-! ### Application lifecycle -/

namespace services
open repositories

/-- What a successful `ApplyToJob` has found, inserted and returned. -/
theorem ApplyToJob_ok_inv (db db1 : DB) (env : Env) (now stamp : Time) (jobSeekerID : Nat)
    (req : ApplyJobRequest) (app : models.Application)
    (h : applicationService.ApplyToJob db env now stamp jobSeekerID req = (.ok app, db1)) :
    ∃ jobSeeker job,
      jobSeekerRepository.GetByID db env jobSeekerID = .ok jobSeeker ∧
      jobRepository.GetByID db env req.JobID = .ok job ∧
      job.IsActive = true ∧ job.ApplicationDeadline.Before now = false ∧
      db1 = { db with
        applications := db.applications ++
          [{ ID := db.applicationSeq + 1, JobID := req.JobID, JobSeekerID := jobSeekerID,
             Status := "applied", AppliedAt := stamp }],
        applicationSeq := db.applicationSeq + 1 } ∧
      app = { ID := db.applicationSeq + 1, JobID := req.JobID, Job := job,
              JobSeekerID := jobSeekerID, JobSeeker := jobSeeker, Status := "applied",
              AppliedAt := stamp } := by
  unfold applicationService.ApplyToJob at h
  split at h
  · simp at h
  · rename_i jobSeeker hseeker
    split at h
    · split at h <;> simp at h
    · rename_i job hjob
      split at h
      · simp at h
      · rename_i hact
        split at h
        · simp at h
        · rename_i hdead
          split at h
          · simp at h
          · split at h
            · simp at h
            · split at h
              · simp at h
              · simp only [applicationRepository.Create] at h
                split at h
                · simp at h
                · rename_i a d hc
                  split at hc
                  · simp at hc
                  · simp only [Except.ok.injEq, Prod.mk.injEq] at hc
                    obtain ⟨ha, hd⟩ := hc
                    simp only [Prod.mk.injEq, Except.ok.injEq] at h
                    obtain ⟨happ, hdb⟩ := h
                    refine ⟨jobSeeker, job, hseeker, hjob, by simpa using hact, by simpa using hdead, ?_, ?_⟩
                    · rw [← hdb, ← hd]
                    · rw [← happ, ← ha]


/-- Claim C1: for a job seeker and an active job that the lookups return, `ApplyToJob` at the
instant `now` fails with "application deadline has passed" exactly when the deadline is strictly
before `now`; a deadline equal to `now` does not fail the deadline check. -/
theorem ApplyToJob_deadline (db : DB) (env : Env) (now stamp : Time) (jobSeekerID : Nat)
    (req : ApplyJobRequest) (jobSeeker : models.JobSeeker) (job : models.Job)
    (hseeker : jobSeekerRepository.GetByID db env jobSeekerID = .ok jobSeeker)
    (hjob : jobRepository.GetByID db env req.JobID = .ok job)
    (hactive : job.IsActive = true) :
    ((applicationService.ApplyToJob db env now stamp jobSeekerID req).1
        = .error (.New "application deadline has passed") ↔ job.ApplicationDeadline < now) ∧
    (job.ApplicationDeadline = now →
      (applicationService.ApplyToJob db env now stamp jobSeekerID req).1
        ≠ .error (.New "application deadline has passed")) := by
  have key : (applicationService.ApplyToJob db env now stamp jobSeekerID req).1
        = .error (.New "application deadline has passed") ↔ job.ApplicationDeadline < now := by
    unfold applicationService.ApplyToJob
    simp only [hseeker, hjob, hactive, Time.Before]
    by_cases hd : job.ApplicationDeadline < now
    · simp [hd]
    · simp only [hd, decide_False, Bool.not_true, Bool.false_eq_true, if_false, iff_false]
      split
      · simp
      · split
        · simp
        · split
          · simp
          · split <;> simp
  refine ⟨key, ?_⟩
  intro h heq
  rw [key, h] at heq
  exact lt_irrefl now heq

/-- The sample seeker applies to the sample job at its deadline 100: the deadline check passes. -/
theorem ApplyToJob_deadline_witness :
    ((applicationService.ApplyToJob sampleDB Env.reliable 100 100 1 { JobID := 1 }).1
        = .error (.New "application deadline has passed") ↔
        sampleJobLoaded.ApplicationDeadline < 100) ∧
    (sampleJobLoaded.ApplicationDeadline = 100 →
      (applicationService.ApplyToJob sampleDB Env.reliable 100 100 1 { JobID := 1 }).1
        ≠ .error (.New "application deadline has passed")) :=
  ApplyToJob_deadline sampleDB Env.reliable 100 100 1 { JobID := 1 } sampleSeeker sampleJobLoaded
    rfl rfl rfl

/-- Claim C2: for an application that the lookup returns and that belongs to the calling seeker,
and a delete that storage carries out, `WithdrawApplication` succeeds exactly when the status is
neither "selected" nor "rejected"; "applied" and "shortlisted" succeed, "selected" and "rejected"
fail with "cannot withdraw application that has been processed" and leave the store as it was. -/
theorem WithdrawApplication_status (db : DB) (env : Env) (applicationID jobSeekerID : Nat)
    (application : models.Application)
    (hget : applicationRepository.GetByID db env applicationID = .ok application)
    (hown : application.JobSeekerID = jobSeekerID)
    (hdel : env.fails .applicationDelete = false) :
    ((applicationService.WithdrawApplication db env applicationID jobSeekerID).1 = none ↔
      (application.Status ≠ "selected" ∧ application.Status ≠ "rejected")) ∧
    ((application.Status = "applied" ∨ application.Status = "shortlisted") →
      (applicationService.WithdrawApplication db env applicationID jobSeekerID).1 = none) ∧
    ((application.Status = "selected" ∨ application.Status = "rejected") →
      applicationService.WithdrawApplication db env applicationID jobSeekerID
        = (some (.New "cannot withdraw application that has been processed"), db)) := by
  have hyes : (application.Status ≠ "selected" ∧ application.Status ≠ "rejected") →
      (applicationService.WithdrawApplication db env applicationID jobSeekerID).1 = none := by
    intro hs
    simp [applicationService.WithdrawApplication, hget, hown, hs.1, hs.2,
      applicationRepository.Delete, hdel]
  have hno : (application.Status = "selected" ∨ application.Status = "rejected") →
      applicationService.WithdrawApplication db env applicationID jobSeekerID
        = (some (.New "cannot withdraw application that has been processed"), db) := by
    intro hs
    simp [applicationService.WithdrawApplication, hget, hown, hs]
  refine ⟨⟨?_, hyes⟩, ?_, hno⟩
  · intro hnone
    by_contra hc
    have hs : application.Status = "selected" ∨ application.Status = "rejected" := by
      by_cases h1 : application.Status = "selected"
      · exact Or.inl h1
      · by_cases h2 : application.Status = "rejected"
        · exact Or.inr h2
        · exact absurd ⟨h1, h2⟩ hc
    rw [hno hs] at hnone
    simp at hnone
  · intro hs
    apply hyes
    rcases hs with hs | hs <;> rw [hs] <;> decide

/-- The sample seeker withdraws the application of `sampleDBApplied`, whose status is
"applied". -/
theorem WithdrawApplication_status_witness :
    (applicationService.WithdrawApplication sampleDBApplied Env.reliable 1 1).1 = none :=
  (WithdrawApplication_status sampleDBApplied Env.reliable 1 1
    { sampleApplication with Job := sampleJob, JobSeeker := sampleSeeker } rfl rfl rfl).2.1
    (Or.inl rfl)

/-- Claim C3: after a successful `ApplyToJob`, a second `ApplyToJob` for the same job and seeker
on the resulting store, with lookups that storage carries out and the deadline still not passed,
fails with "you have already applied to this job" and leaves the store as it was. The job is
still active because the first call does not touch the job rows. -/
theorem ApplyToJob_second_rejected (db db1 : DB) (env env2 : Env) (now stamp now2 stamp2 : Time)
    (jobSeekerID : Nat) (req : ApplyJobRequest) (app : models.Application)
    (hfirst : applicationService.ApplyToJob db env now stamp jobSeekerID req = (.ok app, db1))
    (hseeker2 : env2.fails .jobSeekerGetByID = false)
    (hjob2 : env2.fails .jobGetByID = false)
    (hdup2 : env2.fails .applicationGetByJobAndJobSeeker = false)
    (hdeadline : ∀ job, jobRepository.GetByID db1 env2 req.JobID = .ok job →
      job.ApplicationDeadline.Before now2 = false) :
    applicationService.ApplyToJob db1 env2 now2 stamp2 jobSeekerID req
      = (.error (.New "you have already applied to this job"), db1) := by
  obtain ⟨jobSeeker, job, hseeker, hjob, hactive, -, hdb, -⟩ :=
    ApplyToJob_ok_inv db db1 env now stamp jobSeekerID req app hfirst
  have hseeker' : jobSeekerRepository.GetByID db1 env2 jobSeekerID = .ok jobSeeker := by
    unfold jobSeekerRepository.GetByID at hseeker ⊢
    rw [hdb]
    split at hseeker
    · simp at hseeker
    · simpa [hseeker2] using hseeker
  have hjob' : jobRepository.GetByID db1 env2 req.JobID = .ok job := by
    unfold jobRepository.GetByID at hjob ⊢
    rw [hdb]
    split at hjob
    · simp at hjob
    · simpa [hjob2, preloadEmployer] using hjob
  have hdead := hdeadline job hjob'
  have hfound : ∃ a, applicationRepository.GetByJobAndJobSeeker db1 env2 req.JobID jobSeekerID
      = .ok a := by
    unfold applicationRepository.GetByJobAndJobSeeker
    rw [hdb]
    simp only [hdup2, Bool.false_eq_true, if_false]
    split
    · exact ⟨_, rfl⟩
    · rename_i hnone
      rw [List.find?_eq_none] at hnone
      have := hnone _ (List.mem_append_right _ (List.mem_singleton_self _))
      simp at this
  obtain ⟨a, ha⟩ := hfound
  simp [applicationService.ApplyToJob, hseeker', hjob', hactive, hdead, ha]

/-- The sample seeker applies at instant 50 and once more at instant 100. -/
theorem ApplyToJob_second_rejected_witness :
    applicationService.ApplyToJob sampleDBApplied Env.reliable 100 100 1 { JobID := 1 }
      = (.error (.New "you have already applied to this job"), sampleDBApplied) :=
  ApplyToJob_second_rejected sampleDB sampleDBApplied Env.reliable Env.reliable 50 50 100 100 1
    { JobID := 1 }
    { sampleApplication with Job := sampleJobLoaded, JobSeeker := sampleSeeker }
    rfl rfl rfl rfl (fun _ h => Except.ok.inj h ▸ rfl)

/-- Claim C4: when the lookups return the seeker and an active job whose deadline has not passed
and find no application for the pair, `ApplyToJob` gets past the requirement checks exactly when
(the job requires no resume or the seeker has one) and (the job requires no portfolio or the
seeker has one); a required and missing resume gives "resume is required for this job", and with
the resume check passed a required and missing portfolio gives "portfolio is required for this
job"; past both checks the call succeeds when storage carries out the insert. -/
theorem ApplyToJob_requirements (db : DB) (env : Env) (now stamp : Time) (jobSeekerID : Nat)
    (req : ApplyJobRequest) (jobSeeker : models.JobSeeker) (job : models.Job) (e : Error)
    (hseeker : jobSeekerRepository.GetByID db env jobSeekerID = .ok jobSeeker)
    (hjob : jobRepository.GetByID db env req.JobID = .ok job)
    (hactive : job.IsActive = true)
    (hdeadline : job.ApplicationDeadline.Before now = false)
    (hnone : applicationRepository.GetByJobAndJobSeeker db env req.JobID jobSeekerID
      = .error e) :
    (((applicationService.ApplyToJob db env now stamp jobSeekerID req).1
          ≠ .error (.New "resume is required for this job") ∧
        (applicationService.ApplyToJob db env now stamp jobSeekerID req).1
          ≠ .error (.New "portfolio is required for this job")) ↔
      ((job.ResumeRequired = false ∨ jobSeeker.ResumeURL ≠ "") ∧
        (job.PortfolioRequired = false ∨ jobSeeker.PortfolioURL ≠ ""))) ∧
    (job.ResumeRequired = true → jobSeeker.ResumeURL = "" →
      applicationService.ApplyToJob db env now stamp jobSeekerID req
        = (.error (.New "resume is required for this job"), db)) ∧
    ((job.ResumeRequired = false ∨ jobSeeker.ResumeURL ≠ "") →
      job.PortfolioRequired = true → jobSeeker.PortfolioURL = "" →
      applicationService.ApplyToJob db env now stamp jobSeekerID req
        = (.error (.New "portfolio is required for this job"), db)) ∧
    ((job.ResumeRequired = false ∨ jobSeeker.ResumeURL ≠ "") →
      (job.PortfolioRequired = false ∨ jobSeeker.PortfolioURL ≠ "") →
      env.fails .applicationCreate = false →
      ∃ app db1, applicationService.ApplyToJob db env now stamp jobSeekerID req
        = (.ok app, db1)) := by
  have hres : job.ResumeRequired = true → jobSeeker.ResumeURL = "" →
      applicationService.ApplyToJob db env now stamp jobSeekerID req
        = (.error (.New "resume is required for this job"), db) := by
    intro h1 h2
    simp [applicationService.ApplyToJob, hseeker, hjob, hactive, hdeadline, hnone, h1, h2]
  have hport : (job.ResumeRequired = false ∨ jobSeeker.ResumeURL ≠ "") →
      job.PortfolioRequired = true → jobSeeker.PortfolioURL = "" →
      applicationService.ApplyToJob db env now stamp jobSeekerID req
        = (.error (.New "portfolio is required for this job"), db) := by
    intro h0 h1 h2
    rcases h0 with h0 | h0 <;>
      simp [applicationService.ApplyToJob, hseeker, hjob, hactive, hdeadline, hnone, h0, h1, h2]
  have hpass : (job.ResumeRequired = false ∨ jobSeeker.ResumeURL ≠ "") →
      (job.PortfolioRequired = false ∨ jobSeeker.PortfolioURL ≠ "") →
      (applicationService.ApplyToJob db env now stamp jobSeekerID req).1
          ≠ .error (.New "resume is required for this job") ∧
        (applicationService.ApplyToJob db env now stamp jobSeekerID req).1
          ≠ .error (.New "portfolio is required for this job") := by
    intro h0 h1
    have hc1 : (job.ResumeRequired && jobSeeker.ResumeURL == "") = false := by
      rcases h0 with h0 | h0 <;> simp [h0]
    have hc2 : (job.PortfolioRequired && jobSeeker.PortfolioURL == "") = false := by
      rcases h1 with h1 | h1 <;> simp [h1]
    unfold applicationService.ApplyToJob
    simp only [hseeker, hjob, hactive, hdeadline, hnone, hc1, hc2]
    simp only [Bool.not_true, Bool.false_eq_true, if_false]
    split <;> simp
  refine ⟨⟨?_, fun h => hpass h.1 h.2⟩, hres, hport, ?_⟩
  · rintro ⟨hr, hp⟩
    have h0 : job.ResumeRequired = false ∨ jobSeeker.ResumeURL ≠ "" := by
      by_contra hc
      push_neg at hc
      exact hr (by rw [hres (by simpa using hc.1) hc.2])
    refine ⟨h0, ?_⟩
    by_contra hc
    push_neg at hc
    exact hp (by rw [hport h0 (by simpa using hc.1) hc.2])
  · intro h0 h1 hcreate
    have hc1 : (job.ResumeRequired && jobSeeker.ResumeURL == "") = false := by
      rcases h0 with h0 | h0 <;> simp [h0]
    have hc2 : (job.PortfolioRequired && jobSeeker.PortfolioURL == "") = false := by
      rcases h1 with h1 | h1 <;> simp [h1]
    unfold applicationService.ApplyToJob
    simp only [hseeker, hjob, hactive, hdeadline, hnone, hc1, hc2, applicationRepository.Create,
      hcreate]
    simp

/-- The sample job requires a resume and no portfolio, the sample seeker has a resume. -/
theorem ApplyToJob_requirements_witness :
    ∃ app db1, applicationService.ApplyToJob sampleDB Env.reliable 50 50 1 { JobID := 1 }
      = (.ok app, db1) :=
  (ApplyToJob_requirements sampleDB Env.reliable 50 50 1 { JobID := 1 } sampleSeeker
    sampleJobLoaded .ErrRecordNotFound rfl rfl rfl rfl rfl).2.2.2
    (Or.inr (by decide)) (Or.inl rfl) rfl

end services

/-! ### Job catalog -/

namespace repositories

/-- Attaching the employer leaves the columns of a job as they are. -/
theorem preloadEmployer_columns (db : DB) (job : models.Job) :
    (preloadEmployer db job).IsActive = job.IsActive ∧
    (preloadEmployer db job).TargetAudience = job.TargetAudience := by
  unfold preloadEmployer
  split <;> exact ⟨rfl, rfl⟩

/-- Whatever the text after `ORDER BY`, the engine returns none but the rows that satisfy the
conditions. -/
theorem engineRows_mem (env : Env) (clause : String) (limit : Option Int)
    (rows : List models.Job) (job : models.Job) (h : job ∈ engineRows env clause limit rows) :
    job ∈ rows := by
  unfold engineRows at h
  split at h
  · exact (env.orderBy_perm _ _).mem_iff.mp (List.mem_of_mem_take h)
  · exact (env.orderBy_perm _ _).mem_iff.mp h
  · exact (env.orderBy_perm _ _).mem_iff.mp (List.mem_of_mem_take h)
  · exact (env.orderBy_perm _ _).mem_iff.mp (List.mem_of_mem_drop (List.mem_of_mem_take h))
  · exact (env.orderBy_perm _ _).mem_iff.mp (List.mem_of_mem_drop h)
  · exact env.orderByRaw_mem _ _ _ _ h

/-- For a text that is an ordering the engine puts the rows in order and cuts them to the
limit. -/
theorem engineRows_ordering (env : Env) (clause : String) (limit : Option Int)
    (rows : List models.Job) (h : readOrderText clause = .ordering) :
    engineRows env clause limit rows =
      (match limit with
        | some n => (env.orderBy clause rows).take n.toNat
        | none => env.orderBy clause rows) := by
  unfold engineRows
  rw [h]
  cases limit <;> rfl

/-- Every job that `Find` returns is a stored row that satisfies all conditions of the statement,
with its employer attached. -/
theorem Query.mem_Find (q : Query) (db : DB) (env : Env) (job : models.Job)
    (h : job ∈ q.Find db env) :
    ∃ row ∈ db.jobs, (∀ c ∈ q.wheres, c.holds row = true) ∧ job = preloadEmployer db row := by
  unfold Query.Find at h
  simp only [List.mem_map] at h
  obtain ⟨row, hrow, rfl⟩ := h
  have hfil := engineRows_mem env _ _ _ row hrow
  rw [List.mem_filter] at hfil
  exact ⟨row, hfil.1, by simpa using hfil.2, rfl⟩

/-- The method `WithIndustry` adds its condition for a non-empty value. -/
theorem JobQueryBuilder.wheres_WithIndustry (b : JobQueryBuilder) (v : String) :
    (b.WithIndustry v).query.wheres
      = b.query.wheres ++ (if v ≠ "" then [Cond.industry v] else []) := by
  unfold JobQueryBuilder.WithIndustry
  split <;> simp [Query.Where]

/-- The method `WithJobType` adds its condition for a non-empty value. -/
theorem JobQueryBuilder.wheres_WithJobType (b : JobQueryBuilder) (v : String) :
    (b.WithJobType v).query.wheres
      = b.query.wheres ++ (if v ≠ "" then [Cond.jobType v] else []) := by
  unfold JobQueryBuilder.WithJobType
  split <;> simp [Query.Where]

/-- The method `WithCity` adds its condition for a non-empty value. -/
theorem JobQueryBuilder.wheres_WithCity (b : JobQueryBuilder) (v : String) :
    (b.WithCity v).query.wheres
      = b.query.wheres ++ (if v ≠ "" then [Cond.cityILike ("%" ++ v ++ "%")] else []) := by
  unfold JobQueryBuilder.WithCity
  split <;> simp [Query.Where]

/-- The method `WithTargetAudience` adds its condition for a non-empty value. -/
theorem JobQueryBuilder.wheres_WithTargetAudience (b : JobQueryBuilder) (v : String) :
    (b.WithTargetAudience v).query.wheres
      = b.query.wheres ++ (if v ≠ "" then [Cond.targetAudienceOr v "any"] else []) := by
  unfold JobQueryBuilder.WithTargetAudience
  split <;> simp [Query.Where]

/-- The method `WithEmploymentMode` adds its condition for a non-empty value. -/
theorem JobQueryBuilder.wheres_WithEmploymentMode (b : JobQueryBuilder) (v : String) :
    (b.WithEmploymentMode v).query.wheres
      = b.query.wheres ++ (if v ≠ "" then [Cond.employmentMode v] else []) := by
  unfold JobQueryBuilder.WithEmploymentMode
  split <;> simp [Query.Where]

/-- The method `OrderBy` leaves the conditions alone. -/
theorem JobQueryBuilder.wheres_OrderBy (b : JobQueryBuilder) (f d : String) :
    (b.OrderBy f d).query.wheres = b.query.wheres := by
  unfold JobQueryBuilder.OrderBy
  split <;> rfl

/-- The method `Limit` leaves the conditions alone. -/
theorem JobQueryBuilder.wheres_Limit (b : JobQueryBuilder) (n : Int) :
    (b.Limit n).query.wheres = b.query.wheres := by
  unfold JobQueryBuilder.Limit
  split <;> rfl

/-- The method `WithIsActive` adds its condition for a non-nil pointer. -/
theorem JobQueryBuilder.wheres_WithIsActive (b : JobQueryBuilder) (v : Option Bool) :
    (b.WithIsActive v).query.wheres
      = b.query.wheres ++ (match v with | some x => [Cond.isActive x] | none => []) := by
  cases v <;> simp [JobQueryBuilder.WithIsActive, Query.Where]

/-- The conditions of the statement that `GetWithFilters` builds, in the order of the calls. -/
theorem GetWithFilters_wheres (filters : JobFilters) :
    (jobRepository.GetWithFilters.builder filters).Build.wheres =
      (if filters.EmployerID > 0 then [Cond.employerID filters.EmployerID] else []) ++
      (if filters.Industry ≠ "" then [Cond.industry filters.Industry] else []) ++
      (if filters.JobType ≠ "" then [Cond.jobType filters.JobType] else []) ++
      (if filters.City ≠ "" then [Cond.cityILike ("%" ++ filters.City ++ "%")] else []) ++
      (if filters.TargetAudience ≠ "" then [Cond.targetAudienceOr filters.TargetAudience "any"]
        else []) ++
      (if filters.EmploymentMode ≠ "" then [Cond.employmentMode filters.EmploymentMode]
        else []) ++
      (match filters.IsPaid with | some x => [Cond.isPaid x] | none => []) ++
      (match filters.IsActive with | some x => [Cond.isActive x] | none => []) := by
  have h0 : (if filters.EmployerID > 0 then NewJobQueryBuilder.WithEmployerID filters.EmployerID
      else NewJobQueryBuilder).query.wheres
      = (if filters.EmployerID > 0 then [Cond.employerID filters.EmployerID] else []) := by
    unfold JobQueryBuilder.WithEmployerID
    split <;> simp_all [Query.Where, NewJobQueryBuilder]
  unfold jobRepository.GetWithFilters.builder JobQueryBuilder.Build
  simp only [JobQueryBuilder.wheres_WithIsActive]
  cases hp : filters.IsPaid with
  | none =>
    simp only [JobQueryBuilder.wheres_Limit, JobQueryBuilder.wheres_OrderBy,
      JobQueryBuilder.wheres_WithEmploymentMode, JobQueryBuilder.wheres_WithTargetAudience,
      JobQueryBuilder.wheres_WithCity, JobQueryBuilder.wheres_WithJobType,
      JobQueryBuilder.wheres_WithIndustry, h0, List.append_nil]
  | some x =>
    simp only [JobQueryBuilder.WithPaidStatus, Query.Where,
      JobQueryBuilder.wheres_Limit, JobQueryBuilder.wheres_OrderBy,
      JobQueryBuilder.wheres_WithEmploymentMode, JobQueryBuilder.wheres_WithTargetAudience,
      JobQueryBuilder.wheres_WithCity, JobQueryBuilder.wheres_WithJobType,
      JobQueryBuilder.wheres_WithIndustry, h0]

end repositories

namespace services
open repositories

/-- Claim C7: whatever the caller puts into `IsActive`, the repository filter that `GetAllJobs`
builds has `IsActive` pointing to true and `EmployerID` zero and copies every other field; the
statement built from it holds the condition `is_active = true` and no condition on the employer,
and every job that `GetAllJobs` returns is active. -/
theorem GetAllJobs_forces_active (filters : JobFilters) :
    ((jobService.GetAllJobs.repoFilters filters).IsActive = some true ∧
      (jobService.GetAllJobs.repoFilters filters).EmployerID = 0 ∧
      (jobService.GetAllJobs.repoFilters filters).Industry = filters.Industry ∧
      (jobService.GetAllJobs.repoFilters filters).JobType = filters.JobType ∧
      (jobService.GetAllJobs.repoFilters filters).City = filters.City ∧
      (jobService.GetAllJobs.repoFilters filters).TargetAudience = filters.TargetAudience ∧
      (jobService.GetAllJobs.repoFilters filters).EmploymentMode = filters.EmploymentMode ∧
      (jobService.GetAllJobs.repoFilters filters).IsPaid = filters.IsPaid ∧
      (jobService.GetAllJobs.repoFilters filters).OrderBy = filters.OrderBy ∧
      (jobService.GetAllJobs.repoFilters filters).OrderDirection = filters.OrderDirection ∧
      (jobService.GetAllJobs.repoFilters filters).Limit = filters.Limit) ∧
    (Cond.isActive true ∈
        (jobRepository.GetWithFilters.builder
          (jobService.GetAllJobs.repoFilters filters)).Build.wheres ∧
      ∀ v, Cond.employerID v ∉
        (jobRepository.GetWithFilters.builder
          (jobService.GetAllJobs.repoFilters filters)).Build.wheres) ∧
    (∀ db env jobs, jobService.GetAllJobs db env filters = .ok jobs →
      ∀ job ∈ jobs, job.IsActive = true) := by
  have hmem : Cond.isActive true ∈
        (jobRepository.GetWithFilters.builder
          (jobService.GetAllJobs.repoFilters filters)).Build.wheres := by
    rw [GetWithFilters_wheres]
    simp [jobService.GetAllJobs.repoFilters]
  refine ⟨⟨rfl, rfl, rfl, rfl, rfl, rfl, rfl, rfl, rfl, rfl, rfl⟩, ⟨hmem, ?_⟩, ?_⟩
  · intro v
    rw [GetWithFilters_wheres]
    simp only [jobService.GetAllJobs.repoFilters, List.mem_append, not_or]
    refine ⟨⟨⟨⟨⟨⟨⟨by simp, ?_⟩, ?_⟩, ?_⟩, ?_⟩, ?_⟩, ?_⟩, by simp⟩
    · split <;> simp
    · split <;> simp
    · split <;> simp
    · split <;> simp
    · split <;> simp
    · split <;> simp
  · intro db env jobs h job hjob
    unfold jobService.GetAllJobs jobRepository.GetWithFilters at h
    split at h
    · simp at h
    · simp only [Except.ok.injEq] at h
      subst h
      obtain ⟨row, -, hall, rfl⟩ := Query.mem_Find _ db env job hjob
      rw [(preloadEmployer_columns db row).1]
      simpa [Cond.holds] using hall _ hmem

/-- Browsing the sample catalog with `is_active=false` returns the three active jobs. -/
theorem GetAllJobs_forces_active_witness :
    jobService.GetAllJobs sampleCatalog Env.reliable { IsActive := some false }
      = .ok [{ sampleJob with Employer := sampleEmployer },
             { sampleJobProfessionals with Employer := sampleEmployer },
             { sampleJobAny with Employer := sampleEmployer }] ∧
    ∀ job ∈ [{ sampleJob with Employer := sampleEmployer },
             { sampleJobProfessionals with Employer := sampleEmployer },
             { sampleJobAny with Employer := sampleEmployer }], job.IsActive = true :=
  ⟨rfl, (GetAllJobs_forces_active { IsActive := some false }).2.2 sampleCatalog Env.reliable _ rfl⟩

/-- Claim C8: for a non-empty audience `a` the builder adds one condition, which a job satisfies
exactly when its audience is `a` or "any"; a row satisfies the conditions of the whole filter
exactly when it satisfies the conditions of the filter without the audience and, as one unit, that
disjunction; every job that `GetWithFilters` returns has audience `a` or "any", and with
"students" every job that `GetAllJobs` returns has audience "students" or "any" and none has
"professionals". -/
theorem TargetAudience_filter (a : String) (ha : a ≠ "") :
    (∀ b : JobQueryBuilder, (b.WithTargetAudience a).query.wheres
        = b.query.wheres ++ [Cond.targetAudienceOr a "any"]) ∧
    (∀ job : models.Job, (Cond.targetAudienceOr a "any").holds job = true ↔
        (job.TargetAudience = a ∨ job.TargetAudience = "any")) ∧
    (∀ (filters : repositories.JobFilters) (row : models.Job), filters.TargetAudience = a →
      (((jobRepository.GetWithFilters.builder filters).Build.wheres.all
          (fun c => c.holds row) = true) ↔
        (((jobRepository.GetWithFilters.builder
            { filters with TargetAudience := "" }).Build.wheres.all
              (fun c => c.holds row) = true) ∧
          (row.TargetAudience = a ∨ row.TargetAudience = "any")))) ∧
    (∀ (filters : repositories.JobFilters) db env jobs, filters.TargetAudience = a →
      jobRepository.GetWithFilters db env filters = .ok jobs →
      ∀ job ∈ jobs, job.TargetAudience = a ∨ job.TargetAudience = "any") ∧
    (∀ (filters : JobFilters) db env jobs, filters.TargetAudience = "students" →
      jobService.GetAllJobs db env filters = .ok jobs →
      ∀ job ∈ jobs, (job.TargetAudience = "students" ∨ job.TargetAudience = "any") ∧
        job.TargetAudience ≠ "professionals") := by
  have hholds : ∀ (x : String) (job : models.Job),
      (Cond.targetAudienceOr x "any").holds job = true ↔
        (job.TargetAudience = x ∨ job.TargetAudience = "any") := by
    intro x job
    simp [Cond.holds]
  have hres : ∀ (x : String) (filters : repositories.JobFilters) (db : DB) (env : Env)
      (jobs : List models.Job), x ≠ "" → filters.TargetAudience = x →
      jobRepository.GetWithFilters db env filters = .ok jobs →
      ∀ job ∈ jobs, job.TargetAudience = x ∨ job.TargetAudience = "any" := by
    intro x filters db env jobs hx hf h job hjob
    unfold jobRepository.GetWithFilters at h
    split at h
    · simp at h
    · simp only [Except.ok.injEq] at h
      subst h
      obtain ⟨row, -, hall, rfl⟩ := Query.mem_Find _ db env job hjob
      rw [(preloadEmployer_columns db row).2]
      apply (hholds x row).mp
      apply hall
      rw [GetWithFilters_wheres]
      simp [hf, hx]
  refine ⟨?_, hholds a, ?_, fun filters db env jobs => hres a filters db env jobs ha, ?_⟩
  · intro b
    rw [JobQueryBuilder.wheres_WithTargetAudience]
    simp [ha]
  · intro filters row hf
    rw [GetWithFilters_wheres, GetWithFilters_wheres]
    simp only [hf, ha, ne_eq, not_false_eq_true, if_true, not_true_eq_false, if_false,
      List.all_append, Bool.and_eq_true, List.append_nil]
    have := hholds a row
    simp only [List.all_cons, List.all_nil, Bool.and_true]
    tauto
  · intro filters db env jobs hf h job hjob
    have hd := hres "students" (jobService.GetAllJobs.repoFilters filters) db env jobs
      (by decide) hf h job hjob
    refine ⟨hd, ?_⟩
    rcases hd with hd | hd <;> rw [hd] <;> decide

/-- Browsing the sample catalog for students returns the job for students and the job for any
audience. -/
theorem TargetAudience_filter_witness :
    jobService.GetAllJobs sampleCatalog Env.reliable { TargetAudience := "students" }
      = .ok [{ sampleJob with Employer := sampleEmployer },
             { sampleJobAny with Employer := sampleEmployer }] ∧
    ∀ job ∈ [{ sampleJob with Employer := sampleEmployer },
             { sampleJobAny with Employer := sampleEmployer }],
      (job.TargetAudience = "students" ∨ job.TargetAudience = "any") ∧
        job.TargetAudience ≠ "professionals" :=
  ⟨rfl, (TargetAudience_filter "students" (by decide)).2.2.2.2 { TargetAudience := "students" }
    sampleCatalog Env.reliable _ rfl rfl⟩

/-- Claim C9: for a job seeker that the lookup returns, `CreateProfile` of the student profile
service fails with "student profile can only be created for student job seekers" exactly when the
seeker type is not "student", so for "professional" and "freelancer", leaving the store as it
was; for a seeker of type "student" without a stored student profile, and an insert that storage
carries out, it succeeds and appends one profile row for that seeker. -/
theorem StudentProfile_CreateProfile_kind (db : DB) (env : Env) (jobSeekerID : Nat)
    (req : CreateStudentProfileRequest) (jobSeeker : models.JobSeeker)
    (hseeker : jobSeekerRepository.GetByID db env jobSeekerID = .ok jobSeeker) :
    ((studentProfileService.CreateProfile db env jobSeekerID req).1
        = .error (.New "student profile can only be created for student job seekers") ↔
      jobSeeker.JobSeekerType ≠ "student") ∧
    ((jobSeeker.JobSeekerType = "professional" ∨ jobSeeker.JobSeekerType = "freelancer") →
      studentProfileService.CreateProfile db env jobSeekerID req
        = (.error (.New "student profile can only be created for student job seekers"), db)) ∧
    (jobSeeker.JobSeekerType = "student" →
      (∀ p ∈ db.studentProfiles, p.JobSeekerID ≠ jobSeekerID) →
      env.fails .studentProfileCreate = false →
      ∃ profile row db1,
        studentProfileService.CreateProfile db env jobSeekerID req = (.ok profile, db1) ∧
        profile.JobSeekerID = jobSeekerID ∧ profile.JobSeeker = jobSeeker ∧
        row.JobSeekerID = jobSeekerID ∧ row.ID = profile.ID ∧
        db1.studentProfiles = db.studentProfiles ++ [row]) := by
  have hno : jobSeeker.JobSeekerType ≠ "student" →
      studentProfileService.CreateProfile db env jobSeekerID req
        = (.error (.New "student profile can only be created for student job seekers"), db) := by
    intro h
    simp [studentProfileService.CreateProfile, hseeker, h]
  refine ⟨⟨?_, fun h => by rw [hno h]⟩, ?_, ?_⟩
  · intro h hst
    unfold studentProfileService.CreateProfile at h
    simp only [hseeker, hst, ne_eq, not_true_eq_false, if_false] at h
    split at h
    · simp at h
    · split at h <;> simp at h
  · intro h
    apply hno
    rcases h with h | h <;> rw [h] <;> decide
  · intro hst hnone hcreate
    have hlook : ∃ e, studentProfileRepository.GetByJobSeekerID db env jobSeekerID = .error e := by
      unfold studentProfileRepository.GetByJobSeekerID
      split
      · exact ⟨_, rfl⟩
      · split
        · rename_i profile hfind
          have hm := List.mem_of_find?_eq_some hfind
          have hp := List.find?_some hfind
          exact absurd (by simpa using hp) (hnone profile hm)
        · exact ⟨_, rfl⟩
    obtain ⟨e, he⟩ := hlook
    have hany : (db.studentProfiles.any (fun p => p.JobSeekerID == jobSeekerID)) = false := by
      rw [List.any_eq_false]
      intro p hp
      simpa using hnone p hp
    have hrun : studentProfileService.CreateProfile db env jobSeekerID req =
        (.ok { ID := db.studentProfileSeq + 1
               JobSeekerID := jobSeekerID
               JobSeeker := jobSeeker
               CollegeName := req.CollegeName
               Degree := req.Degree
               YearSemester := req.YearSemester
               SoftwareProficiency := utils.ArrayToJSON req.SoftwareProficiency
               PreviousInternships := utils.ArrayToJSON req.PreviousInternships
               FreelanceProjects := utils.ArrayToJSON req.FreelanceProjects
               PreferredStartMonth := req.PreferredStartMonth
               PreferredDuration := req.PreferredDuration
               WillingToRelocate := req.WillingToRelocate },
         { db with
           studentProfiles := db.studentProfiles ++
             [{ ID := db.studentProfileSeq + 1
                JobSeekerID := jobSeekerID
                CollegeName := req.CollegeName
                Degree := req.Degree
                YearSemester := req.YearSemester
                SoftwareProficiency := utils.ArrayToJSON req.SoftwareProficiency
                PreviousInternships := utils.ArrayToJSON req.PreviousInternships
                FreelanceProjects := utils.ArrayToJSON req.FreelanceProjects
                PreferredStartMonth := req.PreferredStartMonth
                PreferredDuration := req.PreferredDuration
                WillingToRelocate := req.WillingToRelocate }]
           studentProfileSeq := db.studentProfileSeq + 1 }) := by
      unfold studentProfileService.CreateProfile
      simp only [hseeker, hst, ne_eq, not_true_eq_false, if_false, he,
        studentProfileRepository.Create, hcreate, hany, Bool.false_eq_true]
    refine ⟨_, _, _, hrun, rfl, rfl, ?_, ?_, rfl⟩ <;> rfl

/-- The sample seeker, a student without a student profile, creates one. -/
theorem StudentProfile_CreateProfile_kind_witness :
    ∃ profile row db1,
      studentProfileService.CreateProfile sampleDB Env.reliable 1
          { CollegeName := "SPA Delhi", Degree := "B.Arch", YearSemester := "4",
            SoftwareProficiency := ["AutoCAD", "Revit"] } = (.ok profile, db1) ∧
      profile.JobSeekerID = 1 ∧ profile.JobSeeker = sampleSeeker ∧
      row.JobSeekerID = 1 ∧ row.ID = profile.ID ∧
      db1.studentProfiles = sampleDB.studentProfiles ++ [row] :=
  (StudentProfile_CreateProfile_kind sampleDB Env.reliable 1
    { CollegeName := "SPA Delhi", Degree := "B.Arch", YearSemester := "4",
      SoftwareProficiency := ["AutoCAD", "Revit"] } sampleSeeker rfl).2.2
    rfl (fun p hp => absurd hp (List.not_mem_nil p)) rfl

/-- Claim C10: for an employer that the lookup returns, `CreateProfile` of the firm profile
service fails with "firm profile can only be created for firm employers" exactly when the
employer type is not "firm", so for "corporation" and "startup", leaving the store as it was; for
an employer of type "firm" without a stored firm profile, and an insert that storage carries out,
it succeeds and appends one profile row for that employer. -/
theorem FirmProfile_CreateProfile_kind (db : DB) (env : Env) (employerID : Nat)
    (req : CreateFirmProfileRequest) (employer : models.Employer)
    (hemployer : employerRepository.GetByID db env employerID = .ok employer) :
    ((firmProfileService.CreateProfile db env employerID req).1
        = .error (.New "firm profile can only be created for firm employers") ↔
      employer.EmployerType ≠ "firm") ∧
    ((employer.EmployerType = "corporation" ∨ employer.EmployerType = "startup") →
      firmProfileService.CreateProfile db env employerID req
        = (.error (.New "firm profile can only be created for firm employers"), db)) ∧
    (employer.EmployerType = "firm" →
      (∀ p ∈ db.firmProfiles, p.EmployerID ≠ employerID) →
      env.fails .firmProfileCreate = false →
      ∃ profile row db1,
        firmProfileService.CreateProfile db env employerID req = (.ok profile, db1) ∧
        profile.EmployerID = employerID ∧ profile.Employer = employer ∧
        row.EmployerID = employerID ∧ row.ID = profile.ID ∧
        db1.firmProfiles = db.firmProfiles ++ [row]) := by
  have hno : employer.EmployerType ≠ "firm" →
      firmProfileService.CreateProfile db env employerID req
        = (.error (.New "firm profile can only be created for firm employers"), db) := by
    intro h
    simp [firmProfileService.CreateProfile, hemployer, h]
  refine ⟨⟨?_, fun h => by rw [hno h]⟩, ?_, ?_⟩
  · intro h hst
    unfold firmProfileService.CreateProfile at h
    simp only [hemployer, hst, ne_eq, not_true_eq_false, if_false] at h
    split at h
    · simp at h
    · split at h <;> simp at h
  · intro h
    apply hno
    rcases h with h | h <;> rw [h] <;> decide
  · intro hst hnone hcreate
    have hlook : ∃ e, firmProfileRepository.GetByEmployerID db env employerID = .error e := by
      unfold firmProfileRepository.GetByEmployerID
      split
      · exact ⟨_, rfl⟩
      · split
        · rename_i profile hfind
          have hm := List.mem_of_find?_eq_some hfind
          have hp := List.find?_some hfind
          exact absurd (by simpa using hp) (hnone profile hm)
        · exact ⟨_, rfl⟩
    obtain ⟨e, he⟩ := hlook
    have hany : (db.firmProfiles.any (fun p => p.EmployerID == employerID)) = false := by
      rw [List.any_eq_false]
      intro p hp
      simpa using hnone p hp
    have hrun : firmProfileService.CreateProfile db env employerID req =
        (.ok { ID := db.firmProfileSeq + 1
               EmployerID := employerID
               Employer := employer
               YearFounded := req.YearFounded
               FirmSize := req.FirmSize
               LegalEntityType := req.LegalEntityType
               PrimaryDiscipline := req.PrimaryDiscipline
               SecondaryDisciplines := utils.ArrayToJSON req.SecondaryDisciplines
               InstagramURL := req.InstagramURL
               LinkedInURL := req.LinkedInURL
               PreferredDuration := req.PreferredDuration
               StipendRange := req.StipendRange
               ProjectImages := utils.ArrayToJSON req.ProjectImages },
         { db with
           firmProfiles := db.firmProfiles ++
             [{ ID := db.firmProfileSeq + 1
                EmployerID := employerID
                YearFounded := req.YearFounded
                FirmSize := req.FirmSize
                LegalEntityType := req.LegalEntityType
                PrimaryDiscipline := req.PrimaryDiscipline
                SecondaryDisciplines := utils.ArrayToJSON req.SecondaryDisciplines
                InstagramURL := req.InstagramURL
                LinkedInURL := req.LinkedInURL
                PreferredDuration := req.PreferredDuration
                StipendRange := req.StipendRange
                ProjectImages := utils.ArrayToJSON req.ProjectImages }]
           firmProfileSeq := db.firmProfileSeq + 1 }) := by
      unfold firmProfileService.CreateProfile
      simp only [hemployer, hst, ne_eq, not_true_eq_false, if_false, he,
        firmProfileRepository.Create, hcreate, hany, Bool.false_eq_true]
    refine ⟨_, _, _, hrun, rfl, rfl, ?_, ?_, rfl⟩ <;> rfl

/-- The sample employer, a firm without a firm profile, creates one. -/
theorem FirmProfile_CreateProfile_kind_witness :
    ∃ profile row db1,
      firmProfileService.CreateProfile sampleDB Env.reliable 1
          { PrimaryDiscipline := "Architecture", ProjectImages := [] } = (.ok profile, db1) ∧
      profile.EmployerID = 1 ∧ profile.Employer = sampleEmployer ∧
      row.EmployerID = 1 ∧ row.ID = profile.ID ∧
      db1.firmProfiles = sampleDB.firmProfiles ++ [row] :=
  (FirmProfile_CreateProfile_kind sampleDB Env.reliable 1
    { PrimaryDiscipline := "Architecture", ProjectImages := [] } sampleEmployer rfl).2.2
    rfl (fun p hp => absurd hp (List.not_mem_nil p)) rfl

end services

/-! ### Application lifecycle: results and effects -/

namespace services
open repositories

/-- Claim C11: when `ApplyToJob` succeeds, the applications table has grown by exactly one row,
which carries the key of the returned application, the requested job, the calling seeker, status
"applied" and the reading of the clock; the returned application has the same columns and carries
the job and the job seeker that the lookups returned. -/
theorem ApplyToJob_success (db db1 : DB) (env : Env) (now stamp : Time) (jobSeekerID : Nat)
    (req : ApplyJobRequest) (app : models.Application)
    (h : applicationService.ApplyToJob db env now stamp jobSeekerID req = (.ok app, db1)) :
    (∃ row, db1.applications = db.applications ++ [row] ∧ row.ID = app.ID ∧
        row.JobID = req.JobID ∧ row.JobSeekerID = jobSeekerID ∧ row.Status = "applied" ∧
        row.AppliedAt = stamp) ∧
    db1.applications.length = db.applications.length + 1 ∧
    app.JobID = req.JobID ∧ app.JobSeekerID = jobSeekerID ∧ app.Status = "applied" ∧
    app.AppliedAt = stamp ∧
    jobRepository.GetByID db env req.JobID = .ok app.Job ∧
    jobSeekerRepository.GetByID db env jobSeekerID = .ok app.JobSeeker := by
  obtain ⟨jobSeeker, job, hseeker, hjob, -, -, hdb, happ⟩ :=
    ApplyToJob_ok_inv db db1 env now stamp jobSeekerID req app h
  subst hdb happ
  refine ⟨⟨_, rfl, rfl, rfl, rfl, rfl, rfl⟩, by simp, rfl, rfl, rfl, rfl, hjob, hseeker⟩

/-- The sample seeker applies to the sample job at instant 50. -/
theorem ApplyToJob_success_witness :
    (∃ row, sampleDBApplied.applications = sampleDB.applications ++ [row] ∧ row.ID = 1 ∧
        row.JobID = 1 ∧ row.JobSeekerID = 1 ∧ row.Status = "applied" ∧ row.AppliedAt = 50) ∧
    sampleDBApplied.applications.length = sampleDB.applications.length + 1 :=
  ⟨(ApplyToJob_success sampleDB sampleDBApplied Env.reliable 50 50 1 { JobID := 1 }
      { sampleApplication with Job := sampleJobLoaded, JobSeeker := sampleSeeker } rfl).1,
   (ApplyToJob_success sampleDB sampleDBApplied Env.reliable 50 50 1 { JobID := 1 }
      { sampleApplication with Job := sampleJobLoaded, JobSeeker := sampleSeeker } rfl).2.1⟩

/-- The method `ApplyToJob` returns an error together with the store it was given, or an
application together with a new store. -/
theorem ApplyToJob_cases (db : DB) (env : Env) (now stamp : Time) (jobSeekerID : Nat)
    (req : ApplyJobRequest) :
    (∃ e, applicationService.ApplyToJob db env now stamp jobSeekerID req = (.error e, db)) ∨
    (∃ app db1, applicationService.ApplyToJob db env now stamp jobSeekerID req
      = (.ok app, db1)) := by
  unfold applicationService.ApplyToJob
  split
  · exact Or.inl ⟨_, rfl⟩
  · split
    · split <;> exact Or.inl ⟨_, rfl⟩
    · split
      · exact Or.inl ⟨_, rfl⟩
      · split
        · exact Or.inl ⟨_, rfl⟩
        · split
          · exact Or.inl ⟨_, rfl⟩
          · split
            · exact Or.inl ⟨_, rfl⟩
            · split
              · exact Or.inl ⟨_, rfl⟩
              · dsimp only
                split
                · exact Or.inl ⟨_, rfl⟩
                · exact Or.inr ⟨_, _, rfl⟩

/-- A failing `ApplyToJob` leaves the store as it was. -/
theorem ApplyToJob_error_store (db : DB) (env : Env) (now stamp : Time) (jobSeekerID : Nat)
    (req : ApplyJobRequest) (e : Error)
    (h : (applicationService.ApplyToJob db env now stamp jobSeekerID req).1 = .error e) :
    (applicationService.ApplyToJob db env now stamp jobSeekerID req).2 = db := by
  rcases ApplyToJob_cases db env now stamp jobSeekerID req with ⟨e1, h1⟩ | ⟨app, db1, h1⟩
  · rw [h1]
  · rw [h1] at h
    simp at h

/-- Claim C12: `ApplyToJob` reports the first failing check in the order seeker lookup, job
lookup, job active, deadline, duplicate, resume, portfolio, each with its message; an inactive job
gives "job is no longer active" whatever its deadline; and every failing call leaves the store as
it was. -/
theorem ApplyToJob_check_order (db : DB) (env : Env) (now stamp : Time) (jobSeekerID : Nat)
    (req : ApplyJobRequest) :
    (∀ e, jobSeekerRepository.GetByID db env jobSeekerID = .error e →
      applicationService.ApplyToJob db env now stamp jobSeekerID req
        = (.error (.New "job seeker profile not found"), db)) ∧
    (∀ jobSeeker, jobSeekerRepository.GetByID db env jobSeekerID = .ok jobSeeker →
      jobRepository.GetByID db env req.JobID = .error .ErrRecordNotFound →
      applicationService.ApplyToJob db env now stamp jobSeekerID req
        = (.error (.New "job not found"), db)) ∧
    (∀ jobSeeker job, jobSeekerRepository.GetByID db env jobSeekerID = .ok jobSeeker →
      jobRepository.GetByID db env req.JobID = .ok job →
      job.IsActive = false →
      applicationService.ApplyToJob db env now stamp jobSeekerID req
        = (.error (.New "job is no longer active"), db)) ∧
    (∀ jobSeeker job, jobSeekerRepository.GetByID db env jobSeekerID = .ok jobSeeker →
      jobRepository.GetByID db env req.JobID = .ok job →
      job.IsActive = true → job.ApplicationDeadline < now →
      applicationService.ApplyToJob db env now stamp jobSeekerID req
        = (.error (.New "application deadline has passed"), db)) ∧
    (∀ jobSeeker job existing, jobSeekerRepository.GetByID db env jobSeekerID = .ok jobSeeker →
      jobRepository.GetByID db env req.JobID = .ok job →
      job.IsActive = true → ¬ job.ApplicationDeadline < now →
      applicationRepository.GetByJobAndJobSeeker db env req.JobID jobSeekerID = .ok existing →
      applicationService.ApplyToJob db env now stamp jobSeekerID req
        = (.error (.New "you have already applied to this job"), db)) ∧
    (∀ jobSeeker job e, jobSeekerRepository.GetByID db env jobSeekerID = .ok jobSeeker →
      jobRepository.GetByID db env req.JobID = .ok job →
      job.IsActive = true → ¬ job.ApplicationDeadline < now →
      applicationRepository.GetByJobAndJobSeeker db env req.JobID jobSeekerID = .error e →
      job.ResumeRequired = true → jobSeeker.ResumeURL = "" →
      applicationService.ApplyToJob db env now stamp jobSeekerID req
        = (.error (.New "resume is required for this job"), db)) ∧
    (∀ jobSeeker job e, jobSeekerRepository.GetByID db env jobSeekerID = .ok jobSeeker →
      jobRepository.GetByID db env req.JobID = .ok job →
      job.IsActive = true → ¬ job.ApplicationDeadline < now →
      applicationRepository.GetByJobAndJobSeeker db env req.JobID jobSeekerID = .error e →
      (job.ResumeRequired = false ∨ jobSeeker.ResumeURL ≠ "") →
      job.PortfolioRequired = true → jobSeeker.PortfolioURL = "" →
      applicationService.ApplyToJob db env now stamp jobSeekerID req
        = (.error (.New "portfolio is required for this job"), db)) ∧
    (∀ e, (applicationService.ApplyToJob db env now stamp jobSeekerID req).1 = .error e →
      (applicationService.ApplyToJob db env now stamp jobSeekerID req).2 = db) := by
  refine ⟨?_, ?_, ?_, ?_, ?_, ?_, ?_, ?_⟩
  · intro e hs
    simp [applicationService.ApplyToJob, hs]
  · intro jobSeeker hs hj
    simp [applicationService.ApplyToJob, hs, hj]
  · intro jobSeeker job hs hj ha
    simp [applicationService.ApplyToJob, hs, hj, ha]
  · intro jobSeeker job hs hj ha hd
    simp [applicationService.ApplyToJob, hs, hj, ha, Time.Before, hd]
  · intro jobSeeker job existing hs hj ha hd hx
    simp [applicationService.ApplyToJob, hs, hj, ha, Time.Before, hd, hx]
  · intro jobSeeker job e hs hj ha hd hx hr hu
    simp [applicationService.ApplyToJob, hs, hj, ha, Time.Before, hd, hx, hr, hu]
  · intro jobSeeker job e hs hj ha hd hx hr hp hu
    rcases hr with hr | hr <;>
      simp [applicationService.ApplyToJob, hs, hj, ha, Time.Before, hd, hx, hr, hp, hu]
  · intro e h
    exact ApplyToJob_error_store db env now stamp jobSeekerID req e h

/-- The sample seeker applies at instant 200 to the inactive job, whose deadline 100 has passed
as well. -/
theorem ApplyToJob_check_order_witness :
    applicationService.ApplyToJob sampleDBInactive Env.reliable 200 200 1 { JobID := 4 }
      = (.error (.New "job is no longer active"), sampleDBInactive) :=
  (ApplyToJob_check_order sampleDBInactive Env.reliable 200 200 1 { JobID := 4 }).2.2.1
    sampleSeeker { sampleJobInactive with Employer := sampleEmployer } rfl rfl rfl

/-- Removing the rows with one key from a table with distinct keys that holds the key removes
exactly one row. -/
theorem length_filter_key (l : List models.Application) (id : Nat)
    (hn : (l.map (fun a => a.ID)).Nodup) (hm : ∃ a ∈ l, a.ID = id) :
    (l.filter (fun a => !(a.ID == id))).length + 1 = l.length := by
  induction l with
  | nil => simp at hm
  | cons a t ih =>
    rw [List.map_cons, List.nodup_cons] at hn
    by_cases ha : a.ID = id
    · have hall : ∀ b ∈ t, (!(b.ID == id)) = true := by
        intro b hb
        have : b.ID ≠ a.ID := fun hba => hn.1 (hba ▸ List.mem_map_of_mem (fun a => a.ID) hb)
        simpa [ha] using this
      have hfil : t.filter (fun a => !(a.ID == id)) = t := List.filter_eq_self.mpr hall
      simp [List.filter_cons, ha, hfil]
    · obtain ⟨b, hb, hbid⟩ := hm
      have hbt : b ∈ t := by
        rcases List.mem_cons.mp hb with h | h
        · exact absurd (h ▸ hbid) ha
        · exact h
      have := ih hn.2 ⟨b, hbt, hbid⟩
      simp [List.filter_cons, ha]
      omega

/-- Claim C13: `WithdrawApplication` gives "application not found" when the lookup finds no
application and "unauthorized to withdraw this application" whenever the application belongs to
another seeker, whatever its status; a failing call leaves the store as it was; a successful call
removes the rows with the key of the targeted application, which is one row when keys are
distinct, and keeps all other rows and tables. -/
theorem WithdrawApplication_effects (db : DB) (env : Env) (applicationID jobSeekerID : Nat) :
    (∀ e, applicationRepository.GetByID db env applicationID = .error e →
      applicationService.WithdrawApplication db env applicationID jobSeekerID
        = (some (.New "application not found"), db)) ∧
    (∀ application, applicationRepository.GetByID db env applicationID = .ok application →
      application.JobSeekerID ≠ jobSeekerID →
      applicationService.WithdrawApplication db env applicationID jobSeekerID
        = (some (.New "unauthorized to withdraw this application"), db)) ∧
    (∀ e, (applicationService.WithdrawApplication db env applicationID jobSeekerID).1 = some e →
      (applicationService.WithdrawApplication db env applicationID jobSeekerID).2 = db) ∧
    ((applicationService.WithdrawApplication db env applicationID jobSeekerID).1 = none →
      (applicationService.WithdrawApplication db env applicationID jobSeekerID).2
          = { db with applications := db.applications.filter (fun a => !(a.ID == applicationID)) } ∧
      (∀ a, a ∈ (applicationService.WithdrawApplication db env applicationID
            jobSeekerID).2.applications ↔ (a ∈ db.applications ∧ a.ID ≠ applicationID)) ∧
      (∃ a ∈ db.applications, a.ID = applicationID) ∧
      ((db.applications.map (fun a => a.ID)).Nodup →
        (applicationService.WithdrawApplication db env applicationID
            jobSeekerID).2.applications.length + 1 = db.applications.length)) := by
  refine ⟨?_, ?_, ?_, ?_⟩
  · intro e h
    simp [applicationService.WithdrawApplication, h]
  · intro application h hne
    simp [applicationService.WithdrawApplication, h, hne]
  · intro e h
    unfold applicationService.WithdrawApplication at h ⊢
    split
    · rfl
    · split
      · rfl
      · split
        · rfl
        · split
          · rfl
          · rename_i hget _ _ _ _ hdel
            simp [hget, hdel] at h
            simp_all
  · intro h
    unfold applicationService.WithdrawApplication at h ⊢
    split at h
    · simp at h
    · rename_i application hget
      split at h
      · simp at h
      · split at h
        · simp at h
        · split at h
          · simp at h
          · rename_i db1 hdel
            have hdb : db1 = { db with
                applications := db.applications.filter (fun a => !(a.ID == applicationID)) } := by
              unfold applicationRepository.Delete at hdel
              split at hdel
              · simp at hdel
              · simpa using hdel.symm
            have hmem : ∃ a ∈ db.applications, a.ID = applicationID := by
              unfold applicationRepository.GetByID at hget
              split at hget
              · simp at hget
              · split at hget
                · rename_i row hfind
                  exact ⟨row, List.mem_of_find?_eq_some hfind,
                    by simpa using List.find?_some hfind⟩
                · simp at hget
            rename_i hown hstat _
            simp only [hown, hstat, if_false]
            subst hdb
            refine ⟨rfl, ?_, hmem, ?_⟩
            · intro a
              simp [List.mem_filter]
            · intro hnodup
              exact length_filter_key db.applications applicationID hnodup hmem

/-- The seeker of the sample application withdraws it; another seeker is turned away. -/
theorem WithdrawApplication_effects_witness :
    applicationService.WithdrawApplication sampleDBApplied Env.reliable 1 2
      = (some (.New "unauthorized to withdraw this application"), sampleDBApplied) ∧
    (applicationService.WithdrawApplication sampleDBApplied Env.reliable 1 1).2.applications.length
      + 1 = sampleDBApplied.applications.length :=
  ⟨(WithdrawApplication_effects sampleDBApplied Env.reliable 1 2).2.1
      { sampleApplication with Job := sampleJob, JobSeeker := sampleSeeker } rfl (by decide),
   ((WithdrawApplication_effects sampleDBApplied Env.reliable 1 1).2.2.2 rfl).2.2.2
      (by decide)⟩

/-- Attaching the job and the job seeker leaves the columns of an application as they are. -/
theorem preloadJobAndJobSeeker_columns (db : DB) (a : models.Application) :
    (preloadJobAndJobSeeker db a).ID = a.ID ∧
    (preloadJobAndJobSeeker db a).JobID = a.JobID ∧
    (preloadJobAndJobSeeker db a).JobSeekerID = a.JobSeekerID ∧
    (preloadJobAndJobSeeker db a).Status = a.Status ∧
    (preloadJobAndJobSeeker db a).AppliedAt = a.AppliedAt ∧
    (preloadJobAndJobSeeker db a).UpdatedAt = a.UpdatedAt := by
  unfold preloadJobAndJobSeeker
  split <;> dsimp only <;> split <;> exact ⟨rfl, rfl, rfl, rfl, rfl, rfl⟩

/-- What a successful `applicationRepository.GetByID` has found. -/
theorem applicationRepository_GetByID_ok (db : DB) (env : Env) (id : Nat)
    (application : models.Application)
    (h : applicationRepository.GetByID db env id = .ok application) :
    env.fails .applicationGetByID = false ∧
    ∃ row, db.applications.find? (fun a => a.ID == id) = some row ∧ row.ID = id ∧
      row ∈ db.applications ∧ application = preloadJobAndJobSeeker db row := by
  unfold applicationRepository.GetByID at h
  split at h
  · simp at h
  · rename_i hf
    split at h
    · rename_i row hfind
      refine ⟨by simpa using hf, row, hfind, by simpa using List.find?_some hfind,
        List.mem_of_find?_eq_some hfind, ?_⟩
      simpa using h.symm
    · simp at h

/-- Claim C14: for an application that the lookup returns and whose job belongs to the calling
employer, and a save that storage carries out, `UpdateApplicationStatus` succeeds for every
previous and every requested status; the application stored afterwards under the same key has the
requested status and the reading of the clock as `UpdatedAt`, and its key, job, seeker and
`AppliedAt` are as before; the table keeps its length. -/
theorem UpdateApplicationStatus_overwrites (db : DB) (env : Env) (now : Time)
    (applicationID employerID : Nat) (req : UpdateApplicationStatusRequest)
    (application : models.Application)
    (hget : applicationRepository.GetByID db env applicationID = .ok application)
    (hown : application.Job.EmployerID = employerID)
    (hupd : env.fails .applicationUpdate = false) :
    ∃ db1 stored,
      applicationService.UpdateApplicationStatus db env now applicationID employerID req
        = (.ok { application with Status := req.Status, UpdatedAt := now }, db1) ∧
      applicationRepository.GetByID db1 env applicationID = .ok stored ∧
      stored.Status = req.Status ∧ stored.UpdatedAt = now ∧
      stored.ID = application.ID ∧ stored.JobID = application.JobID ∧
      stored.JobSeekerID = application.JobSeekerID ∧
      stored.AppliedAt = application.AppliedAt ∧
      db1.applications.length = db.applications.length := by
  obtain ⟨hfail, row, hfind, hid, hmem, happ⟩ :=
    applicationRepository_GetByID_ok db env applicationID application hget
  have hcols := preloadJobAndJobSeeker_columns db row
  rw [← happ] at hcols
  have haid : application.ID = applicationID := by rw [hcols.1, hid]
  have hany : (db.applications.any (fun a => a.ID == applicationID)) = true := by
    rw [List.any_eq_true]
    exact ⟨row, hmem, by simpa using hid⟩
  have hrun : applicationService.UpdateApplicationStatus db env now applicationID employerID req
      = (.ok { application with Status := req.Status, UpdatedAt := now },
         { db with applications := db.applications.map (fun a =>
             if a.ID == applicationID then
               { application with Status := req.Status, UpdatedAt := now, Job := {},
                                  JobSeeker := {} }
             else a) }) := by
    unfold applicationService.UpdateApplicationStatus
    simp only [hget, hown, ne_eq, not_true_eq_false, if_false, applicationRepository.Update,
      hupd, Bool.false_eq_true, haid, hany, if_true]
  obtain ⟨row1, hrow1⟩ : ∃ row1 : models.Application, row1 =
      { application with Status := req.Status, UpdatedAt := now, Job := {}, JobSeeker := {} } :=
    ⟨_, rfl⟩
  obtain ⟨db1, hdb1⟩ : ∃ db1 : DB, db1 = { db with applications := db.applications.map (fun a =>
      if a.ID == applicationID then row1 else a) } := ⟨_, rfl⟩
  rw [← hrow1, ← hdb1] at hrun
  have hrow1id : row1.ID = applicationID := by rw [hrow1]; exact haid
  have hlook : applicationRepository.GetByID db1 env applicationID
      = .ok (preloadJobAndJobSeeker db1 row1) := by
    unfold applicationRepository.GetByID
    simp only [hfail, Bool.false_eq_true, if_false]
    have hfind1 : db1.applications.find? (fun a => a.ID == applicationID) = some row1 := by
      rw [hdb1]
      simp only
      rw [List.find?_map]
      have hcomp : ((fun a : models.Application => a.ID == applicationID) ∘
          (fun a : models.Application => if a.ID == applicationID then row1 else a))
          = (fun a : models.Application => a.ID == applicationID) := by
        funext a
        by_cases ha : a.ID = applicationID
        · simp [ha, hrow1id]
        · simp [ha]
      rw [hcomp, hfind]
      simp [hid]
    rw [hfind1]
  have hc := preloadJobAndJobSeeker_columns db1 row1
  refine ⟨db1, preloadJobAndJobSeeker db1 row1, hrun, hlook, ?_, ?_, ?_, ?_, ?_, ?_, ?_⟩
  · rw [hc.2.2.2.1, hrow1]
  · rw [hc.2.2.2.2.2, hrow1]
  · rw [hc.1, hrow1]
  · rw [hc.2.1, hrow1]
  · rw [hc.2.2.1, hrow1]
  · rw [hc.2.2.2.2.1, hrow1]
  · rw [hdb1]
    simp

/-- The employer of the sample job moves the selected sample application back to "applied". -/
theorem UpdateApplicationStatus_overwrites_witness :
    ∃ db1 stored,
      applicationService.UpdateApplicationStatus sampleDBSelected Env.reliable 70 1 1
          { Status := "applied" }
        = (.ok { sampleApplicationSelected with
                  Job := sampleJob, JobSeeker := sampleSeeker, Status := "applied",
                  UpdatedAt := 70 }, db1) ∧
      applicationRepository.GetByID db1 Env.reliable 1 = .ok stored ∧
      stored.Status = "applied" ∧ stored.UpdatedAt = 70 ∧
      stored.ID = 1 ∧ stored.JobID = 1 ∧ stored.JobSeekerID = 1 ∧ stored.AppliedAt = 50 ∧
      db1.applications.length = sampleDBSelected.applications.length :=
  UpdateApplicationStatus_overwrites sampleDBSelected Env.reliable 70 1 1 { Status := "applied" }
    { sampleApplicationSelected with Job := sampleJob, JobSeeker := sampleSeeker } rfl rfl rfl

/-- Claim C15: `UpdateApplicationStatus` gives "application not found" when the lookup finds no
application, and "unauthorized to update this application" exactly when the lookup returns an
application whose job has another employer than the caller; every failing call leaves the store,
and with it the stored application, as it was. -/
theorem UpdateApplicationStatus_failures (db : DB) (env : Env) (now : Time)
    (applicationID employerID : Nat) (req : UpdateApplicationStatusRequest) :
    (∀ e, applicationRepository.GetByID db env applicationID = .error e →
      applicationService.UpdateApplicationStatus db env now applicationID employerID req
        = (.error (.New "application not found"), db)) ∧
    ((applicationService.UpdateApplicationStatus db env now applicationID employerID req).1
        = .error (.New "unauthorized to update this application") ↔
      ∃ application, applicationRepository.GetByID db env applicationID = .ok application ∧
        application.Job.EmployerID ≠ employerID) ∧
    (∀ e, (applicationService.UpdateApplicationStatus db env now applicationID employerID req).1
        = .error e →
      (applicationService.UpdateApplicationStatus db env now applicationID employerID req).2
        = db) := by
  refine ⟨?_, ⟨?_, ?_⟩, ?_⟩
  · intro e h
    simp [applicationService.UpdateApplicationStatus, h]
  · intro h
    unfold applicationService.UpdateApplicationStatus at h
    split at h
    · simp at h
    · rename_i application hget
      split at h
      · rename_i hne
        exact ⟨application, hget, hne⟩
      · dsimp only at h
        split at h <;> simp at h
  · rintro ⟨application, hget, hne⟩
    simp [applicationService.UpdateApplicationStatus, hget, hne]
  · intro e h
    unfold applicationService.UpdateApplicationStatus at h ⊢
    split
    · rfl
    · split
      · rfl
      · dsimp only at h ⊢
        split
        · rfl
        · rename_i hget _ _ _ hupd
          simp [hget, hupd] at h
          simp_all

/-- An employer who does not own the sample job tries to reject the sample application. -/
theorem UpdateApplicationStatus_failures_witness :
    (applicationService.UpdateApplicationStatus sampleDBApplied Env.reliable 70 1 2
        { Status := "rejected" }).1
      = .error (.New "unauthorized to update this application") :=
  (UpdateApplicationStatus_failures sampleDBApplied Env.reliable 70 1 2
    { Status := "rejected" }).2.1.mpr
    ⟨{ sampleApplication with Job := sampleJob, JobSeeker := sampleSeeker }, rfl, by decide⟩

end services

/-! ### Application lifecycle: sequences of calls -/

namespace services
open repositories

/-- The method `WithdrawApplication` returns an error together with the store it was given, or
has found an application of the caller that is not processed and removed the rows with its key. -/
theorem WithdrawApplication_cases (db : DB) (env : Env) (applicationID jobSeekerID : Nat) :
    (∃ e, applicationService.WithdrawApplication db env applicationID jobSeekerID
      = (some e, db)) ∨
    (∃ application, applicationRepository.GetByID db env applicationID = .ok application ∧
      application.JobSeekerID = jobSeekerID ∧
      ¬ (application.Status = "selected" ∨ application.Status = "rejected") ∧
      applicationService.WithdrawApplication db env applicationID jobSeekerID
        = (none, { db with
            applications := db.applications.filter (fun a => !(a.ID == applicationID)) })) := by
  unfold applicationService.WithdrawApplication
  split
  · exact Or.inl ⟨_, rfl⟩
  · rename_i application hget
    split
    · exact Or.inl ⟨_, rfl⟩
    · rename_i hown
      split
      · exact Or.inl ⟨_, rfl⟩
      · rename_i hstat
        split
        · exact Or.inl ⟨_, rfl⟩
        · rename_i db1 hdel
          right
          refine ⟨application, hget, by simpa using hown, hstat, ?_⟩
          unfold applicationRepository.Delete at hdel
          split at hdel
          · simp at hdel
          · simp only [Except.ok.injEq] at hdel
            rw [← hdel]

/-- The method `UpdateApplicationStatus` returns an error together with the store it was given,
or has found an application of a job of the caller and written the new status and the reading of
the clock into the rows with its key. -/
theorem UpdateApplicationStatus_cases (db : DB) (env : Env) (now : Time)
    (applicationID employerID : Nat) (req : UpdateApplicationStatusRequest) :
    (∃ e, applicationService.UpdateApplicationStatus db env now applicationID employerID req
      = (.error e, db)) ∨
    (∃ application, applicationRepository.GetByID db env applicationID = .ok application ∧
      application.Job.EmployerID = employerID ∧
      applicationService.UpdateApplicationStatus db env now applicationID employerID req
        = (.ok { application with Status := req.Status, UpdatedAt := now },
           { db with applications := db.applications.map (fun a =>
               if a.ID == applicationID then
                 { application with Status := req.Status, UpdatedAt := now, Job := {},
                                    JobSeeker := {} }
               else a) })) := by
  cases hget : applicationRepository.GetByID db env applicationID with
  | error e =>
    left
    exact ⟨.New "application not found",
      by simp [applicationService.UpdateApplicationStatus, hget]⟩
  | ok application =>
    by_cases hown : application.Job.EmployerID = employerID
    · by_cases hupd : env.fails .applicationUpdate = true
      · left
        exact ⟨.New "failed to update application status",
          by simp [applicationService.UpdateApplicationStatus, hget, hown,
            applicationRepository.Update, hupd]⟩
      · right
        obtain ⟨-, row, -, hid, hmem, happ⟩ :=
          applicationRepository_GetByID_ok db env applicationID application hget
        have hcols := preloadJobAndJobSeeker_columns db row
        rw [← happ] at hcols
        have haid : application.ID = applicationID := by rw [hcols.1, hid]
        have hany : (db.applications.any (fun a => a.ID == applicationID)) = true := by
          rw [List.any_eq_true]
          exact ⟨row, hmem, by simpa using hid⟩
        refine ⟨application, rfl, hown, ?_⟩
        unfold applicationService.UpdateApplicationStatus
        simp only [hget, hown, ne_eq, not_true_eq_false, if_false, applicationRepository.Update,
          hupd, Bool.false_eq_true, haid, hany, if_true]
    · left
      exact ⟨.New "unauthorized to update this application",
        by simp [applicationService.UpdateApplicationStatus, hget, hown]⟩

/-- The application stored under a key has a terminal status exactly when the first row with that
key has status "selected" or "rejected". -/
theorem hasTerminalStatus_iff (db : DB) (id : Nat) :
    hasTerminalStatus db id = true ↔
      ∃ a, db.applications.find? (fun a => a.ID == id) = some a ∧
        (a.Status = "selected" ∨ a.Status = "rejected") := by
  unfold hasTerminalStatus
  split
  · rename_i a ha
    simp [isTerminalStatus, ha]
  · rename_i hnone
    simp [hnone]

/-- Rows with another key can be removed without changing what is stored under a key. -/
theorem find?_filter_other_key (l : List models.Application) (id id2 : Nat) (hne : id2 ≠ id) :
    (l.filter (fun a => !(a.ID == id2))).find? (fun a => a.ID == id)
      = l.find? (fun a => a.ID == id) := by
  induction l with
  | nil => rfl
  | cons a t ih =>
    by_cases h2 : a.ID = id2
    · have h1 : a.ID ≠ id := fun h => hne (h2 ▸ h)
      simp [List.filter_cons, h2, List.find?_cons, hne, ih]
    · by_cases h1 : a.ID = id
      · have h3 : id ≠ id2 := fun h => hne h.symm
        simp [List.filter_cons, List.find?_cons, h1, h3]
      · simp [List.filter_cons, h2, List.find?_cons, h1, ih]

/-- Rewriting the rows of one key into a row of the same key rewrites what is stored under that
key and leaves what is stored under every other key. -/
theorem find?_map_key (l : List models.Application) (id id2 : Nat) (row : models.Application)
    (hrow : row.ID = id2) :
    (l.map (fun a => if a.ID == id2 then row else a)).find? (fun a => a.ID == id)
      = (l.find? (fun a => a.ID == id)).map (fun a => if a.ID == id2 then row else a) := by
  rw [List.find?_map]
  congr 1
  congr 1
  funext a
  by_cases h2 : a.ID = id2
  · simp [h2, hrow]
  · simp [h2]

/-- A withdrawal of an application whose stored status is terminal does not succeed. -/
theorem WithdrawApplication_terminal (db : DB) (env : Env) (applicationID jobSeekerID : Nat)
    (h : hasTerminalStatus db applicationID = true) :
    (applicationService.WithdrawApplication db env applicationID jobSeekerID).1 ≠ none := by
  obtain ⟨a, hfind, hterm⟩ := (hasTerminalStatus_iff db applicationID).mp h
  rcases WithdrawApplication_cases db env applicationID jobSeekerID with
    ⟨e, he⟩ | ⟨application, hget, -, hstat, -⟩
  · rw [he]
    simp
  · obtain ⟨-, row, hfind2, -, -, happ⟩ :=
      applicationRepository_GetByID_ok db env applicationID application hget
    rw [hfind] at hfind2
    have hrow : a = row := by simpa using hfind2
    have hcols := preloadJobAndJobSeeker_columns db row
    rw [← happ, ← hrow] at hcols
    rw [hcols.2.2.2.1] at hstat
    exact absurd hterm hstat

/-- One call that is no status update of the application to a status that is not terminal keeps
the stored status of the application terminal. -/
theorem hasTerminalStatus_run (db : DB) (id : Nat) (op : LifecycleOp)
    (h : hasTerminalStatus db id = true) (hk : op.keepsTerminal id = true) :
    hasTerminalStatus (op.run db) id = true := by
  obtain ⟨a, hfind, hterm⟩ := (hasTerminalStatus_iff db id).mp h
  cases op with
  | apply env now stamp jobSeekerID req =>
    rcases ApplyToJob_cases db env now stamp jobSeekerID req with ⟨e, he⟩ | ⟨app, db1, he⟩
    · simp only [LifecycleOp.run, he]
      exact h
    · obtain ⟨-, -, -, -, -, -, hdb, -⟩ :=
        ApplyToJob_ok_inv db db1 env now stamp jobSeekerID req app he
      simp only [LifecycleOp.run, he]
      rw [hasTerminalStatus_iff]
      refine ⟨a, ?_, hterm⟩
      rw [hdb]
      simp [List.find?_append, hfind]
  | withdraw env id2 jobSeekerID =>
    by_cases hid : id2 = id
    · subst hid
      rcases WithdrawApplication_cases db env id2 jobSeekerID with ⟨e, he⟩ | ⟨_, _, _, _, he⟩
      · simp only [LifecycleOp.run, he]
        exact h
      · have := WithdrawApplication_terminal db env id2 jobSeekerID h
        rw [he] at this
        exact absurd rfl this
    · rcases WithdrawApplication_cases db env id2 jobSeekerID with ⟨e, he⟩ | ⟨_, _, _, _, he⟩
      · simp only [LifecycleOp.run, he]
        exact h
      · simp only [LifecycleOp.run, he]
        rw [hasTerminalStatus_iff]
        refine ⟨a, ?_, hterm⟩
        simp only
        rw [find?_filter_other_key _ _ _ hid, hfind]
  | updateStatus env now id2 employerID req =>
    rcases UpdateApplicationStatus_cases db env now id2 employerID req with
      ⟨e, he⟩ | ⟨application, hget, -, he⟩
    · simp only [LifecycleOp.run, he]
      exact h
    · obtain ⟨-, row, -, hid2, -, happ⟩ :=
        applicationRepository_GetByID_ok db env id2 application hget
      have hcols := preloadJobAndJobSeeker_columns db row
      rw [← happ] at hcols
      have haid : application.ID = id2 := by rw [hcols.1, hid2]
      have haid1 : ({ application with
          Status := req.Status, UpdatedAt := now, Job := {}, JobSeeker := {} } :
          models.Application).ID = id2 := haid
      simp only [LifecycleOp.run, he]
      rw [hasTerminalStatus_iff]
      simp only
      rw [find?_map_key _ _ _ _ haid1, hfind]
      by_cases hid : id2 = id
      · have hreq : req.Status = "selected" ∨ req.Status = "rejected" := by
          simpa [LifecycleOp.keepsTerminal, hid, isTerminalStatus] using hk
        have ha : a.ID = id2 := by
          have := List.find?_some hfind
          simpa [hid] using this
        refine ⟨{ application with
          Status := req.Status, UpdatedAt := now, Job := {}, JobSeeker := {} }, ?_, hreq⟩
        simp [ha]
      · have ha : a.ID ≠ id2 := by
          have := List.find?_some hfind
          intro hc
          apply hid
          rw [← hc]
          simpa using this
        exact ⟨a, by simp [ha], hterm⟩

/-- Claim C16 as amended: once the stored status of an application is "selected" or "rejected",
it stays terminal through every later sequence of lifecycle calls that contains no status update
of that application to a status that is not terminal, and after such a sequence no
`WithdrawApplication` on that application succeeds; in whatever store, a withdrawal of an
application whose stored status is terminal does not succeed. -/
theorem Withdraw_blocked_while_terminal (db : DB) (ops : List LifecycleOp) (applicationID : Nat)
    (hterminal : hasTerminalStatus db applicationID = true)
    (hkeep : ∀ op ∈ ops, op.keepsTerminal applicationID = true) :
    hasTerminalStatus (runLifecycle ops db) applicationID = true ∧
    (∀ env jobSeekerID,
      (applicationService.WithdrawApplication (runLifecycle ops db) env applicationID
        jobSeekerID).1 ≠ none) ∧
    (∀ (later : DB) env jobSeekerID, hasTerminalStatus later applicationID = true →
      (applicationService.WithdrawApplication later env applicationID jobSeekerID).1
        ≠ none) := by
  have hinv : hasTerminalStatus (runLifecycle ops db) applicationID = true := by
    induction ops generalizing db with
    | nil => exact hterminal
    | cons op rest ih =>
      simp only [runLifecycle, List.foldl_cons]
      exact ih (op.run db)
        (hasTerminalStatus_run db applicationID op hterminal (hkeep op (List.mem_cons_self _ _)))
        (fun o ho => hkeep o (List.mem_cons_of_mem _ ho))
  exact ⟨hinv, fun env jobSeekerID =>
    WithdrawApplication_terminal _ env applicationID jobSeekerID hinv,
    fun later env jobSeekerID h =>
      WithdrawApplication_terminal later env applicationID jobSeekerID h⟩

/-- The selected sample application stays selected while another seeker and the owner try to
withdraw it, and the owner cannot withdraw it afterwards. -/
theorem Withdraw_blocked_while_terminal_witness :
    hasTerminalStatus
        (runLifecycle [.withdraw Env.reliable 1 2, .withdraw Env.reliable 1 1] sampleDBSelected)
        1 = true ∧
    ∀ env jobSeekerID,
      (applicationService.WithdrawApplication
        (runLifecycle [.withdraw Env.reliable 1 2, .withdraw Env.reliable 1 1] sampleDBSelected)
        env 1 jobSeekerID).1 ≠ none :=
  ⟨(Withdraw_blocked_while_terminal sampleDBSelected
      [.withdraw Env.reliable 1 2, .withdraw Env.reliable 1 1] 1 rfl (by decide)).1,
   (Withdraw_blocked_while_terminal sampleDBSelected
      [.withdraw Env.reliable 1 2, .withdraw Env.reliable 1 1] 1 rfl (by decide)).2.1⟩

/-- Claim C16 fails as stated: in the sequence apply, select, move back to "applied", the sample
application has reached the terminal status "selected" after the second call, and the withdrawal
that follows the third call succeeds and removes it. -/
theorem Withdraw_after_terminal_succeeds :
    runLifecycle (sampleReopen.take 2) sampleDB = sampleDBSelected ∧
    hasTerminalStatus (runLifecycle (sampleReopen.take 2) sampleDB) 1 = true ∧
    (applicationService.WithdrawApplication (runLifecycle sampleReopen sampleDB)
      Env.reliable 1 1).1 = none ∧
    (applicationService.WithdrawApplication (runLifecycle sampleReopen sampleDB)
      Env.reliable 1 1).2.applications = [] :=
  ⟨rfl, rfl, rfl, rfl⟩

/-- A successful `ApplyToJob` has not found an application of the seeker for the job. -/
theorem ApplyToJob_ok_no_duplicate (db db1 : DB) (env : Env) (now stamp : Time)
    (jobSeekerID : Nat) (req : ApplyJobRequest) (app : models.Application)
    (h : applicationService.ApplyToJob db env now stamp jobSeekerID req = (.ok app, db1)) :
    ∃ e, applicationRepository.GetByJobAndJobSeeker db env req.JobID jobSeekerID = .error e := by
  obtain ⟨jobSeeker, job, hseeker, hjob, hactive, hdead, -, -⟩ :=
    ApplyToJob_ok_inv db db1 env now stamp jobSeekerID req app h
  cases hdup : applicationRepository.GetByJobAndJobSeeker db env req.JobID jobSeekerID with
  | error e => exact ⟨e, rfl⟩
  | ok a =>
    simp [applicationService.ApplyToJob, hseeker, hjob, hactive, hdead, hdup] at h

/-- In a table without two rows of the same job and seeker, at most one row has a given job and
seeker. -/
theorem length_filter_pair_le_one (l : List models.Application) (jobID jobSeekerID : Nat)
    (hn : (l.map (fun a => (a.JobID, a.JobSeekerID))).Nodup) :
    (l.filter (fun a => a.JobID == jobID && a.JobSeekerID == jobSeekerID)).length ≤ 1 := by
  induction l with
  | nil => simp
  | cons a t ih =>
    rw [List.map_cons, List.nodup_cons] at hn
    by_cases ha : a.JobID = jobID ∧ a.JobSeekerID = jobSeekerID
    · have hnone : t.filter (fun a => a.JobID == jobID && a.JobSeekerID == jobSeekerID) = [] := by
        rw [List.filter_eq_nil_iff]
        intro b hb hp
        apply hn.1
        have hb2 : b.JobID = jobID ∧ b.JobSeekerID = jobSeekerID := by simpa using hp
        rw [List.mem_map]
        exact ⟨b, hb, by rw [hb2.1, hb2.2, ha.1, ha.2]⟩
      simp [List.filter_cons, ha.1, ha.2, hnone]
    · have hf : (a.JobID == jobID && a.JobSeekerID == jobSeekerID) = false := by
        simpa using ha
      rw [List.filter_cons, hf]
      exact ih hn.2

/-- Every lifecycle call whose duplicate lookup is carried out keeps the keys distinct and the
pairs of job and seeker distinct. -/
theorem LifecycleInv_run (db : DB) (op : LifecycleOp) (hinv : LifecycleInv db)
    (hlookup : op.duplicateLookupWorks = true) : LifecycleInv (op.run db) := by
  cases op with
  | apply env now stamp jobSeekerID req =>
    rcases ApplyToJob_cases db env now stamp jobSeekerID req with ⟨e, he⟩ | ⟨app, db1, he⟩
    · simp only [LifecycleOp.run, he]
      exact hinv
    · obtain ⟨-, -, -, -, -, -, hdb, -⟩ :=
        ApplyToJob_ok_inv db db1 env now stamp jobSeekerID req app he
      obtain ⟨e, hdup⟩ := ApplyToJob_ok_no_duplicate db db1 env now stamp jobSeekerID req app he
      have hworks : env.fails .applicationGetByJobAndJobSeeker = false := by
        simpa [LifecycleOp.duplicateLookupWorks] using hlookup
      have hnone : ∀ a ∈ db.applications,
          ¬ (a.JobID = req.JobID ∧ a.JobSeekerID = jobSeekerID) := by
        unfold applicationRepository.GetByJobAndJobSeeker at hdup
        simp only [hworks, Bool.false_eq_true, if_false] at hdup
        split at hdup
        · simp at hdup
        · rename_i hfind
          intro a ha
          have := List.find?_eq_none.mp hfind a ha
          simpa using this
      simp only [LifecycleOp.run, he]
      subst hdb
      refine ⟨?_, ?_, ?_⟩
      · simp only [List.map_append, List.map_cons, List.map_nil]
        rw [List.nodup_append]
        refine ⟨hinv.keys, List.nodup_singleton _, ?_⟩
        intro x hx hx2
        rw [List.mem_singleton] at hx2
        rw [List.mem_map] at hx
        obtain ⟨a, ha, hax⟩ := hx
        have := hinv.sequence a ha
        omega
      · intro a ha
        simp only [List.mem_append, List.mem_singleton] at ha
        rcases ha with ha | ha
        · have := hinv.sequence a ha
          simp only
          omega
        · rw [ha]
      · simp only [List.map_append, List.map_cons, List.map_nil]
        rw [List.nodup_append]
        refine ⟨hinv.pairs, List.nodup_singleton _, ?_⟩
        intro x hx hx2
        rw [List.mem_singleton] at hx2
        rw [List.mem_map] at hx
        obtain ⟨a, ha, hax⟩ := hx
        apply hnone a ha
        rw [hx2] at hax
        simpa using hax
  | withdraw env id2 jobSeekerID =>
    rcases WithdrawApplication_cases db env id2 jobSeekerID with ⟨e, he⟩ | ⟨_, _, _, _, he⟩
    · simp only [LifecycleOp.run, he]
      exact hinv
    · simp only [LifecycleOp.run, he]
      refine ⟨?_, ?_, ?_⟩
      · exact List.Nodup.sublist ((List.filter_sublist _).map _) hinv.keys
      · intro a ha
        exact hinv.sequence a (List.mem_filter.mp ha).1
      · exact List.Nodup.sublist ((List.filter_sublist _).map _) hinv.pairs
  | updateStatus env now id2 employerID req =>
    rcases UpdateApplicationStatus_cases db env now id2 employerID req with
      ⟨e, he⟩ | ⟨application, hget, -, he⟩
    · simp only [LifecycleOp.run, he]
      exact hinv
    · obtain ⟨-, row, -, hid2, hrow, happ⟩ :=
        applicationRepository_GetByID_ok db env id2 application hget
      have hcols := preloadJobAndJobSeeker_columns db row
      rw [← happ] at hcols
      have hsame : ∀ a ∈ db.applications, a.ID = id2 → a = row := by
        intro a ha haid
        exact List.inj_on_of_nodup_map hinv.keys ha hrow (by rw [haid, hid2])
      have hkeys : (db.applications.map (fun a => if a.ID == id2 then
            ({ application with
                Status := req.Status, UpdatedAt := now, Job := {}, JobSeeker := {} } :
              models.Application) else a)).map (fun a => a.ID)
          = db.applications.map (fun a => a.ID) := by
        rw [List.map_map]
        apply List.map_congr_left
        intro a ha
        by_cases h2 : a.ID = id2
        · simp [h2, hcols.1, hid2]
        · simp [h2]
      have hpairs : (db.applications.map (fun a => if a.ID == id2 then
            ({ application with
                Status := req.Status, UpdatedAt := now, Job := {}, JobSeeker := {} } :
              models.Application) else a)).map (fun a => (a.JobID, a.JobSeekerID))
          = db.applications.map (fun a => (a.JobID, a.JobSeekerID)) := by
        rw [List.map_map]
        apply List.map_congr_left
        intro a ha
        by_cases h2 : a.ID = id2
        · have := hsame a ha h2
          simp [hcols.2.1, hcols.2.2.1, this, hid2]
        · simp [h2]
      simp only [LifecycleOp.run, he]
      refine ⟨?_, ?_, ?_⟩
      · rw [hkeys]
        exact hinv.keys
      · intro a ha
        have hmem : a.ID ∈ db.applications.map (fun a => a.ID) := by
          rw [← hkeys]
          exact List.mem_map_of_mem _ ha
        rw [List.mem_map] at hmem
        obtain ⟨b, hb, hba⟩ := hmem
        rw [← hba]
        exact hinv.sequence b hb
      · rw [hpairs]
        exact hinv.pairs

/-- Claim C17: in every store reached from a store without applications by lifecycle calls whose
duplicate lookup is carried out by storage, no two applications have the same job and job seeker:
for each pair at most one application is stored. -/
theorem unique_application_per_pair (db0 : DB) (ops : List LifecycleOp)
    (hempty : db0.applications = [])
    (hlookup : ∀ op ∈ ops, op.duplicateLookupWorks = true) :
    ((runLifecycle ops db0).applications.map (fun a => (a.JobID, a.JobSeekerID))).Nodup ∧
    ∀ jobID jobSeekerID,
      ((runLifecycle ops db0).applications.filter
        (fun a => a.JobID == jobID && a.JobSeekerID == jobSeekerID)).length ≤ 1 := by
  have h0 : LifecycleInv db0 := by
    refine ⟨?_, ?_, ?_⟩
    · rw [hempty]
      exact List.nodup_nil
    · rw [hempty]
      intro a ha
      exact absurd ha (List.not_mem_nil a)
    · rw [hempty]
      exact List.nodup_nil
  have hinv : ∀ (ops : List LifecycleOp) (db : DB), LifecycleInv db →
      (∀ op ∈ ops, op.duplicateLookupWorks = true) → LifecycleInv (runLifecycle ops db) := by
    intro ops
    induction ops with
    | nil => intro db h _; exact h
    | cons op rest ih =>
      intro db h hl
      simp only [runLifecycle, List.foldl_cons]
      exact ih (op.run db) (LifecycleInv_run db op h (hl op (List.mem_cons_self _ _)))
        (fun o ho => hl o (List.mem_cons_of_mem _ ho))
  have hfinal := hinv ops db0 h0 hlookup
  exact ⟨hfinal.pairs, fun jobID jobSeekerID =>
    length_filter_pair_le_one _ jobID jobSeekerID hfinal.pairs⟩

/-- The sample seeker applies three times to the sample job: one application is stored. -/
theorem unique_application_per_pair_witness :
    ((runLifecycle sampleRepeatedApply sampleDB).applications.filter
      (fun a => a.JobID == 1 && a.JobSeekerID == 1)).length ≤ 1 :=
  (unique_application_per_pair sampleDB sampleRepeatedApply rfl (by decide)).2 1 1

/-- Every lifecycle call whose request passes the binding keeps all stored statuses inside the
four states. -/
theorem isApplicationStatus_run (db : DB) (op : LifecycleOp)
    (hinv : ∀ a ∈ db.applications, isApplicationStatus a.Status = true)
    (hbound : op.bound = true) :
    ∀ a ∈ (op.run db).applications, isApplicationStatus a.Status = true := by
  cases op with
  | apply env now stamp jobSeekerID req =>
    rcases ApplyToJob_cases db env now stamp jobSeekerID req with ⟨e, he⟩ | ⟨app, db1, he⟩
    · simp only [LifecycleOp.run, he]
      exact hinv
    · obtain ⟨-, -, -, -, -, -, hdb, -⟩ :=
        ApplyToJob_ok_inv db db1 env now stamp jobSeekerID req app he
      simp only [LifecycleOp.run, he]
      subst hdb
      intro a ha
      simp only [List.mem_append, List.mem_singleton] at ha
      rcases ha with ha | ha
      · exact hinv a ha
      · rw [ha]
        rfl
  | withdraw env id2 jobSeekerID =>
    rcases WithdrawApplication_cases db env id2 jobSeekerID with ⟨e, he⟩ | ⟨_, _, _, _, he⟩
    · simp only [LifecycleOp.run, he]
      exact hinv
    · simp only [LifecycleOp.run, he]
      intro a ha
      exact hinv a (List.mem_filter.mp ha).1
  | updateStatus env now id2 employerID req =>
    rcases UpdateApplicationStatus_cases db env now id2 employerID req with
      ⟨e, he⟩ | ⟨application, -, -, he⟩
    · simp only [LifecycleOp.run, he]
      exact hinv
    · have hreq : isApplicationStatus req.Status = true := by
        have hb : req.binding = true := hbound
        unfold UpdateApplicationStatusRequest.binding at hb
        rw [Bool.and_eq_true] at hb
        exact hb.2
      simp only [LifecycleOp.run, he]
      intro a ha
      rw [List.mem_map] at ha
      obtain ⟨b, hb, hba⟩ := ha
      by_cases h2 : b.ID = id2
      · simp only [h2, beq_self_eq_true, if_true] at hba
        rw [← hba]
        exact hreq
      · have hf : (b.ID == id2) = false := by simpa using h2
        simp only [hf, Bool.false_eq_true, if_false] at hba
        rw [← hba]
        exact hinv b hb

/-- Claim C18: in every store reached by lifecycle calls from a store whose applications have one
of the statuses "applied", "shortlisted", "rejected", "selected" (the store without applications
among them), every application has one of these statuses, given that every status update carries a
request that passes the binding of `UpdateApplicationStatusRequest`; a successful `ApplyToJob`
stores its row as "applied", and a successful status update with such a request stores a status
of the four. -/
theorem application_status_in_states (db0 : DB) (ops : List LifecycleOp)
    (hstart : ∀ a ∈ db0.applications, isApplicationStatus a.Status = true)
    (hbound : ∀ op ∈ ops, op.bound = true) :
    (∀ a ∈ (runLifecycle ops db0).applications,
      a.Status = "applied" ∨ a.Status = "shortlisted" ∨ a.Status = "rejected" ∨
        a.Status = "selected") ∧
    (∀ db env now stamp jobSeekerID req app db1,
      applicationService.ApplyToJob db env now stamp jobSeekerID req = (.ok app, db1) →
      app.Status = "applied" ∧
        ∃ row, db1.applications = db.applications ++ [row] ∧ row.Status = "applied") ∧
    (∀ db env now applicationID employerID req app db1,
      applicationService.UpdateApplicationStatus db env now applicationID employerID req
        = (.ok app, db1) →
      req.binding = true → isApplicationStatus app.Status = true) := by
  have hinv : ∀ (ops : List LifecycleOp) (db : DB),
      (∀ a ∈ db.applications, isApplicationStatus a.Status = true) →
      (∀ op ∈ ops, op.bound = true) →
      ∀ a ∈ (runLifecycle ops db).applications, isApplicationStatus a.Status = true := by
    intro ops
    induction ops with
    | nil => intro db h _; exact h
    | cons op rest ih =>
      intro db h hb
      simp only [runLifecycle, List.foldl_cons]
      exact ih (op.run db) (isApplicationStatus_run db op h (hb op (List.mem_cons_self _ _)))
        (fun o ho => hb o (List.mem_cons_of_mem _ ho))
  refine ⟨?_, ?_, ?_⟩
  · intro a ha
    have := hinv ops db0 hstart hbound a ha
    simpa [isApplicationStatus, or_assoc] using this
  · intro db env now stamp jobSeekerID req app db1 h
    obtain ⟨jobSeeker, job, -, -, -, -, hdb, happ⟩ :=
      ApplyToJob_ok_inv db db1 env now stamp jobSeekerID req app h
    rw [hdb, happ]
    exact ⟨rfl, _, rfl, rfl⟩
  · intro db env now applicationID employerID req app db1 h hb
    rcases UpdateApplicationStatus_cases db env now applicationID employerID req with
      ⟨e, he⟩ | ⟨application, -, -, he⟩
    · rw [he] at h
      simp at h
    · rw [he] at h
      simp only [Prod.mk.injEq, Except.ok.injEq] at h
      rw [← h.1]
      unfold UpdateApplicationStatusRequest.binding at hb
      rw [Bool.and_eq_true] at hb
      exact hb.2

/-- The sample seeker applies three times and the employer shortlists the application: the one
stored application has a status of the four. -/
theorem application_status_in_states_witness :
    (runLifecycle sampleRepeatedApply sampleDB).applications
        = [{ sampleApplication with Status := "shortlisted", UpdatedAt := 60 }] ∧
    (({ sampleApplication with Status := "shortlisted", UpdatedAt := 60 } :
        models.Application).Status = "applied" ∨
      ({ sampleApplication with Status := "shortlisted", UpdatedAt := 60 } :
        models.Application).Status = "shortlisted" ∨
      ({ sampleApplication with Status := "shortlisted", UpdatedAt := 60 } :
        models.Application).Status = "rejected" ∨
      ({ sampleApplication with Status := "shortlisted", UpdatedAt := 60 } :
        models.Application).Status = "selected") :=
  ⟨rfl, (application_status_in_states sampleDB sampleRepeatedApply
    (fun a ha => absurd ha (List.not_mem_nil a)) (by decide)).1
    { sampleApplication with Status := "shortlisted", UpdatedAt := 60 }
    (List.mem_singleton_self _)⟩

end services

/-! ### Application statistics -/

namespace services
open repositories

/-- Counting the applications with a status, one application at a time. -/
theorem countP_status_cons (app : models.Application) (rest : List models.Application)
    (status : String) :
    (app :: rest).countP (fun a => a.Status == status)
      = rest.countP (fun a => a.Status == status) + (if app.Status = status then 1 else 0) := by
  rw [List.countP_cons]
  simp

/-- The loop of the statistics methods does not panic on counters that hold `int` values, adds to
each counter the number of applications with exactly its status, and leaves the other keys. -/
theorem countByStatus_counts (applications : List models.Application) (stats : Stats)
    (a s r x : Int)
    (ha : stats "applied" = some (.int a)) (hs : stats "shortlisted" = some (.int s))
    (hr : stats "rejected" = some (.int r)) (hx : stats "selected" = some (.int x)) :
    ∃ stats1, applicationService.countByStatus applications stats = some stats1 ∧
      stats1 "applied"
        = some (.int (a + applications.countP (fun app => app.Status == "applied"))) ∧
      stats1 "shortlisted"
        = some (.int (s + applications.countP (fun app => app.Status == "shortlisted"))) ∧
      stats1 "rejected"
        = some (.int (r + applications.countP (fun app => app.Status == "rejected"))) ∧
      stats1 "selected"
        = some (.int (x + applications.countP (fun app => app.Status == "selected"))) ∧
      ∀ key, key ≠ "applied" → key ≠ "shortlisted" → key ≠ "rejected" → key ≠ "selected" →
        stats1 key = stats key := by
  induction applications generalizing stats a s r x with
  | nil =>
    exact ⟨stats, rfl, by simpa using ha, by simpa using hs, by simpa using hr,
      by simpa using hx, fun _ _ _ _ _ => rfl⟩
  | cons app rest ih =>
    unfold applicationService.countByStatus
    rw [List.foldlM_cons]
    by_cases h1 : app.Status = "applied"
    · simp only [h1, if_true, Stats.increment, ha]
      obtain ⟨stats1, hrun, ea, es, er, ex, eo⟩ :=
        ih (stats.set "applied" (.int (a + 1))) (a + 1) s r x
          (by simp [Stats.set]) (by simpa [Stats.set] using hs)
          (by simpa [Stats.set] using hr) (by simpa [Stats.set] using hx)
      refine ⟨stats1, by simpa using hrun, ?_, ?_, ?_, ?_, ?_⟩
      · rw [ea, countP_status_cons]; simp [h1]; ring
      · rw [es, countP_status_cons]; simp [h1]
      · rw [er, countP_status_cons]; simp [h1]
      · rw [ex, countP_status_cons]; simp [h1]
      · intro key k1 k2 k3 k4
        rw [eo key k1 k2 k3 k4]
        simp [Stats.set, k1]
    · by_cases h2 : app.Status = "shortlisted"
      · simp only [h2, if_true, Stats.increment, hs]
        obtain ⟨stats1, hrun, ea, es, er, ex, eo⟩ :=
          ih (stats.set "shortlisted" (.int (s + 1))) a (s + 1) r x
            (by simpa [Stats.set] using ha) (by simp [Stats.set])
            (by simpa [Stats.set] using hr) (by simpa [Stats.set] using hx)
        refine ⟨stats1, by simpa using hrun, ?_, ?_, ?_, ?_, ?_⟩
        · rw [ea, countP_status_cons]; simp [h2]
        · rw [es, countP_status_cons]; simp [h2]; ring
        · rw [er, countP_status_cons]; simp [h2]
        · rw [ex, countP_status_cons]; simp [h2]
        · intro key k1 k2 k3 k4
          rw [eo key k1 k2 k3 k4]
          simp [Stats.set, k2]
      · by_cases h3 : app.Status = "rejected"
        · simp only [h3, if_true, Stats.increment, hr]
          obtain ⟨stats1, hrun, ea, es, er, ex, eo⟩ :=
            ih (stats.set "rejected" (.int (r + 1))) a s (r + 1) x
              (by simpa [Stats.set] using ha) (by simpa [Stats.set] using hs)
              (by simp [Stats.set]) (by simpa [Stats.set] using hx)
          refine ⟨stats1, by simpa using hrun, ?_, ?_, ?_, ?_, ?_⟩
          · rw [ea, countP_status_cons]; simp [h3]
          · rw [es, countP_status_cons]; simp [h3]
          · rw [er, countP_status_cons]; simp [h3]; ring
          · rw [ex, countP_status_cons]; simp [h3]
          · intro key k1 k2 k3 k4
            rw [eo key k1 k2 k3 k4]
            simp [Stats.set, k3]
        · by_cases h4 : app.Status = "selected"
          · simp only [h4, if_true, Stats.increment, hx]
            obtain ⟨stats1, hrun, ea, es, er, ex, eo⟩ :=
              ih (stats.set "selected" (.int (x + 1))) a s r (x + 1)
                (by simpa [Stats.set] using ha) (by simpa [Stats.set] using hs)
                (by simpa [Stats.set] using hr) (by simp [Stats.set])
            refine ⟨stats1, by simpa using hrun, ?_, ?_, ?_, ?_, ?_⟩
            · rw [ea, countP_status_cons]; simp [h4]
            · rw [es, countP_status_cons]; simp [h4]
            · rw [er, countP_status_cons]; simp [h4]
            · rw [ex, countP_status_cons]; simp [h4]; ring
            · intro key k1 k2 k3 k4
              rw [eo key k1 k2 k3 k4]
              simp [Stats.set, k4]
          · simp only [h1, h2, h3, h4, if_false]
            obtain ⟨stats1, hrun, ea, es, er, ex, eo⟩ := ih stats a s r x ha hs hr hx
            refine ⟨stats1, by simpa using hrun, ?_, ?_, ?_, ?_, eo⟩
            · rw [ea, countP_status_cons]; simp [h1]
            · rw [es, countP_status_cons]; simp [h2]
            · rw [er, countP_status_cons]; simp [h3]
            · rw [ex, countP_status_cons]; simp [h4]

/-- When every status of a list is one of the four, the four counts add up to its length. -/
theorem countP_statuses_total (applications : List models.Application)
    (h : ∀ a ∈ applications, isApplicationStatus a.Status = true) :
    applications.countP (fun a => a.Status == "applied") +
      applications.countP (fun a => a.Status == "shortlisted") +
      applications.countP (fun a => a.Status == "rejected") +
      applications.countP (fun a => a.Status == "selected") = applications.length := by
  induction applications with
  | nil => rfl
  | cons app rest ih =>
    have hrest := ih (fun a ha => h a (List.mem_cons_of_mem _ ha))
    have happ : app.Status = "applied" ∨ app.Status = "shortlisted" ∨ app.Status = "rejected" ∨
        app.Status = "selected" := by
      simpa [isApplicationStatus, or_assoc] using h app (List.mem_cons_self _ _)
    simp only [countP_status_cons, List.length_cons]
    rcases happ with h1 | h1 | h1 | h1 <;> simp [h1] <;> omega

/-- The method `min` returns the smaller of its arguments. -/
theorem min_le_length (n : Nat) : 0 ≤ min 5 n ∧ min 5 n ≤ n := by
  unfold min
  split <;> omega

/-- Claim C19: for a list of applications that storage returns for a seeker the lookup returns,
or for a job the lookup returns and the caller owns, the statistics method returns a map in which
`total_applications` is the length of the list and `applied`, `shortlisted`, `rejected` and
`selected` are the numbers of its elements with exactly that status; the four numbers add up to
the length whenever every status of the list is one of the four. -/
theorem application_stats_counts (db : DB) (env : Env) (applications : List models.Application) :
    (∀ jobSeekerID jobSeeker,
      jobSeekerRepository.GetByID db env jobSeekerID = .ok jobSeeker →
      applicationRepository.GetByJobSeekerID db env jobSeekerID = .ok applications →
      ∃ stats, applicationService.GetApplicationStats db env jobSeekerID = some (.ok stats) ∧
        stats "total_applications" = some (.int applications.length) ∧
        stats "applied"
          = some (.int (applications.countP (fun a => a.Status == "applied"))) ∧
        stats "shortlisted"
          = some (.int (applications.countP (fun a => a.Status == "shortlisted"))) ∧
        stats "rejected"
          = some (.int (applications.countP (fun a => a.Status == "rejected"))) ∧
        stats "selected"
          = some (.int (applications.countP (fun a => a.Status == "selected")))) ∧
    (∀ jobID employerID job,
      jobRepository.GetByID db env jobID = .ok job → job.EmployerID = employerID →
      applicationRepository.GetByJobID db env jobID = .ok applications →
      ∃ stats, applicationService.GetJobApplicationStats db env jobID employerID
          = some (.ok stats) ∧
        stats "total_applications" = some (.int applications.length) ∧
        stats "applied"
          = some (.int (applications.countP (fun a => a.Status == "applied"))) ∧
        stats "shortlisted"
          = some (.int (applications.countP (fun a => a.Status == "shortlisted"))) ∧
        stats "rejected"
          = some (.int (applications.countP (fun a => a.Status == "rejected"))) ∧
        stats "selected"
          = some (.int (applications.countP (fun a => a.Status == "selected")))) ∧
    ((∀ a ∈ applications, a.Status = "applied" ∨ a.Status = "shortlisted" ∨
        a.Status = "rejected" ∨ a.Status = "selected") →
      applications.countP (fun a => a.Status == "applied") +
        applications.countP (fun a => a.Status == "shortlisted") +
        applications.countP (fun a => a.Status == "rejected") +
        applications.countP (fun a => a.Status == "selected") = applications.length) := by
  refine ⟨?_, ?_, ?_⟩
  · intro jobSeekerID jobSeeker hseeker happs
    have hslice : sliceTo applications (min 5 applications.length)
        = some (applications.take (min 5 applications.length).toNat) := by
      unfold sliceTo
      rw [if_pos (min_le_length applications.length)]
    obtain ⟨stats1, hrun, ea, es, er, ex, eo⟩ := countByStatus_counts applications
      (Stats.literal
        [("total_applications", .int applications.length),
         ("applied", .int 0),
         ("shortlisted", .int 0),
         ("rejected", .int 0),
         ("selected", .int 0),
         ("recent_applications",
            .applications (applications.take (min 5 applications.length).toNat))])
      0 0 0 0 rfl rfl rfl rfl
    refine ⟨stats1, ?_, ?_, ?_, ?_, ?_, ?_⟩
    · unfold applicationService.GetApplicationStats
      simp only [hseeker, happs, hslice, hrun]
    · rw [eo _ (by decide) (by decide) (by decide) (by decide)]
      rfl
    · simpa using ea
    · simpa using es
    · simpa using er
    · simpa using ex
  · intro jobID employerID job hjob hown happs
    obtain ⟨stats1, hrun, ea, es, er, ex, eo⟩ := countByStatus_counts applications
      (Stats.literal
        [("total_applications", .int applications.length),
         ("applied", .int 0),
         ("shortlisted", .int 0),
         ("rejected", .int 0),
         ("selected", .int 0),
         ("job_title", .string job.Title),
         ("application_deadline", .time job.ApplicationDeadline)])
      0 0 0 0 rfl rfl rfl rfl
    refine ⟨stats1, ?_, ?_, ?_, ?_, ?_, ?_⟩
    · unfold applicationService.GetJobApplicationStats
      simp only [hjob, hown, ne_eq, not_true_eq_false, if_false, happs, hrun]
    · rw [eo _ (by decide) (by decide) (by decide) (by decide)]
      rfl
    · simpa using ea
    · simpa using es
    · simpa using er
    · simpa using ex
  · intro h
    apply countP_statuses_total
    intro a ha
    simpa [isApplicationStatus, or_assoc] using h a ha

/-- The statistics of the sample seeker in the store with the selected application. -/
theorem application_stats_counts_witness :
    ∃ stats, applicationService.GetApplicationStats sampleDBSelected Env.reliable 1
        = some (.ok stats) ∧
      stats "total_applications" = some (.int 1) ∧ stats "applied" = some (.int 0) ∧
      stats "shortlisted" = some (.int 0) ∧ stats "rejected" = some (.int 0) ∧
      stats "selected" = some (.int 1) :=
  (application_stats_counts sampleDBSelected Env.reliable
    [{ sampleApplicationSelected with Job := sampleJobLoaded }]).1 1 sampleSeeker rfl rfl

end services

/-! ### File intake -/

namespace services

/-- The backwards scan of `filepath.Ext` over characters that are neither dot nor separator, then
a dot: the result is the dot and the characters scanned, in the order of the path. -/
theorem Ext_scan_suffix (r rest acc : List Char) (hdot : '.' ∉ r) (hsep : '/' ∉ r) :
    filepath.Ext.scan (r ++ '.' :: rest) acc = some ('.' :: (r.reverse ++ acc)) := by
  induction r generalizing acc with
  | nil => simp [filepath.Ext.scan]
  | cons c r ih =>
    have hc1 : c ≠ '.' := fun h => hdot (h ▸ List.mem_cons_self _ _)
    have hc2 : c ≠ '/' := fun h => hsep (h ▸ List.mem_cons_self _ _)
    rw [List.cons_append, filepath.Ext.scan, if_neg hc2, if_neg hc1,
      ih (c :: acc) (fun h => hdot (List.mem_cons_of_mem _ h))
        (fun h => hsep (List.mem_cons_of_mem _ h))]
    simp

/-- Claim C20: `ValidateFile` returns no error exactly when the size is at most `maxSize` and the
lower-cased extension of the file name is an element of `allowedTypes`, where the extension is
the suffix that starts at the last dot; `UploadResume` hands to storage exactly the files of at
most 10*1024*1024 bytes with lower-cased extension ".pdf", `UploadPortfolio` those of at most
25*1024*1024 bytes; a file of exactly the maximum size passes; a file that is too large gets the
size error whatever its type; and on a validation error storage is not called and the returned
address is empty. -/
theorem ValidateFile_accepts (file : FileHeader) (allowedTypes : List String) (maxSize : Int) :
    (fileService.ValidateFile file allowedTypes maxSize = none ↔
      (file.Size ≤ maxSize ∧
        strings.ToLower (filepath.Ext file.Filename) ∈ allowedTypes)) ∧
    (∀ front ext : List Char, '.' ∉ ext → '/' ∉ ext →
      filepath.Ext (String.mk (front ++ '.' :: ext)) = String.mk ('.' :: ext)) ∧
    (strings.ToLower (filepath.Ext "CV.PDF") = ".pdf" ∧
      strings.ToLower (filepath.Ext "cv.final.Pdf") = ".pdf" ∧
      strings.ToLower (filepath.Ext "cv.pdf.exe") = ".exe" ∧
      strings.ToLower (filepath.Ext "cv") = "") ∧
    (∀ (storage : StorageService) (userID : Nat),
      ((file.Size ≤ 10 * 1024 * 1024 ∧ strings.ToLower (filepath.Ext file.Filename) = ".pdf") →
        fileService.UploadResume storage userID file
          = (storage userID FileTypeResume file,
             [{ userID, fileType := FileTypeResume, file }])) ∧
      (¬ (file.Size ≤ 10 * 1024 * 1024 ∧
          strings.ToLower (filepath.Ext file.Filename) = ".pdf") →
        ∃ err, fileService.ValidateFile file [".pdf"] (10 * 1024 * 1024) = some err ∧
          fileService.UploadResume storage userID file = (("", some err), [])) ∧
      ((file.Size ≤ 25 * 1024 * 1024 ∧ strings.ToLower (filepath.Ext file.Filename) = ".pdf") →
        fileService.UploadPortfolio storage userID file
          = (storage userID FileTypePortfolio file,
             [{ userID, fileType := FileTypePortfolio, file }])) ∧
      (¬ (file.Size ≤ 25 * 1024 * 1024 ∧
          strings.ToLower (filepath.Ext file.Filename) = ".pdf") →
        ∃ err, fileService.ValidateFile file [".pdf"] (25 * 1024 * 1024) = some err ∧
          fileService.UploadPortfolio storage userID file = (("", some err), []))) ∧
    (file.Size = maxSize → strings.ToLower (filepath.Ext file.Filename) ∈ allowedTypes →
      fileService.ValidateFile file allowedTypes maxSize = none) ∧
    (file.Size > maxSize →
      fileService.ValidateFile file allowedTypes maxSize
        = some (.New ("file size " ++ toString file.Size ++ " bytes exceeds maximum " ++
            toString maxSize ++ " bytes"))) := by
  have hiff : ∀ (allowed : List String) (max : Int),
      fileService.ValidateFile file allowed max = none ↔
        (file.Size ≤ max ∧ strings.ToLower (filepath.Ext file.Filename) ∈ allowed) := by
    intro allowed max
    unfold fileService.ValidateFile
    by_cases hsize : file.Size > max
    · simp only [hsize, if_true]
      constructor
      · intro h
        simp at h
      · intro h
        omega
    · simp only [hsize, if_false]
      by_cases hmem : strings.ToLower (filepath.Ext file.Filename) ∈ allowed
      · have hany : (allowed.any
            (fun allowedType => strings.ToLower (filepath.Ext file.Filename) == allowedType))
            = true := by
          rw [List.any_eq_true]
          exact ⟨_, hmem, by simp⟩
        simp only [hany, if_true, true_iff]
        exact ⟨by omega, hmem⟩
      · have hany : (allowed.any
            (fun allowedType => strings.ToLower (filepath.Ext file.Filename) == allowedType))
            = false := by
          rw [List.any_eq_false]
          intro x hx
          have : strings.ToLower (filepath.Ext file.Filename) ≠ x := fun h => hmem (h ▸ hx)
          simpa using this
        simp only [hany, Bool.false_eq_true, if_false]
        constructor
        · intro h
          simp at h
        · intro h
          exact absurd h.2 hmem
  have hpdf : ∀ max : Int, (file.Size ≤ max ∧
      strings.ToLower (filepath.Ext file.Filename) = ".pdf") ↔
      fileService.ValidateFile file [".pdf"] max = none := by
    intro max
    rw [hiff]
    simp
  refine ⟨hiff allowedTypes maxSize, ?_, ⟨by decide, by decide, by decide, by decide⟩, ?_,
    ?_, ?_⟩
  · intro front ext hdot hsep
    unfold filepath.Ext
    have hrev : (String.mk (front ++ '.' :: ext)).toList.reverse
        = ext.reverse ++ '.' :: front.reverse := by
      simp
    rw [hrev, Ext_scan_suffix _ _ _ (by simpa using hdot) (by simpa using hsep)]
    simp
  · intro storage userID
    refine ⟨?_, ?_, ?_, ?_⟩
    · intro h
      unfold fileService.UploadResume
      rw [(hpdf _).mp h]
    · intro h
      have hne : fileService.ValidateFile file [".pdf"] (10 * 1024 * 1024) ≠ none :=
        fun hc => h ((hpdf _).mpr hc)
      cases hv : fileService.ValidateFile file [".pdf"] (10 * 1024 * 1024) with
      | none => exact absurd hv hne
      | some err =>
        refine ⟨err, rfl, ?_⟩
        unfold fileService.UploadResume
        rw [hv]
    · intro h
      unfold fileService.UploadPortfolio
      rw [(hpdf _).mp h]
    · intro h
      have hne : fileService.ValidateFile file [".pdf"] (25 * 1024 * 1024) ≠ none :=
        fun hc => h ((hpdf _).mpr hc)
      cases hv : fileService.ValidateFile file [".pdf"] (25 * 1024 * 1024) with
      | none => exact absurd hv hne
      | some err =>
        refine ⟨err, rfl, ?_⟩
        unfold fileService.UploadPortfolio
        rw [hv]
  · intro hsize hmem
    exact (hiff allowedTypes maxSize).mpr ⟨by omega, hmem⟩
  · intro hsize
    unfold fileService.ValidateFile
    rw [if_pos hsize]

/-- A resume of exactly 10*1024*1024 bytes named `CV.PDF` is handed to storage, and a text file
of 20000000 bytes gets the size error. -/
theorem ValidateFile_accepts_witness :
    fileService.UploadResume sampleStorage 7 { Filename := "CV.PDF", Size := 10485760 }
      = (sampleStorage 7 FileTypeResume { Filename := "CV.PDF", Size := 10485760 },
         [{ userID := 7, fileType := FileTypeResume,
            file := { Filename := "CV.PDF", Size := 10485760 } }]) ∧
    fileService.ValidateFile { Filename := "notes.txt", Size := 20000000 } [".pdf"] 10485760
      = some (.New "file size 20000000 bytes exceeds maximum 10485760 bytes") :=
  ⟨((ValidateFile_accepts { Filename := "CV.PDF", Size := 10485760 } [".pdf"]
      10485760).2.2.2.1 sampleStorage 7).1 ⟨by decide, by decide⟩,
   (ValidateFile_accepts { Filename := "notes.txt", Size := 20000000 } [".pdf"]
      10485760).2.2.2.2.2 (by decide)⟩

end services

/-! ### Job catalog: the filter as a whole, and the limit -/

namespace repositories

/-- The value of the last `Limit` call in the statement that `GetWithFilters` builds. -/
theorem GetWithFilters_limit (filters : JobFilters) :
    (jobRepository.GetWithFilters.builder filters).Build.limit
      = if filters.Limit > 0 then some filters.Limit else none := by
  have hA : ∀ (b : JobQueryBuilder) (v : Option Bool),
      (b.WithIsActive v).query.limit = b.query.limit := by
    intro b v; cases v <;> rfl
  have hP : ∀ (b : JobQueryBuilder) (v : Option Bool),
      (match v with
        | some isPaid => b.WithPaidStatus isPaid
        | none => b).query.limit = b.query.limit := by
    intro b v; cases v <;> rfl
  have hO : ∀ (b : JobQueryBuilder) (f d : String),
      (b.OrderBy f d).query.limit = b.query.limit := by
    intro b f d; unfold JobQueryBuilder.OrderBy; split <;> rfl
  have hI : ∀ (b : JobQueryBuilder) (v : String),
      (b.WithIndustry v).query.limit = b.query.limit := by
    intro b v; unfold JobQueryBuilder.WithIndustry; split <;> rfl
  have hJ : ∀ (b : JobQueryBuilder) (v : String),
      (b.WithJobType v).query.limit = b.query.limit := by
    intro b v; unfold JobQueryBuilder.WithJobType; split <;> rfl
  have hC : ∀ (b : JobQueryBuilder) (v : String),
      (b.WithCity v).query.limit = b.query.limit := by
    intro b v; unfold JobQueryBuilder.WithCity; split <;> rfl
  have hT : ∀ (b : JobQueryBuilder) (v : String),
      (b.WithTargetAudience v).query.limit = b.query.limit := by
    intro b v; unfold JobQueryBuilder.WithTargetAudience; split <;> rfl
  have hM : ∀ (b : JobQueryBuilder) (v : String),
      (b.WithEmploymentMode v).query.limit = b.query.limit := by
    intro b v; unfold JobQueryBuilder.WithEmploymentMode; split <;> rfl
  have h0 : (if filters.EmployerID > 0 then NewJobQueryBuilder.WithEmployerID filters.EmployerID
      else NewJobQueryBuilder).query.limit = none := by
    unfold JobQueryBuilder.WithEmployerID
    split <;> rfl
  have hL : ∀ (b : JobQueryBuilder) (n : Int),
      (b.Limit n).query.limit = if n > 0 then some n else b.query.limit := by
    intro b n; unfold JobQueryBuilder.Limit; split <;> rfl
  unfold jobRepository.GetWithFilters.builder JobQueryBuilder.Build
  simp only [hA, hP, hL, hO, hM, hT, hC, hJ, hI, h0]

/-- The one ordering clause of the statement that `GetWithFilters` builds: the field and the
direction of the filter with a blank between them, or the default. -/
theorem GetWithFilters_orders_eq (filters : JobFilters) :
    (jobRepository.GetWithFilters.builder filters).Build.orders
      = [if filters.OrderBy ≠ "" ∧ filters.OrderDirection ≠ "" then
          filters.OrderBy ++ " " ++ filters.OrderDirection
        else "created_at DESC"] := by
  have hA : ∀ (b : JobQueryBuilder) (v : Option Bool),
      (b.WithIsActive v).query.orders = b.query.orders := by
    intro b v; cases v <;> rfl
  have hP : ∀ (b : JobQueryBuilder) (v : Option Bool),
      (match v with
        | some isPaid => b.WithPaidStatus isPaid
        | none => b).query.orders = b.query.orders := by
    intro b v; cases v <;> rfl
  have hL : ∀ (b : JobQueryBuilder) (n : Int), (b.Limit n).query.orders = b.query.orders := by
    intro b n; unfold JobQueryBuilder.Limit; split <;> rfl
  have hO : ∀ (b : JobQueryBuilder) (f d : String),
      (b.OrderBy f d).query.orders
        = b.query.orders ++ [if f ≠ "" ∧ d ≠ "" then f ++ " " ++ d else "created_at DESC"] := by
    intro b f d
    unfold JobQueryBuilder.OrderBy
    split <;> rfl
  have hI : ∀ (b : JobQueryBuilder) (v : String),
      (b.WithIndustry v).query.orders = b.query.orders := by
    intro b v; unfold JobQueryBuilder.WithIndustry; split <;> rfl
  have hJ : ∀ (b : JobQueryBuilder) (v : String),
      (b.WithJobType v).query.orders = b.query.orders := by
    intro b v; unfold JobQueryBuilder.WithJobType; split <;> rfl
  have hC : ∀ (b : JobQueryBuilder) (v : String),
      (b.WithCity v).query.orders = b.query.orders := by
    intro b v; unfold JobQueryBuilder.WithCity; split <;> rfl
  have hT : ∀ (b : JobQueryBuilder) (v : String),
      (b.WithTargetAudience v).query.orders = b.query.orders := by
    intro b v; unfold JobQueryBuilder.WithTargetAudience; split <;> rfl
  have hM : ∀ (b : JobQueryBuilder) (v : String),
      (b.WithEmploymentMode v).query.orders = b.query.orders := by
    intro b v; unfold JobQueryBuilder.WithEmploymentMode; split <;> rfl
  have h0 : (if filters.EmployerID > 0 then NewJobQueryBuilder.WithEmployerID filters.EmployerID
      else NewJobQueryBuilder).query.orders = [] := by
    unfold JobQueryBuilder.WithEmployerID
    split <;> rfl
  unfold jobRepository.GetWithFilters.builder JobQueryBuilder.Build
  simp only [hA, hP, hL, hO, hM, hT, hC, hJ, hI, h0, List.nil_append]

/-- The ordering clauses of the statement that `GetWithFilters` builds do not depend on the
limit of the filter. -/
theorem GetWithFilters_orders (filters : JobFilters) (n : Int) :
    (jobRepository.GetWithFilters.builder { filters with Limit := n }).Build.orders
      = (jobRepository.GetWithFilters.builder filters).Build.orders := by
  rw [GetWithFilters_orders_eq, GetWithFilters_orders_eq]

/-- For a filter whose sort field and direction are left out or are a column and a direction,
the text after `ORDER BY` in the statement that `GetWithFilters` builds is an ordering. -/
theorem GetWithFilters_reads_ordering (filters : JobFilters)
    (h : filters.ordersByColumn = true) :
    readOrderText (", ".intercalate (jobRepository.GetWithFilters.builder filters).Build.orders)
      = .ordering := by
  rw [GetWithFilters_orders_eq]
  have hone : ∀ x : String, ", ".intercalate [x] = x := fun _ => rfl
  rw [hone]
  unfold readOrderText
  apply if_pos
  right
  by_cases hc : filters.OrderBy ≠ "" ∧ filters.OrderDirection ≠ ""
  · rw [if_pos hc]
    unfold JobFilters.ordersByColumn at h
    simp only [Bool.or_eq_true, Bool.and_eq_true, beq_iff_eq] at h
    rcases h with (h | h) | h
    · exact absurd h hc.1
    · exact absurd h hc.2
    · have h1 : filters.OrderBy ∈ jobColumns := by simpa using h.1
      have h2 : filters.OrderDirection ∈ orderDirections := by simpa using h.2
      have hmem : filters.OrderBy ++ " " ++ filters.OrderDirection ∈ orderingClauses := by
        unfold orderingClauses
        rw [List.mem_flatMap]
        exact ⟨filters.OrderBy, h1, List.mem_map.mpr ⟨filters.OrderDirection, h2, rfl⟩⟩
      simpa using hmem
  · rw [if_neg hc]
    decide

/-- A row satisfies every condition of the statement that `GetWithFilters` builds exactly when
the filter, read as the conjunction of the predicates of its supplied fields, accepts it. -/
theorem GetWithFilters_all_wheres (filters : JobFilters) (job : models.Job) :
    (jobRepository.GetWithFilters.builder filters).Build.wheres.all (fun c => c.holds job)
      = filters.matchesSpec job := by
  rw [GetWithFilters_wheres]
  unfold JobFilters.matchesSpec
  simp only [List.all_append]
  congr 1
  · congr 1
    · congr 1
      · congr 1
        · congr 1
          · congr 1
            · congr 1
              · by_cases h : filters.EmployerID = 0
                · simp [h]
                · have : filters.EmployerID > 0 := Nat.pos_of_ne_zero h
                  simp [h, this, Cond.holds]
              · by_cases h : filters.Industry = "" <;> simp [h, Cond.holds]
            · by_cases h : filters.JobType = "" <;> simp [h, Cond.holds]
          · by_cases h : filters.City = "" <;> simp [h, Cond.holds]
        · by_cases h : filters.TargetAudience = "" <;> simp [h, Cond.holds]
      · by_cases h : filters.EmploymentMode = "" <;> simp [h, Cond.holds]
    · cases filters.IsPaid <;> simp [Cond.holds]
  · cases filters.IsActive <;> simp [Cond.holds]

/-- The rows that `Find` returns for the statement of a filter: what the engine returns of the
rows that the filter accepts, each with its employer attached. -/
theorem GetWithFilters_Find_rows (db : DB) (env : Env) (filters : JobFilters) :
    (jobRepository.GetWithFilters.builder filters).Build.Find db env
      = (engineRows env
          (", ".intercalate (jobRepository.GetWithFilters.builder filters).Build.orders)
          (if filters.Limit > 0 then some filters.Limit else none)
          (db.jobs.filter filters.matchesSpec)).map (preloadEmployer db) := by
  have hfil : (fun job => (jobRepository.GetWithFilters.builder filters).Build.wheres.all
      (fun c => c.holds job)) = filters.matchesSpec := by
    funext job; exact GetWithFilters_all_wheres filters job
  unfold Query.Find
  simp only [hfil, GetWithFilters_limit]

/-- The rows that `Find` returns for the statement of a filter whose sort field and direction are
left out or are a column and a direction: the accepted rows in the order of the engine, cut to
the limit. -/
theorem GetWithFilters_Find (db : DB) (env : Env) (filters : JobFilters)
    (horder : filters.ordersByColumn = true) :
    (jobRepository.GetWithFilters.builder filters).Build.Find db env
      = (match (if filters.Limit > 0 then some filters.Limit else none) with
          | some n =>
            (env.orderBy (", ".intercalate (jobRepository.GetWithFilters.builder filters).Build.orders)
              (db.jobs.filter filters.matchesSpec)).take n.toNat
          | none =>
            env.orderBy (", ".intercalate (jobRepository.GetWithFilters.builder filters).Build.orders)
              (db.jobs.filter filters.matchesSpec)).map (preloadEmployer db) := by
  rw [GetWithFilters_Find_rows,
    engineRows_ordering env _ _ _ (GetWithFilters_reads_ordering filters horder)]

/-- A filter that supplies more fields accepts no row that the filter with fewer fields
refuses. -/
theorem matchesSpec_suppliesMore (g f : JobFilters) (h : g.suppliesMore f) (job : models.Job)
    (hg : g.matchesSpec job = true) : f.matchesSpec job = true := by
  obtain ⟨h1, h2, h3, h4, h5, h6, h7, h8⟩ := h
  unfold JobFilters.matchesSpec at hg ⊢
  simp only [Bool.and_eq_true] at hg ⊢
  obtain ⟨⟨⟨⟨⟨⟨⟨g1, g2⟩, g3⟩, g4⟩, g5⟩, g6⟩, g7⟩, g8⟩ := hg
  refine ⟨⟨⟨⟨⟨⟨⟨?_, ?_⟩, ?_⟩, ?_⟩, ?_⟩, ?_⟩, ?_⟩, ?_⟩
  · rcases h1 with h | h
    · simp [h]
    · by_cases h0 : f.EmployerID = 0
      · simp [h0]
      · rw [h] at g1; simpa [h0] using g1
  · rcases h2 with h | h
    · simp [h]
    · by_cases h0 : f.Industry = ""
      · simp [h0]
      · rw [h] at g2; simpa [h0] using g2
  · rcases h3 with h | h
    · simp [h]
    · by_cases h0 : f.JobType = ""
      · simp [h0]
      · rw [h] at g3; simpa [h0] using g3
  · rcases h4 with h | h
    · simp [h]
    · by_cases h0 : f.City = ""
      · simp [h0]
      · rw [h] at g4; simpa [h0] using g4
  · rcases h5 with h | h
    · simp [h]
    · by_cases h0 : f.TargetAudience = ""
      · simp [h0]
      · rw [h] at g5; simpa [h0] using g5
  · rcases h6 with h | h
    · simp [h]
    · by_cases h0 : f.EmploymentMode = ""
      · simp [h0]
      · rw [h] at g6; simpa [h0] using g6
  · rcases h7 with h | h
    · simp [h]
    · rw [h] at g7; exact g7
  · rcases h8 with h | h
    · simp [h]
    · rw [h] at g8; exact g8

end repositories

namespace repositories

/-- Claim C21 as amended: when storage answers the query, `GetWithFilters` for a filter with
limit 0 whose sort field and direction are left out or are a column of the jobs table and a
direction returns exactly the stored jobs that satisfy the conjunction of the predicates of the
supplied fields (employer when positive, industry, job type, city, audience and employment mode
when non-empty, paid and active flag when non-nil), each once and with its employer attached; a
filter that supplies no field returns every stored job; and a filter that supplies the same
fields and more, whatever its sort field and direction, returns no job that is not in this
result, and none more often when its sort field and direction are of that kind too. -/
theorem GetWithFilters_conjunction (db : DB) (env : Env) (filters : JobFilters)
    (hstore : env.fails .jobGetWithFilters = false) (hlimit : filters.Limit = 0)
    (horder : filters.ordersByColumn = true) :
    ∃ jobs, jobRepository.GetWithFilters db env filters = .ok jobs ∧
      jobs.Perm ((db.jobs.filter filters.matchesSpec).map (preloadEmployer db)) ∧
      (filters.suppliesNothing → jobs.Perm (db.jobs.map (preloadEmployer db))) ∧
      (∀ g : JobFilters, g.suppliesMore filters → ∀ more,
        jobRepository.GetWithFilters db env g = .ok more →
          (∀ job ∈ more, job ∈ jobs) ∧ (g.ordersByColumn = true → more.Subperm jobs)) := by
  have hres : jobRepository.GetWithFilters db env filters
      = .ok ((env.orderBy
          (", ".intercalate (jobRepository.GetWithFilters.builder filters).Build.orders)
          (db.jobs.filter filters.matchesSpec)).map (preloadEmployer db)) := by
    unfold jobRepository.GetWithFilters
    rw [hstore, GetWithFilters_Find db env filters horder, hlimit]
    rfl
  have hperm := (env.orderBy_perm
    (", ".intercalate (jobRepository.GetWithFilters.builder filters).Build.orders)
    (db.jobs.filter filters.matchesSpec)).map (preloadEmployer db)
  refine ⟨_, hres, hperm, ?_, ?_⟩
  · intro hnone
    obtain ⟨h1, h2, h3, h4, h5, h6, h7, h8⟩ := hnone
    have hall : db.jobs.filter filters.matchesSpec = db.jobs := by
      apply List.filter_eq_self.mpr
      intro job _
      simp [JobFilters.matchesSpec, h1, h2, h3, h4, h5, h6, h7, h8]
    exact hperm.trans (by rw [hall])
  · intro g hg more hmore
    unfold jobRepository.GetWithFilters at hmore
    rw [hstore] at hmore
    have hmore := (Except.ok.inj hmore).symm
    constructor
    · intro job hjob
      rw [hmore] at hjob
      obtain ⟨row, hrow, hall, rfl⟩ := Query.mem_Find _ db env job hjob
      have hg1 : g.matchesSpec row = true := by
        rw [← GetWithFilters_all_wheres, List.all_eq_true]
        exact hall
      have hf1 := matchesSpec_suppliesMore g filters hg row hg1
      apply hperm.mem_iff.mpr
      exact List.mem_map_of_mem _ (List.mem_filter.mpr ⟨hrow, hf1⟩)
    · intro hgorder
      rw [GetWithFilters_Find db env g hgorder] at hmore
      have hsub : (db.jobs.filter g.matchesSpec).Sublist (db.jobs.filter filters.matchesSpec) :=
        List.monotone_filter_right db.jobs
          (fun job h => matchesSpec_suppliesMore g filters hg job h)
      have hgperm := env.orderBy_perm
        (", ".intercalate (jobRepository.GetWithFilters.builder g).Build.orders)
        (db.jobs.filter g.matchesSpec)
      have hfull : ((env.orderBy
          (", ".intercalate (jobRepository.GetWithFilters.builder g).Build.orders)
          (db.jobs.filter g.matchesSpec)).map (preloadEmployer db)).Subperm
          ((env.orderBy
            (", ".intercalate (jobRepository.GetWithFilters.builder filters).Build.orders)
            (db.jobs.filter filters.matchesSpec)).map (preloadEmployer db)) :=
        ((hgperm.map _).subperm.trans (hsub.map _).subperm).trans hperm.symm.subperm
      rw [hmore]
      split
      · exact (((List.take_sublist _ _).map _).subperm).trans hfull
      · exact hfull

/-- The filter on the audience "students" over the sample catalog, with the default ordering:
two of the four jobs satisfy it together with the job for any audience, and a filter that also
asks for something else returns a part of that result. -/
theorem GetWithFilters_conjunction_witness :
    ∃ jobs, jobRepository.GetWithFilters sampleCatalog Env.reliable
        { TargetAudience := "students" } = .ok jobs ∧
      jobs.Perm ((sampleCatalog.jobs.filter
        (JobFilters.matchesSpec { TargetAudience := "students" })).map
          (preloadEmployer sampleCatalog)) ∧
      (JobFilters.suppliesNothing { TargetAudience := "students" } →
        jobs.Perm (sampleCatalog.jobs.map (preloadEmployer sampleCatalog))) ∧
      (∀ g : JobFilters, g.suppliesMore { TargetAudience := "students" } → ∀ more,
        jobRepository.GetWithFilters sampleCatalog Env.reliable g = .ok more →
          (∀ job ∈ more, job ∈ jobs) ∧ (g.ordersByColumn = true → more.Subperm jobs)) :=
  GetWithFilters_conjunction sampleCatalog Env.reliable { TargetAudience := "students" }
    rfl rfl rfl

/-- Claim C21 fails as stated: the filter with the sort field "id" and the sort direction
"DESC LIMIT 1" supplies no predicate and has limit 0, all four jobs of the sample catalog satisfy
the empty conjunction, and `GetWithFilters` returns one of them, the job with the greatest key:
the text of the direction stands after `ORDER BY` as it is and carries a limit. -/
theorem GetWithFilters_order_text_cuts :
    jobRepository.GetWithFilters sampleCatalog Env.descending sampleFilterLimitText
      = .ok [{ sampleJobInactive with Employer := sampleEmployer }] ∧
    sampleFilterLimitText.suppliesNothing ∧ sampleFilterLimitText.Limit = 0 ∧
    sampleCatalog.jobs.filter sampleFilterLimitText.matchesSpec = sampleCatalog.jobs ∧
    sampleCatalog.jobs.length = 4 ∧
    ¬ List.Perm [{ sampleJobInactive with Employer := sampleEmployer }]
        (sampleCatalog.jobs.map (preloadEmployer sampleCatalog)) :=
  ⟨rfl, ⟨rfl, rfl, rfl, rfl, rfl, rfl, rfl, rfl⟩, rfl, rfl, rfl,
    fun h => absurd h.length_eq (by decide)⟩

/-- Claim C23 as amended: when storage answers the query, `GetWithFilters` for a filter with a
positive limit whose sort field and direction are left out or are a column of the jobs table and
a direction returns the first `Limit` rows of what the same filter returns with limit 0, in the
same order, so as many rows as the smaller of the limit and the number of matching jobs; with
limit 0 every matching job is returned; and every returned job satisfies all predicates of the
filter, the paid and the active flag included, although the builder receives them after the
limit. -/
theorem GetWithFilters_limit_cap (db : DB) (env : Env) (filters : JobFilters)
    (hstore : env.fails .jobGetWithFilters = false) (hlimit : 0 < filters.Limit)
    (horder : filters.ordersByColumn = true) :
    ∃ all jobs, jobRepository.GetWithFilters db env { filters with Limit := 0 } = .ok all ∧
      jobRepository.GetWithFilters db env filters = .ok jobs ∧
      jobs = all.take filters.Limit.toNat ∧
      all.Perm ((db.jobs.filter filters.matchesSpec).map (preloadEmployer db)) ∧
      jobs.length = Nat.min filters.Limit.toNat (db.jobs.filter filters.matchesSpec).length ∧
      (∀ job ∈ jobs, ∃ row ∈ db.jobs, filters.matchesSpec row = true ∧
        job = preloadEmployer db row) := by
  have hspec : JobFilters.matchesSpec { filters with Limit := 0 } = filters.matchesSpec := rfl
  have horder0 : JobFilters.ordersByColumn { filters with Limit := 0 } = true := horder
  have hall : jobRepository.GetWithFilters db env { filters with Limit := 0 }
      = .ok ((env.orderBy
          (", ".intercalate (jobRepository.GetWithFilters.builder filters).Build.orders)
          (db.jobs.filter filters.matchesSpec)).map (preloadEmployer db)) := by
    unfold jobRepository.GetWithFilters
    rw [hstore, GetWithFilters_Find db env _ horder0, GetWithFilters_orders, hspec]
    rfl
  have hjobs : jobRepository.GetWithFilters db env filters
      = .ok (((env.orderBy
          (", ".intercalate (jobRepository.GetWithFilters.builder filters).Build.orders)
          (db.jobs.filter filters.matchesSpec)).map (preloadEmployer db)).take
            filters.Limit.toNat) := by
    unfold jobRepository.GetWithFilters
    rw [hstore, GetWithFilters_Find db env filters horder, if_pos hlimit, List.map_take]
    rfl
  have hperm := env.orderBy_perm
    (", ".intercalate (jobRepository.GetWithFilters.builder filters).Build.orders)
    (db.jobs.filter filters.matchesSpec)
  refine ⟨_, _, hall, hjobs, rfl, hperm.map _, ?_, ?_⟩
  · rw [List.length_take, List.length_map, hperm.length_eq]
  · intro job hjob
    have hmem := List.mem_of_mem_take hjob
    rw [List.mem_map] at hmem
    obtain ⟨row, hrow, rfl⟩ := hmem
    have hfil := hperm.mem_iff.mp hrow
    rw [List.mem_filter] at hfil
    exact ⟨row, hfil.1, hfil.2, rfl⟩

/-- The sample catalog under the filter on active jobs with limit 2 and the default ordering:
the first two of the three active jobs. -/
theorem GetWithFilters_limit_cap_witness :
    jobRepository.GetWithFilters sampleCatalog Env.reliable { IsActive := some true, Limit := 2 }
      = .ok [{ sampleJob with Employer := sampleEmployer },
             { sampleJobProfessionals with Employer := sampleEmployer }] ∧
    ∃ all jobs, jobRepository.GetWithFilters sampleCatalog Env.reliable
        { IsActive := some true, Limit := 0 } = .ok all ∧
      jobRepository.GetWithFilters sampleCatalog Env.reliable
        { IsActive := some true, Limit := 2 } = .ok jobs ∧
      jobs = all.take 2 ∧
      all.Perm ((sampleCatalog.jobs.filter
        (JobFilters.matchesSpec { IsActive := some true, Limit := 2 })).map
          (preloadEmployer sampleCatalog)) ∧
      jobs.length = Nat.min 2 (sampleCatalog.jobs.filter
        (JobFilters.matchesSpec { IsActive := some true, Limit := 2 })).length ∧
      (∀ job ∈ jobs, ∃ row ∈ sampleCatalog.jobs,
        JobFilters.matchesSpec { IsActive := some true, Limit := 2 } row = true ∧
        job = preloadEmployer sampleCatalog row) :=
  ⟨rfl, GetWithFilters_limit_cap sampleCatalog Env.reliable
    { IsActive := some true, Limit := 2 } rfl (by decide) rfl⟩

/-- Claim C23 fails as stated: the filter with the sort field "id", the sort direction
"DESC OFFSET 1" and limit 5 supplies no predicate, so that all four jobs of the sample catalog
match; `GetWithFilters` returns three jobs, not min(5, 4), and with limit 0 the same three, not
every matching job: the text of the direction stands after `ORDER BY` as it is and carries an
offset. -/
theorem GetWithFilters_order_text_skips :
    jobRepository.GetWithFilters sampleCatalog Env.descending sampleFilterOffsetText
      = .ok [{ sampleJobAny with Employer := sampleEmployer },
             { sampleJobProfessionals with Employer := sampleEmployer },
             { sampleJob with Employer := sampleEmployer }] ∧
    jobRepository.GetWithFilters sampleCatalog Env.descending
        { sampleFilterOffsetText with Limit := 0 }
      = .ok [{ sampleJobAny with Employer := sampleEmployer },
             { sampleJobProfessionals with Employer := sampleEmployer },
             { sampleJob with Employer := sampleEmployer }] ∧
    sampleFilterOffsetText.Limit = 5 ∧
    (sampleCatalog.jobs.filter sampleFilterOffsetText.matchesSpec).length = 4 ∧
    [{ sampleJobAny with Employer := sampleEmployer },
      { sampleJobProfessionals with Employer := sampleEmployer },
      { sampleJob with Employer := sampleEmployer }].length ≠ Nat.min 5 4 :=
  ⟨rfl, rfl, rfl, rfl, by decide⟩

end repositories


/-! ### Job catalog: the city filter -/

namespace repositories

/-- What `%` leaves to the rest of the pattern is some suffix of the text. -/
theorem likeAnySuffix_iff (k : List Char → Bool) (t : List Char) :
    likeAnySuffix k t = true ↔ ∃ s, s <:+ t ∧ k s = true := by
  induction t with
  | nil =>
    constructor
    · intro h; exact ⟨[], List.suffix_refl _, h⟩
    · rintro ⟨s, hs, hk⟩
      rw [List.suffix_nil] at hs
      subst hs; exact hk
  | cons c t ih =>
    unfold likeAnySuffix
    rw [Bool.or_eq_true, ih]
    constructor
    · rintro (h | ⟨s, hs, hk⟩)
      · exact ⟨c :: t, List.suffix_refl _, h⟩
      · exact ⟨s, hs.trans (List.suffix_cons c t), hk⟩
    · rintro ⟨s, hs, hk⟩
      rcases List.suffix_cons_iff.mp hs with h | h
      · subst h; exact Or.inl hk
      · exact Or.inr ⟨s, h, hk⟩

/-- A pattern that starts with `%` matches when the rest of the pattern matches a suffix of the
text. -/
theorem likeMatch_percent_cons (p t : List Char) :
    likeMatch ('%' :: p) t = likeAnySuffix (likeMatch p) t := by
  cases p <;> cases t <;> rfl

/-- A pattern that starts with a character taken literally matches the texts that start with
that character and go on with a match of the rest of the pattern. -/
theorem likeMatch_plain_cons (c : Char) (p t : List Char) (hc : likeSpecial c = false) :
    likeMatch (c :: p) t = (match t with
      | [] => false
      | x :: t' => x == c && likeMatch p t') := by
  simp only [likeSpecial, Bool.or_eq_false_iff, beq_eq_false_iff_ne, ne_eq] at hc
  obtain ⟨⟨h1, h2⟩, h3⟩ := hc
  have key : likeMatch (c :: p) t = if c = '%' then likeAnySuffix (likeMatch p) t
      else if c = '_' then
        (match t with
          | [] => false
          | _ :: t' => likeMatch p t')
      else if c = '\\' then
        (match p, t with
          | d :: p', x :: t' => x == d && likeMatch p' t'
          | _, _ => false)
      else
        (match t with
          | [] => false
          | x :: t' => x == c && likeMatch p t') := by
    cases p <;> cases t <;> rfl
  rw [key, if_neg h1, if_neg h2, if_neg h3]

/-- The pattern `%` alone matches every text. -/
theorem likeMatch_percent (t : List Char) : likeMatch ['%'] t = true := by
  rw [likeMatch_percent_cons, likeAnySuffix_iff]
  exact ⟨[], List.nil_suffix, rfl⟩

/-- A pattern that starts with characters taken literally matches the texts that start with those
characters and go on with a match of the rest of the pattern. -/
theorem likeMatch_plain_append (p q : List Char) (hp : ∀ ch ∈ p, likeSpecial ch = false)
    (t : List Char) :
    likeMatch (p ++ q) t = true ↔ ∃ r, t = p ++ r ∧ likeMatch q r = true := by
  induction p generalizing t with
  | nil => simp
  | cons c p ih =>
    have hc := hp c (List.mem_cons_self _ _)
    have ih := ih (fun ch h => hp ch (List.mem_cons_of_mem _ h))
    rw [List.cons_append, likeMatch_plain_cons c _ t hc]
    cases t with
    | nil => simp
    | cons x t =>
      simp only [Bool.and_eq_true, beq_iff_eq, ih, List.cons_append, List.cons.injEq]
      constructor
      · rintro ⟨rfl, r, rfl, hr⟩
        exact ⟨r, ⟨rfl, rfl⟩, hr⟩
      · rintro ⟨r, ⟨rfl, rfl⟩, hr⟩
        exact ⟨rfl, r, rfl, hr⟩

/-- A pattern of literal characters between two `%` matches the texts that contain the
characters as a contiguous run. -/
theorem likeMatch_contains (p t : List Char) (hp : ∀ ch ∈ p, likeSpecial ch = false) :
    likeMatch ('%' :: (p ++ ['%'])) t = true ↔ p <:+: t := by
  rw [likeMatch_percent_cons, likeAnySuffix_iff]
  constructor
  · rintro ⟨s, hs, hm⟩
    obtain ⟨r, rfl, -⟩ := (likeMatch_plain_append p ['%'] hp s).mp hm
    exact List.infix_iff_prefix_suffix.mpr ⟨p ++ r, List.prefix_append p r, hs⟩
  · intro h
    obtain ⟨s, hps, hs⟩ := List.infix_iff_prefix_suffix.mp h
    obtain ⟨r, rfl⟩ := hps
    exact ⟨p ++ r, hs, (likeMatch_plain_append p ['%'] hp _).mpr ⟨r, rfl, likeMatch_percent r⟩⟩

/-- Lowering the case of a character that `LIKE` takes literally gives such a character. -/
theorem likeSpecial_toLower (ch : Char) (h : likeSpecial ch = false) :
    likeSpecial ch.toLower = false := by
  simp only [Char.toLower]
  split
  · rename_i hb
    obtain ⟨h1, h2⟩ := hb
    generalize ch.toNat = n at h1 h2
    interval_cases n <;> decide
  · exact h

end repositories

namespace repositories

/-- The pattern that `WithCity` builds from a non-empty filter string, once the letter case is
lowered: the lowered string between two `%`. -/
theorem WithCity_pattern (c : String) :
    ("%" ++ c ++ "%").toList.map Char.toLower = '%' :: (c.toList.map Char.toLower ++ ['%']) := by
  simp

/-- For a non-empty filter string without `%`, underscore and backslash, the condition that
`WithCity` adds accepts a job exactly when its city contains the string, letter case
disregarded. -/
theorem WithCity_plain (c : String) (hc : c ≠ "")
    (hplain : ∀ ch ∈ c.toList, likeSpecial ch = false) (job : models.Job) :
    (NewJobQueryBuilder.WithCity c).Build.wheres.all (fun cond => cond.holds job)
      = containsFold job.City c := by
  have hw : (NewJobQueryBuilder.WithCity c).Build.wheres = [Cond.cityILike ("%" ++ c ++ "%")] := by
    unfold JobQueryBuilder.WithCity
    rw [if_pos hc]
    rfl
  have hp : ∀ ch ∈ c.toList.map Char.toLower, likeSpecial ch = false := by
    intro ch hch
    rw [List.mem_map] at hch
    obtain ⟨d, hd, rfl⟩ := hch
    exact likeSpecial_toLower d (hplain d hd)
  rw [hw]
  simp only [List.all_cons, List.all_nil, Bool.and_true, Cond.holds, ilike, containsFold]
  rw [WithCity_pattern, Bool.eq_iff_iff, likeMatch_contains _ _ hp, decide_eq_true_iff]

/-- The filter string "UNE" on the city "Pune": accepted, and contained when letter case is
disregarded. -/
theorem WithCity_plain_sample :
    (NewJobQueryBuilder.WithCity "UNE").Build.wheres.all
        (fun cond => cond.holds { City := "Pune" }) = true ∧
    containsFold "Pune" "UNE" = true :=
  ⟨rfl, by decide⟩

/-- Claim C22: the city condition that `WithCity` builds does not take `%` and the underscore
literally. For the filter string "_" the condition is `city ILIKE '%_%'`, which accepts the city
"Pune" although "Pune" does not contain "_"; the filter strings "%" and "P_ne" accept "Pune" in the
same way. -/
theorem WithCity_wildcards :
    (NewJobQueryBuilder.WithCity "_").Build.wheres = [Cond.cityILike "%_%"] ∧
    (NewJobQueryBuilder.WithCity "_").Build.wheres.all
        (fun cond => cond.holds { City := "Pune" }) = true ∧
    containsFold "Pune" "_" = false ∧
    (NewJobQueryBuilder.WithCity "%").Build.wheres.all
        (fun cond => cond.holds { City := "Pune" }) = true ∧
    containsFold "Pune" "%" = false ∧
    (NewJobQueryBuilder.WithCity "P_ne").Build.wheres.all
        (fun cond => cond.holds { City := "Pune" }) = true ∧
    containsFold "Pune" "P_ne" = false :=
  ⟨rfl, rfl, by decide, rfl, by decide, rfl, by decide⟩

end repositories

/-! ### Application statistics: the recent applications -/

namespace services

/-- Claim C27: for a seeker that the lookup returns and a list of `n` applications that storage
returns for the seeker (`n = 0` included), `GetApplicationStats` returns without a panic a map
whose `recent_applications` is the list of the first min(5, n) elements of the storage result in
their order; `min` returns the smaller of its two arguments, as the test cases of the helper
say; the slice bound lies between 0 and `n`, so the slice expression does not panic; and the
counting loop does not panic on the map with its four integer counters. -/
theorem GetApplicationStats_recent (db : DB) (env : Env) (jobSeekerID : Nat)
    (jobSeeker : models.JobSeeker) (applications : List models.Application)
    (hseeker : repositories.jobSeekerRepository.GetByID db env jobSeekerID = .ok jobSeeker)
    (happs : repositories.applicationRepository.GetByJobSeekerID db env jobSeekerID
      = .ok applications) :
    (∃ stats, applicationService.GetApplicationStats db env jobSeekerID = some (.ok stats) ∧
      stats "recent_applications"
        = some (.applications (applications.take (Nat.min 5 applications.length)))) ∧
    (applications.take (Nat.min 5 applications.length)).length = Nat.min 5 applications.length ∧
    (applications.take (Nat.min 5 applications.length)) <+: applications ∧
    (min 5 applications.length).toNat = Nat.min 5 applications.length ∧
    (0 ≤ min 5 applications.length ∧ min 5 applications.length ≤ applications.length) ∧
    sliceTo applications (min 5 applications.length)
      = some (applications.take (Nat.min 5 applications.length)) ∧
    (∀ a b : Int, (min a b = a ∨ min a b = b) ∧ min a b ≤ a ∧ min a b ≤ b) ∧
    (min 3 5 = 3 ∧ min 5 3 = 3 ∧ min 0 5 = 0 ∧ min (-1) 5 = -1) ∧
    (∀ recent, applicationService.countByStatus applications
      (Stats.literal
        [("total_applications", .int applications.length),
         ("applied", .int 0),
         ("shortlisted", .int 0),
         ("rejected", .int 0),
         ("selected", .int 0),
         ("recent_applications", .applications recent)]) ≠ none) := by
  have hnat : (min 5 applications.length).toNat = Nat.min 5 applications.length := by
    unfold min
    split
    · rename_i h
      have h5 : (5 : Int).toNat = 5 := rfl
      rw [h5]
      exact (Nat.min_eq_left (by omega)).symm
    · rename_i h
      rw [Int.toNat_ofNat]
      exact (Nat.min_eq_right (by omega)).symm
  have hslice : sliceTo applications (min 5 applications.length)
      = some (applications.take (Nat.min 5 applications.length)) := by
    unfold sliceTo
    rw [if_pos (min_le_length applications.length), hnat]
  refine ⟨?_, ?_, List.take_prefix _ _, hnat, min_le_length _, hslice, ?_, by decide, ?_⟩
  · obtain ⟨stats1, hrun, -, -, -, -, eo⟩ := countByStatus_counts applications
      (Stats.literal
        [("total_applications", .int applications.length),
         ("applied", .int 0),
         ("shortlisted", .int 0),
         ("rejected", .int 0),
         ("selected", .int 0),
         ("recent_applications",
            .applications (applications.take (Nat.min 5 applications.length)))])
      0 0 0 0 rfl rfl rfl rfl
    refine ⟨stats1, ?_, ?_⟩
    · unfold applicationService.GetApplicationStats
      simp only [hseeker, happs, hslice, hrun]
    · rw [eo _ (by decide) (by decide) (by decide) (by decide)]
      rfl
  · rw [List.length_take]
    exact Nat.min_eq_left (Nat.min_le_right _ _)
  · intro a b
    unfold min
    split
    · rename_i h
      exact ⟨Or.inl rfl, le_refl _, le_of_lt h⟩
    · rename_i h
      exact ⟨Or.inr rfl, not_lt.mp h, le_refl _⟩
  · intro recent
    obtain ⟨stats1, hrun, -⟩ := countByStatus_counts applications
      (Stats.literal
        [("total_applications", .int applications.length),
         ("applied", .int 0),
         ("shortlisted", .int 0),
         ("rejected", .int 0),
         ("selected", .int 0),
         ("recent_applications", .applications recent)])
      0 0 0 0 rfl rfl rfl rfl
    rw [hrun]
    exact Option.some_ne_none _

/-- The statistics of the sample seeker in the store with the selected application: the one
application is the list of recent applications. -/
theorem GetApplicationStats_recent_witness :
    ∃ stats, applicationService.GetApplicationStats sampleDBSelected Env.reliable 1
        = some (.ok stats) ∧
      stats "recent_applications"
        = some (.applications [{ sampleApplicationSelected with Job := sampleJobLoaded }]) :=
  (GetApplicationStats_recent sampleDBSelected Env.reliable 1 sampleSeeker
    [{ sampleApplicationSelected with Job := sampleJobLoaded }] rfl rfl).1

end services

/-! ### Skill lists and the job update -/

namespace services

/-- The inline encoder of the services and `ArrayToJSON` give the same text for a list with a
first element. -/
theorem inlineSkillsJSON_eq (first : String) (rest : List String) :
    inlineSkillsJSON first rest = utils.ArrayToJSON (first :: rest) := by
  have hf : (fun (skillsJSON skill : String) => skillsJSON ++ ("\",\"" ++ skill))
      = (fun json x => json ++ "\",\"" ++ x) := by
    funext a b
    rw [String.append_assoc]
  rw [utils.ArrayToJSON_cons]
  unfold inlineSkillsJSON
  simp only [hf, String.intercalate, utils.intercalate_go_eq_foldl]
  rw [utils.foldl_sep_append]

/-- The statements of `UpdateJob` after the deadline block overwrite exactly the supplied
fields. -/
theorem UpdateJob_afterDeadline_eq (job : models.Job) (req : UpdateJobRequest) :
    jobService.UpdateJob.afterDeadline job req =
      { job with
        CompensationRange :=
          if req.CompensationRange ≠ "" then req.CompensationRange else job.CompensationRange
        IsPaid := req.IsPaid.getD job.IsPaid
        City := if req.City ≠ "" then req.City else job.City
        State := if req.State ≠ "" then req.State else job.State
        RequiredSkills :=
          if req.RequiredSkills ≠ [] then utils.ArrayToJSON req.RequiredSkills
          else job.RequiredSkills
        MinExperience := if req.MinExperience ≠ "" then req.MinExperience else job.MinExperience
        PortfolioRequired := req.PortfolioRequired.getD job.PortfolioRequired
        ResumeRequired := req.ResumeRequired.getD job.ResumeRequired
        Description := if req.Description ≠ "" then req.Description else job.Description
        AboutTeam := if req.AboutTeam ≠ "" then req.AboutTeam else job.AboutTeam
        ContactEmail := if req.ContactEmail ≠ "" then req.ContactEmail else job.ContactEmail
        IsActive := req.IsActive.getD job.IsActive } := by
  have h1 : ∀ (c : Prop) [Decidable c] (j : models.Job) (v : String),
      (if c then { j with CompensationRange := v } else j)
        = { j with CompensationRange := if c then v else j.CompensationRange } := by
    intro c _ j v; split <;> rfl
  have h2 : ∀ (o : Option Bool) (j : models.Job),
      (match o with
        | some isPaid => { j with IsPaid := isPaid }
        | none => j) = { j with IsPaid := o.getD j.IsPaid } := by
    intro o j; cases o <;> rfl
  have h3 : ∀ (c : Prop) [Decidable c] (j : models.Job) (v : String),
      (if c then { j with City := v } else j) = { j with City := if c then v else j.City } := by
    intro c _ j v; split <;> rfl
  have h4 : ∀ (c : Prop) [Decidable c] (j : models.Job) (v : String),
      (if c then { j with State := v } else j) = { j with State := if c then v else j.State } := by
    intro c _ j v; split <;> rfl
  have h5 : ∀ (l : List String) (j : models.Job),
      (match l with
        | first :: rest => { j with RequiredSkills := inlineSkillsJSON first rest }
        | [] => j)
        = { j with RequiredSkills := if l ≠ [] then utils.ArrayToJSON l else j.RequiredSkills } := by
    intro l j
    cases l with
    | nil => rfl
    | cons first rest => simp [inlineSkillsJSON_eq]
  have h6 : ∀ (c : Prop) [Decidable c] (j : models.Job) (v : String),
      (if c then { j with MinExperience := v } else j)
        = { j with MinExperience := if c then v else j.MinExperience } := by
    intro c _ j v; split <;> rfl
  have h7 : ∀ (o : Option Bool) (j : models.Job),
      (match o with
        | some portfolioRequired => { j with PortfolioRequired := portfolioRequired }
        | none => j) = { j with PortfolioRequired := o.getD j.PortfolioRequired } := by
    intro o j; cases o <;> rfl
  have h8 : ∀ (o : Option Bool) (j : models.Job),
      (match o with
        | some resumeRequired => { j with ResumeRequired := resumeRequired }
        | none => j) = { j with ResumeRequired := o.getD j.ResumeRequired } := by
    intro o j; cases o <;> rfl
  have h9 : ∀ (c : Prop) [Decidable c] (j : models.Job) (v : String),
      (if c then { j with Description := v } else j)
        = { j with Description := if c then v else j.Description } := by
    intro c _ j v; split <;> rfl
  have h10 : ∀ (c : Prop) [Decidable c] (j : models.Job) (v : String),
      (if c then { j with AboutTeam := v } else j)
        = { j with AboutTeam := if c then v else j.AboutTeam } := by
    intro c _ j v; split <;> rfl
  have h11 : ∀ (c : Prop) [Decidable c] (j : models.Job) (v : String),
      (if c then { j with ContactEmail := v } else j)
        = { j with ContactEmail := if c then v else j.ContactEmail } := by
    intro c _ j v; split <;> rfl
  have h12 : ∀ (o : Option Bool) (j : models.Job),
      (match o with
        | some isActive => { j with IsActive := isActive }
        | none => j) = { j with IsActive := o.getD j.IsActive } := by
    intro o j; cases o <;> rfl
  unfold jobService.UpdateJob.afterDeadline
  simp -zeta only [h1, h2, h3, h4, h5, h6, h7, h8, h9, h10, h11, h12]

end services

namespace services

/-- The statements of `UpdateJob` between the ownership check and the save give the job that the
specification describes, unless a supplied deadline lies before the clock reading. -/
theorem UpdateJob_patch_eq (job : models.Job) (req : UpdateJobRequest) (now : Time) :
    jobService.UpdateJob.patch job req now =
      (match req.ApplicationDeadline with
        | some deadline =>
          if deadline.Before now then .error (.New "application deadline cannot be in the past")
          else .ok (req.applyTo job)
        | none => .ok (req.applyTo job)) := by
  have h1 : ∀ (c : Prop) [Decidable c] (j : models.Job) (v : String),
      (if c then { j with Title := v } else j) = { j with Title := if c then v else j.Title } := by
    intro c _ j v; split <;> rfl
  have h2 : ∀ (c : Prop) [Decidable c] (j : models.Job) (v : String),
      (if c then { j with JobType := v } else j)
        = { j with JobType := if c then v else j.JobType } := by
    intro c _ j v; split <;> rfl
  have h3 : ∀ (c : Prop) [Decidable c] (j : models.Job) (v : String),
      (if c then { j with Industry := v } else j)
        = { j with Industry := if c then v else j.Industry } := by
    intro c _ j v; split <;> rfl
  have h4 : ∀ (c : Prop) [Decidable c] (j : models.Job) (v : String),
      (if c then { j with TargetAudience := v } else j)
        = { j with TargetAudience := if c then v else j.TargetAudience } := by
    intro c _ j v; split <;> rfl
  have h5 : ∀ (c : Prop) [Decidable c] (j : models.Job) (v : String),
      (if c then { j with EmploymentMode := v } else j)
        = { j with EmploymentMode := if c then v else j.EmploymentMode } := by
    intro c _ j v; split <;> rfl
  have h6 : ∀ (c : Prop) [Decidable c] (j : models.Job) (v : String),
      (if c then { j with StartMonth := v } else j)
        = { j with StartMonth := if c then v else j.StartMonth } := by
    intro c _ j v; split <;> rfl
  have h7 : ∀ (c : Prop) [Decidable c] (j : models.Job) (v : String),
      (if c then { j with Duration := v } else j)
        = { j with Duration := if c then v else j.Duration } := by
    intro c _ j v; split <;> rfl
  unfold jobService.UpdateJob.patch
  simp -zeta only [h1, h2, h3, h4, h5, h6, h7, UpdateJob_afterDeadline_eq]
  cases hd : req.ApplicationDeadline with
  | none =>
    unfold UpdateJobRequest.applyTo
    rw [hd]
    rfl
  | some deadline =>
    unfold UpdateJobRequest.applyTo
    rw [hd]
    by_cases hb : Time.Before deadline now = true
    · simp only [hb, if_true]
    · simp only [hb]
      rfl

end services

namespace services

/-- A job that `jobRepository.GetByID` returns is a stored row with that key, the first one, with
its employer attached. -/
theorem jobRepository_GetByID_ok (db : DB) (env : Env) (id : Nat) (job : models.Job)
    (h : repositories.jobRepository.GetByID db env id = .ok job) :
    ∃ row, db.jobs.find? (fun j => j.ID == id) = some row ∧ row ∈ db.jobs ∧ row.ID = id ∧
      job = repositories.preloadEmployer db row ∧ env.fails .jobGetByID = false := by
  unfold repositories.jobRepository.GetByID at h
  split at h
  · cases h
  · rename_i hf
    split at h
    · rename_i row hrow
      refine ⟨row, hrow, List.mem_of_find?_eq_some hrow, ?_, (Except.ok.inj h).symm, ?_⟩
      · simpa using List.find?_some hrow
      · simpa using hf
    · cases h

/-- After the rows with a key have been replaced by one row with that key, the lookup by the key
finds the new row, provided it found a row before. -/
theorem find?_map_job_key (l : List models.Job) (id : Nat) (new row : models.Job)
    (hnew : new.ID = id) (h : l.find? (fun j => j.ID == id) = some row) :
    (l.map (fun j => if j.ID == id then new else j)).find? (fun j => j.ID == id) = some new := by
  induction l with
  | nil => simp at h
  | cons j rest ih =>
    rw [List.map_cons]
    by_cases hj : j.ID = id
    · simp [hj, hnew]
    · rw [List.find?_cons_of_neg _ (by simpa using hj)] at h
      have hf : (if j.ID == id then new else j) = j := by simp [hj]
      rw [hf, List.find?_cons_of_neg _ (by simpa using hj)]
      exact ih h

/-- Attaching the employer changes the `Employer` field only. -/
theorem preloadEmployer_with (db : DB) (row : models.Job) :
    repositories.preloadEmployer db row
      = { row with Employer := (repositories.preloadEmployer db row).Employer } := by
  unfold repositories.preloadEmployer
  split <;> rfl

/-- Applying a request to a job to which it has been applied changes nothing. -/
theorem UpdateJobRequest.applyTo_idem (req : UpdateJobRequest) (job : models.Job) :
    req.applyTo (req.applyTo job) = req.applyTo job := by
  have hs : ∀ (c : Prop) [Decidable c] (v w : String),
      (if c then v else (if c then v else w)) = if c then v else w := by
    intro c _ v w; split <;> rfl
  have hb : ∀ (o : Option Bool) (w : Bool), o.getD (o.getD w) = o.getD w := by
    intro o w; cases o <;> rfl
  have ht : ∀ (o : Option Time) (w : Time), o.getD (o.getD w) = o.getD w := by
    intro o w; cases o <;> rfl
  unfold UpdateJobRequest.applyTo
  simp only [hs, hb, ht]

/-- A request that supplies no field is applied without any change. -/
theorem UpdateJobRequest.applyTo_empty (job : models.Job) :
    UpdateJobRequest.applyTo {} job = job := rfl

/-- A job is, once its saved row is loaded again with the employer attached, the job that was
saved, when it carries the employer that the lookup attaches; the rows of the store hold no
association. -/
theorem preloadEmployer_saved (db : DB) (jobs : List models.Job) (row x : models.Job)
    (hrow : row.Employer = {}) (hid : x.EmployerID = row.EmployerID)
    (hemp : x.Employer = (repositories.preloadEmployer db row).Employer) :
    repositories.preloadEmployer { db with jobs := jobs } { x with Employer := {} } = x := by
  cases hfe : db.employers.find? (fun e => e.ID == row.EmployerID) with
  | none =>
    have h1 : repositories.preloadEmployer db row = row := by
      simp only [repositories.preloadEmployer, hfe]
    rw [h1, hrow] at hemp
    cases x
    simp only at hid hemp
    subst hid hemp
    simp only [repositories.preloadEmployer, hfe]
  | some employer =>
    have h1 : repositories.preloadEmployer db row = { row with Employer := employer } := by
      simp only [repositories.preloadEmployer, hfe]
    rw [h1] at hemp
    cases x
    simp only at hid hemp
    subst hid hemp
    simp only [repositories.preloadEmployer, hfe]

/-- After a save the lookup by the key returns the saved job. -/
theorem jobRepository_GetByID_saved (db : DB) (env : Env) (id : Nat) (row x : models.Job)
    (hfind : db.jobs.find? (fun j => j.ID == id) = some row) (hrow : row.Employer = {})
    (hkey : x.ID = id) (hget : env.fails .jobGetByID = false)
    (hid : x.EmployerID = row.EmployerID)
    (hemp : x.Employer = (repositories.preloadEmployer db row).Employer) :
    repositories.jobRepository.GetByID (db.withJob x) env id = .ok x := by
  subst hkey
  have hfind1 : (db.withJob x).jobs.find? (fun j => j.ID == x.ID)
      = some { x with Employer := {} } :=
    find?_map_job_key db.jobs x.ID { x with Employer := {} } row rfl hfind
  unfold repositories.jobRepository.GetByID
  rw [hget, hfind1]
  simp only [Bool.false_eq_true, if_false]
  unfold DB.withJob
  rw [preloadEmployer_saved db _ row x hrow hid hemp]

/-- Saving a job over a saved job with the same key leaves the store of the second save. -/
theorem DB.withJob_withJob (db : DB) (a b : models.Job) (h : a.ID = b.ID) :
    (db.withJob a).withJob b = db.withJob b := by
  unfold DB.withJob
  simp only [List.map_map, h]
  congr 1
  apply List.map_congr_left
  intro j _
  by_cases hj : j.ID = b.ID
  · simp [hj]
  · simp [hj]

/-- A save of a job whose key is in the table stamps the job and replaces the rows with its
key. -/
theorem jobRepository_Update_ok (db : DB) (env : Env) (stamp : Time) (job : models.Job)
    (hsave : env.fails .jobUpdate = false)
    (hany : db.jobs.any (fun j => j.ID == job.ID) = true) :
    repositories.jobRepository.Update db env stamp job
      = .ok ({ job with UpdatedAt := stamp }, db.withJob { job with UpdatedAt := stamp }) := by
  unfold repositories.jobRepository.Update
  simp only [hsave, hany, if_true]
  rfl

/-- A call of `UpdateJob` for a job that the lookup returns and the caller owns, with a deadline
that is nil or not before the clock reading and a save that storage carries out. -/
theorem UpdateJob_run (db : DB) (env : Env) (now stamp : Time) (employerID jobID : Nat)
    (req : UpdateJobRequest) (job : models.Job)
    (hjob : repositories.jobRepository.GetByID db env jobID = .ok job)
    (hown : job.EmployerID = employerID)
    (hdeadline : ∀ d, req.ApplicationDeadline = some d → ¬ d < now)
    (hsave : env.fails .jobUpdate = false) :
    jobService.UpdateJob db env now stamp employerID jobID req
      = (.ok { req.applyTo job with UpdatedAt := stamp },
          db.withJob { req.applyTo job with UpdatedAt := stamp }) := by
  obtain ⟨row, hfind, hmem, hid, hpre, -⟩ := jobRepository_GetByID_ok db env jobID job hjob
  have hjid : job.ID = jobID := by
    rw [hpre, preloadEmployer_with]
    exact hid
  have hpatch : jobService.UpdateJob.patch job req now = .ok (req.applyTo job) := by
    rw [UpdateJob_patch_eq]
    cases hd : req.ApplicationDeadline with
    | none => rfl
    | some d =>
      have := hdeadline d hd
      simp only [Time.Before, decide_eq_true_eq, this, if_false]
  have hany : db.jobs.any (fun j => j.ID == (req.applyTo job).ID) = true := by
    rw [List.any_eq_true]
    exact ⟨row, hmem, by simpa [UpdateJobRequest.applyTo, hjid] using hid⟩
  have hown2 : ¬ job.EmployerID ≠ employerID := not_not.mpr hown
  unfold jobService.UpdateJob
  rw [hjob]
  dsimp only
  rw [if_neg hown2, hpatch]
  dsimp only
  rw [jobRepository_Update_ok db env stamp _ hsave hany]

/-- Claim C24 as amended: for a job that the lookup returns and that the caller owns, a request
whose deadline is nil or not before the clock reading, and a save that storage carries out,
`UpdateJob` returns, and stores in the rows with the key of the job, the job in which every
patchable field has the value of the request when the request supplies one and its previous value
otherwise and in which `UpdatedAt` is the instant of the save, while `ID`, `EmployerID` and
`CreatedAt` are the previous ones; a request that supplies nothing changes `UpdatedAt` only; and
in a store whose job rows hold no association the lookup returns the saved job afterwards, and the
same request applied once more returns and stores the same job except for `UpdatedAt`, which is
the instant of the second save. -/
theorem UpdateJob_patch_semantics (db : DB) (env : Env) (now stamp : Time)
    (employerID jobID : Nat) (req : UpdateJobRequest) (job : models.Job)
    (hjob : repositories.jobRepository.GetByID db env jobID = .ok job)
    (hown : job.EmployerID = employerID)
    (hdeadline : ∀ d, req.ApplicationDeadline = some d → ¬ d < now)
    (hsave : env.fails .jobUpdate = false) :
    jobService.UpdateJob db env now stamp employerID jobID req
      = (.ok { req.applyTo job with UpdatedAt := stamp },
          db.withJob { req.applyTo job with UpdatedAt := stamp }) ∧
    ({ req.applyTo job with UpdatedAt := stamp } : models.Job).ID = job.ID ∧
    ({ req.applyTo job with UpdatedAt := stamp } : models.Job).EmployerID = job.EmployerID ∧
    ({ req.applyTo job with UpdatedAt := stamp } : models.Job).CreatedAt = job.CreatedAt ∧
    (req = {} →
      ({ req.applyTo job with UpdatedAt := stamp } : models.Job)
        = { job with UpdatedAt := stamp }) ∧
    ((∀ j ∈ db.jobs, j.Employer = {}) →
      (∀ env2 : Env, env2.fails .jobGetByID = false →
        repositories.jobRepository.GetByID
            (db.withJob { req.applyTo job with UpdatedAt := stamp }) env2 jobID
          = .ok { req.applyTo job with UpdatedAt := stamp }) ∧
      (∀ (env2 : Env) (now2 stamp2 : Time), env2.fails .jobGetByID = false →
        env2.fails .jobUpdate = false →
        (∀ d, req.ApplicationDeadline = some d → ¬ d < now2) →
        jobService.UpdateJob (db.withJob { req.applyTo job with UpdatedAt := stamp }) env2
            now2 stamp2 employerID jobID req
          = (.ok { req.applyTo job with UpdatedAt := stamp2 },
              db.withJob { req.applyTo job with UpdatedAt := stamp2 }))) := by
  obtain ⟨row, hfind, hmem, hid, hpre, -⟩ := jobRepository_GetByID_ok db env jobID job hjob
  have hjid : job.ID = jobID := by
    rw [hpre, preloadEmployer_with]
    exact hid
  have hlookup : (∀ j ∈ db.jobs, j.Employer = {}) → ∀ env2 : Env,
      env2.fails .jobGetByID = false →
      repositories.jobRepository.GetByID
          (db.withJob { req.applyTo job with UpdatedAt := stamp }) env2 jobID
        = .ok { req.applyTo job with UpdatedAt := stamp } := by
    intro hrows env2 hget2
    refine jobRepository_GetByID_saved db env2 jobID row
      { req.applyTo job with UpdatedAt := stamp } hfind (hrows row hmem) hjid hget2 ?_ ?_
    · show job.EmployerID = row.EmployerID
      rw [hpre, preloadEmployer_with]
    · show job.Employer = (repositories.preloadEmployer db row).Employer
      rw [hpre]
  refine ⟨UpdateJob_run db env now stamp employerID jobID req job hjob hown hdeadline hsave,
    rfl, rfl, rfl, ?_, ?_⟩
  · intro hreq
    rw [hreq]
    rfl
  · intro hrows
    refine ⟨hlookup hrows, ?_⟩
    intro env2 now2 stamp2 hget2 hsave2 hdeadline2
    have hrun2 := UpdateJob_run (db.withJob { req.applyTo job with UpdatedAt := stamp }) env2
      now2 stamp2 employerID jobID req { req.applyTo job with UpdatedAt := stamp }
      (hlookup hrows env2 hget2) hown hdeadline2 hsave2
    have hjob2 : ({ req.applyTo { req.applyTo job with UpdatedAt := stamp } with
        UpdatedAt := stamp2 } : models.Job) = { req.applyTo job with UpdatedAt := stamp2 } := by
      have hidem := UpdateJobRequest.applyTo_idem req job
      have hshape : req.applyTo { req.applyTo job with UpdatedAt := stamp }
          = { req.applyTo (req.applyTo job) with UpdatedAt := stamp } := rfl
      rw [hshape, hidem]
    rw [hjob2] at hrun2
    rw [hrun2, DB.withJob_withJob db { req.applyTo job with UpdatedAt := stamp }
      { req.applyTo job with UpdatedAt := stamp2 } rfl]

/-- The sample job gets a new title, a deadline at instant 200 and the paid flag, saved at
instant 110: the row holds the new columns, and the same request saved again at instant 160
changes `UpdatedAt` only. -/
theorem UpdateJob_patch_semantics_witness :
    jobService.UpdateJob sampleDB Env.reliable 100 110 1 1
        { Title := "Senior Intern", ApplicationDeadline := some 200, IsPaid := some true }
      = (.ok { sampleJobLoaded with
            Title := "Senior Intern", ApplicationDeadline := 200, IsPaid := true,
            UpdatedAt := 110 },
          { sampleDB with jobs := [{ sampleJob with
            Title := "Senior Intern", ApplicationDeadline := 200, IsPaid := true,
            UpdatedAt := 110 }] }) ∧
    jobService.UpdateJob
        { sampleDB with jobs := [{ sampleJob with
            Title := "Senior Intern", ApplicationDeadline := 200, IsPaid := true,
            UpdatedAt := 110 }] }
        Env.reliable 150 160 1 1
        { Title := "Senior Intern", ApplicationDeadline := some 200, IsPaid := some true }
      = (.ok { sampleJobLoaded with
            Title := "Senior Intern", ApplicationDeadline := 200, IsPaid := true,
            UpdatedAt := 160 },
          { sampleDB with jobs := [{ sampleJob with
            Title := "Senior Intern", ApplicationDeadline := 200, IsPaid := true,
            UpdatedAt := 160 }] }) :=
  ⟨(UpdateJob_patch_semantics sampleDB Env.reliable 100 110 1 1
      { Title := "Senior Intern", ApplicationDeadline := some 200, IsPaid := some true }
      sampleJobLoaded rfl rfl (fun d h => by cases h; decide) rfl).1,
    ((UpdateJob_patch_semantics sampleDB Env.reliable 100 110 1 1
      { Title := "Senior Intern", ApplicationDeadline := some 200, IsPaid := some true }
      sampleJobLoaded rfl rfl (fun d h => by cases h; decide) rfl).2.2.2.2.2
        (by decide)).2 Env.reliable 150 160 rfl rfl (fun d h => by cases h; decide)⟩

/-- Claim C24 fails as stated: the request that supplies no field, saved at instant 70, returns
and stores the sample job with `UpdatedAt` 70 where the loaded job has 0, so the job is not left
unchanged; and the same request saved once more at instant 80 returns the job with `UpdatedAt`
80, which is not the job that the first call returned. -/
theorem UpdateJob_empty_request_stamps :
    jobService.UpdateJob sampleDB Env.reliable 50 70 1 1 {}
      = (.ok { sampleJobLoaded with UpdatedAt := 70 },
          { sampleDB with jobs := [{ sampleJob with UpdatedAt := 70 }] }) ∧
    ({ sampleJobLoaded with UpdatedAt := 70 } : models.Job) ≠ sampleJobLoaded ∧
    jobService.UpdateJob { sampleDB with jobs := [{ sampleJob with UpdatedAt := 70 }] }
        Env.reliable 60 80 1 1 {}
      = (.ok { sampleJobLoaded with UpdatedAt := 80 },
          { sampleDB with jobs := [{ sampleJob with UpdatedAt := 80 }] }) ∧
    ({ sampleJobLoaded with UpdatedAt := 80 } : models.Job)
      ≠ { sampleJobLoaded with UpdatedAt := 70 } :=
  ⟨rfl, fun h => absurd (congrArg models.Job.UpdatedAt h) (by decide), rfl,
    fun h => absurd (congrArg models.Job.UpdatedAt h) (by decide)⟩

end services

/-! ### Skill lists: the inline encoders -/

namespace services

/-- The statements of `jobSeekerService.UpdateProfile` between the lookup and the save overwrite
exactly the supplied fields. -/
theorem UpdateProfile_patch_eq (jobSeeker : models.JobSeeker) (req : UpdateJobSeekerRequest) :
    jobSeekerService.UpdateProfile.patch jobSeeker req =
      { jobSeeker with
        FullName := if req.FullName ≠ "" then req.FullName else jobSeeker.FullName
        JobSeekerType :=
          if req.JobSeekerType ≠ "" then req.JobSeekerType else jobSeeker.JobSeekerType
        CurrentCity := if req.CurrentCity ≠ "" then req.CurrentCity else jobSeeker.CurrentCity
        Phone := if req.Phone ≠ "" then req.Phone else jobSeeker.Phone
        DesiredField := if req.DesiredField ≠ "" then req.DesiredField else jobSeeker.DesiredField
        ResumeURL := if req.ResumeURL ≠ "" then req.ResumeURL else jobSeeker.ResumeURL
        PortfolioURL := if req.PortfolioURL ≠ "" then req.PortfolioURL else jobSeeker.PortfolioURL
        Skills :=
          if req.Skills ≠ [] then utils.ArrayToJSON req.Skills else jobSeeker.Skills } := by
  have h1 : ∀ (c : Prop) [Decidable c] (j : models.JobSeeker) (v : String),
      (if c then { j with FullName := v } else j)
        = { j with FullName := if c then v else j.FullName } := by
    intro c _ j v; split <;> rfl
  have h2 : ∀ (c : Prop) [Decidable c] (j : models.JobSeeker) (v : String),
      (if c then { j with JobSeekerType := v } else j)
        = { j with JobSeekerType := if c then v else j.JobSeekerType } := by
    intro c _ j v; split <;> rfl
  have h3 : ∀ (c : Prop) [Decidable c] (j : models.JobSeeker) (v : String),
      (if c then { j with CurrentCity := v } else j)
        = { j with CurrentCity := if c then v else j.CurrentCity } := by
    intro c _ j v; split <;> rfl
  have h4 : ∀ (c : Prop) [Decidable c] (j : models.JobSeeker) (v : String),
      (if c then { j with Phone := v } else j) = { j with Phone := if c then v else j.Phone } := by
    intro c _ j v; split <;> rfl
  have h5 : ∀ (c : Prop) [Decidable c] (j : models.JobSeeker) (v : String),
      (if c then { j with DesiredField := v } else j)
        = { j with DesiredField := if c then v else j.DesiredField } := by
    intro c _ j v; split <;> rfl
  have h6 : ∀ (c : Prop) [Decidable c] (j : models.JobSeeker) (v : String),
      (if c then { j with ResumeURL := v } else j)
        = { j with ResumeURL := if c then v else j.ResumeURL } := by
    intro c _ j v; split <;> rfl
  have h7 : ∀ (c : Prop) [Decidable c] (j : models.JobSeeker) (v : String),
      (if c then { j with PortfolioURL := v } else j)
        = { j with PortfolioURL := if c then v else j.PortfolioURL } := by
    intro c _ j v; split <;> rfl
  have h8 : ∀ (l : List String) (j : models.JobSeeker),
      (match l with
        | first :: rest => { j with Skills := inlineSkillsJSON first rest }
        | [] => j)
        = { j with Skills := if l ≠ [] then utils.ArrayToJSON l else j.Skills } := by
    intro l j
    cases l with
    | nil => rfl
    | cons first rest => simp [inlineSkillsJSON_eq]
  unfold jobSeekerService.UpdateProfile.patch
  simp -zeta only [h1, h2, h3, h4, h5, h6, h7, h8]

/-- Claim C28 as amended: for a non-empty list `S` the inline encoders of `CreateJob`,
`UpdateJob`, `jobSeekerService.CreateProfile` and `jobSeekerService.UpdateProfile` give the text
`ArrayToJSON(S)`; for the empty list the two creating methods give the empty string where
`ArrayToJSON` gives `[]`, and the two updating methods skip the encoder and leave the text of the
field as it is; the creating encoders agree with `ArrayToJSON` exactly on the non-empty lists. -/
theorem inline_encoders_agree (S : List String) :
    (S ≠ [] →
      jobService.CreateJob.skillsJSON S = utils.ArrayToJSON S ∧
      jobSeekerService.CreateProfile.skillsJSON S = utils.ArrayToJSON S ∧
      (∀ (job job1 : models.Job) (req : UpdateJobRequest) (now : Time),
        req.RequiredSkills = S → jobService.UpdateJob.patch job req now = .ok job1 →
        job1.RequiredSkills = utils.ArrayToJSON S) ∧
      (∀ (jobSeeker : models.JobSeeker) (req : UpdateJobSeekerRequest), req.Skills = S →
        (jobSeekerService.UpdateProfile.patch jobSeeker req).Skills = utils.ArrayToJSON S)) ∧
    (S = [] →
      jobService.CreateJob.skillsJSON S = "" ∧
      jobSeekerService.CreateProfile.skillsJSON S = "" ∧
      utils.ArrayToJSON S = "[]" ∧
      (∀ (job job1 : models.Job) (req : UpdateJobRequest) (now : Time),
        req.RequiredSkills = S → jobService.UpdateJob.patch job req now = .ok job1 →
        job1.RequiredSkills = job.RequiredSkills) ∧
      (∀ (jobSeeker : models.JobSeeker) (req : UpdateJobSeekerRequest), req.Skills = S →
        (jobSeekerService.UpdateProfile.patch jobSeeker req).Skills = jobSeeker.Skills)) ∧
    (jobService.CreateJob.skillsJSON S = utils.ArrayToJSON S ↔ S ≠ []) ∧
    (jobSeekerService.CreateProfile.skillsJSON S = utils.ArrayToJSON S ↔ S ≠ []) := by
  have hpatch : ∀ (job job1 : models.Job) (req : UpdateJobRequest) (now : Time),
      jobService.UpdateJob.patch job req now = .ok job1 → job1 = req.applyTo job := by
    intro job job1 req now h
    rw [UpdateJob_patch_eq] at h
    cases hd : req.ApplicationDeadline with
    | none =>
      rw [hd] at h
      exact (Except.ok.inj h).symm
    | some d =>
      rw [hd] at h
      dsimp only at h
      split at h
      · cases h
      · exact (Except.ok.inj h).symm
  refine ⟨?_, ?_, ?_, ?_⟩
  · intro hS
    obtain ⟨first, rest, rfl⟩ := List.exists_cons_of_ne_nil hS
    refine ⟨inlineSkillsJSON_eq first rest, inlineSkillsJSON_eq first rest, ?_, ?_⟩
    · intro job job1 req now hreq h
      rw [hpatch job job1 req now h]
      simp [UpdateJobRequest.applyTo, hreq]
    · intro jobSeeker req hreq
      rw [UpdateProfile_patch_eq]
      simp [hreq]
  · intro hS
    subst hS
    refine ⟨rfl, rfl, rfl, ?_, ?_⟩
    · intro job job1 req now hreq h
      rw [hpatch job job1 req now h]
      simp [UpdateJobRequest.applyTo, hreq]
    · intro jobSeeker req hreq
      rw [UpdateProfile_patch_eq]
      simp [hreq]
  · cases S with
    | nil =>
      have : jobService.CreateJob.skillsJSON [] ≠ utils.ArrayToJSON [] := by decide
      simp [this]
    | cons first rest =>
      simp only [ne_eq, reduceCtorEq, not_false_eq_true, iff_true]
      exact inlineSkillsJSON_eq first rest
  · cases S with
    | nil =>
      have : jobSeekerService.CreateProfile.skillsJSON [] ≠ utils.ArrayToJSON [] := by decide
      simp [this]
    | cons first rest =>
      simp only [ne_eq, reduceCtorEq, not_false_eq_true, iff_true]
      exact inlineSkillsJSON_eq first rest

/-- The list of the two skills AutoCAD and Revit under the two creating encoders. -/
theorem inline_encoders_agree_witness :
    jobService.CreateJob.skillsJSON ["AutoCAD", "Revit"] = "[\"AutoCAD\",\"Revit\"]" ∧
    jobSeekerService.CreateProfile.skillsJSON ["AutoCAD", "Revit"]
      = utils.ArrayToJSON ["AutoCAD", "Revit"] ∧
    jobService.CreateJob.skillsJSON [] = "" :=
  ⟨((inline_encoders_agree ["AutoCAD", "Revit"]).1 (by decide)).1.trans (by decide),
   ((inline_encoders_agree ["AutoCAD", "Revit"]).1 (by decide)).2.1,
   ((inline_encoders_agree []).2.1 rfl).1⟩

/-- Claim C28 fails as stated: for the empty list the inline encoders of the two updating methods
store no empty string. The first user creates a profile with the skill AutoCAD;
`jobSeekerService.UpdateProfile` with a request without skills then returns and stores the
profile with the text of the skill list as it was; and `UpdateJob` with a request without skills
returns and stores the job with its required skill Revit. -/
theorem Update_empty_skills_keeps_text :
    jobSeekerService.CreateProfile sampleUsers Env.reliable 1
        { sampleSeekerRequest with Skills := ["AutoCAD"] }
      = (.ok sampleSeekerSkilled, sampleUsersSkilled) ∧
    ({ Phone := "200" } : UpdateJobSeekerRequest).Skills = [] ∧
    jobSeekerService.UpdateProfile sampleUsersSkilled Env.reliable 1 { Phone := "200" }
      = (.ok { sampleSeekerSkilled with Phone := "200" },
          { sampleUsersSkilled with jobSeekers := [{ sampleSeekerSkilled with Phone := "200" }] }) ∧
    ({ sampleSeekerSkilled with Phone := "200" } : models.JobSeeker).Skills = "[\"AutoCAD\"]" ∧
    ({ sampleSeekerSkilled with Phone := "200" } : models.JobSeeker).Skills ≠ "" ∧
    ({ Title := "Senior Intern" } : UpdateJobRequest).RequiredSkills = [] ∧
    jobService.UpdateJob sampleDBSkilled Env.reliable 50 70 1 1 { Title := "Senior Intern" }
      = (.ok { sampleJobSkilled with
            Employer := sampleEmployer, Title := "Senior Intern", UpdatedAt := 70 },
          { sampleDBSkilled with
            jobs := [{ sampleJobSkilled with Title := "Senior Intern", UpdatedAt := 70 }] }) ∧
    sampleJobSkilled.RequiredSkills = "[\"Revit\"]" ∧ sampleJobSkilled.RequiredSkills ≠ "" :=
  ⟨rfl, rfl, rfl, rfl, by decide, rfl, rfl, rfl, by decide⟩

/-- Claim C25: the empty skill list is not stored as `[]` by the creating services. For the
request without skills `jobSeekerService.CreateProfile` stores a row whose `Skills` is the empty
string, and `CreateJob` stores a job whose `RequiredSkills` is the empty string, while
`ArrayToJSON` gives `[]` for the empty list, which the student profile service stores for its
three list fields. -/
theorem CreateProfile_empty_skills :
    jobSeekerService.CreateProfile sampleUsers Env.reliable 1 sampleSeekerRequest
      = (.ok sampleSeekerRow,
          { sampleUsers with jobSeekers := [sampleSeekerRow], jobSeekerSeq := 1 }) ∧
    sampleSeekerRequest.Skills = [] ∧ sampleSeekerRow.Skills = "" ∧
    utils.ArrayToJSON sampleSeekerRequest.Skills = "[]" ∧
    (∃ job db1, jobService.CreateJob sampleUsersWithProfiles Env.reliable 50 1 sampleJobRequest
        = (.ok job, db1) ∧
      sampleJobRequest.RequiredSkills = [] ∧ job.RequiredSkills = "" ∧
      db1.jobs.map (fun j => j.RequiredSkills) = [""]) ∧
    (∃ profile db1, studentProfileService.CreateProfile
        { sampleUsers with jobSeekers := [sampleSeekerRow], jobSeekerSeq := 1 } Env.reliable 1 {}
        = (.ok profile, db1) ∧
      profile.SoftwareProficiency = "[]" ∧ profile.PreviousInternships = "[]" ∧
      profile.FreelanceProjects = "[]") :=
  ⟨rfl, rfl, rfl, by decide, ⟨_, _, rfl, rfl, rfl, rfl⟩, ⟨_, _, rfl, rfl, rfl, rfl⟩⟩

end services

/-! ### Base profiles: one profile per user -/

namespace services

/-- A call of `jobSeekerService.CreateProfile` either fails and leaves the store as it was, or
finds the user with the role "job_seeker" and without a profile and appends the new row. -/
theorem JobSeeker_CreateProfile_cases (db : DB) (env : Env) (userID : Nat)
    (req : CreateJobSeekerRequest) :
    (∃ e, jobSeekerService.CreateProfile db env userID req = (.error e, db)) ∨
    (∃ user row,
      repositories.userRepository.GetByID db env userID = .ok user ∧
      user.UserType = "job_seeker" ∧
      db.jobSeekers.any (fun js => js.UserID == userID) = false ∧
      row.UserID = userID ∧
      row.Skills = jobSeekerService.CreateProfile.skillsJSON req.Skills ∧
      jobSeekerService.CreateProfile db env userID req
        = (.ok row, { db with jobSeekers := db.jobSeekers ++ [row],
                              jobSeekerSeq := db.jobSeekerSeq + 1 })) := by
  unfold jobSeekerService.CreateProfile
  cases huser : repositories.userRepository.GetByID db env userID with
  | error e => exact Or.inl ⟨_, rfl⟩
  | ok user =>
    dsimp only
    by_cases hrole : user.UserType = "job_seeker"
    · rw [if_neg (not_not.mpr hrole)]
      cases hex : repositories.jobSeekerRepository.GetByUserID db env userID with
      | ok existing => exact Or.inl ⟨_, rfl⟩
      | error e =>
        dsimp only
        unfold repositories.jobSeekerRepository.Create
        by_cases hf : env.fails .jobSeekerCreate = true
        · rw [if_pos hf]
          exact Or.inl ⟨_, rfl⟩
        · rw [if_neg hf]
          by_cases hany : db.jobSeekers.any (fun js => js.UserID == userID) = true
          · rw [if_pos hany]
            exact Or.inl ⟨_, rfl⟩
          · rw [if_neg hany]
            exact Or.inr ⟨user, _, rfl, hrole, by simpa using hany, rfl, rfl, rfl⟩
    · rw [if_pos hrole]
      exact Or.inl ⟨_, rfl⟩

/-- A call of `employerService.CreateProfile` either fails and leaves the store as it was, or
finds the user with the role "employer" and without a profile and appends the new row. -/
theorem Employer_CreateProfile_cases (db : DB) (env : Env) (userID : Nat)
    (req : CreateEmployerRequest) :
    (∃ e, employerService.CreateProfile db env userID req = (.error e, db)) ∨
    (∃ user row,
      repositories.userRepository.GetByID db env userID = .ok user ∧
      user.UserType = "employer" ∧
      db.employers.any (fun e => e.UserID == userID) = false ∧
      row.UserID = userID ∧
      employerService.CreateProfile db env userID req
        = (.ok row, { db with employers := db.employers ++ [row],
                              employerSeq := db.employerSeq + 1 })) := by
  unfold employerService.CreateProfile
  cases huser : repositories.userRepository.GetByID db env userID with
  | error e => exact Or.inl ⟨_, rfl⟩
  | ok user =>
    dsimp only
    by_cases hrole : user.UserType = "employer"
    · rw [if_neg (not_not.mpr hrole)]
      cases hex : repositories.employerRepository.GetByUserID db env userID with
      | ok existing => exact Or.inl ⟨_, rfl⟩
      | error e =>
        dsimp only
        unfold repositories.employerRepository.Create
        by_cases hf : env.fails .employerCreate = true
        · rw [if_pos hf]
          exact Or.inl ⟨_, rfl⟩
        · rw [if_neg hf]
          by_cases hany : db.employers.any (fun e => e.UserID == userID) = true
          · rw [if_pos hany]
            exact Or.inl ⟨_, rfl⟩
          · rw [if_neg hany]
            exact Or.inr ⟨user, _, rfl, hrole, by simpa using hany, rfl, rfl⟩
    · rw [if_pos hrole]
      exact Or.inl ⟨_, rfl⟩

/-- A user that `userRepository.GetByID` returns is the first stored user with that key. -/
theorem userRepository_GetByID_ok (db : DB) (env : Env) (id : Nat) (user : models.User)
    (h : repositories.userRepository.GetByID db env id = .ok user) :
    db.users.find? (fun u => u.ID == id) = some user := by
  unfold repositories.userRepository.GetByID at h
  split at h
  · cases h
  · split at h
    · rename_i u hu
      rw [hu, Except.ok.inj h]
    · cases h

/-- Among rows with distinct keys at most one has a given key. -/
theorem length_filter_key_le_one {α : Type} (key : α → Nat) (l : List α) (k : Nat)
    (h : (l.map key).Nodup) : (l.filter (fun x => key x == k)).length ≤ 1 := by
  induction l with
  | nil => simp
  | cons x rest ih =>
    rw [List.map_cons, List.nodup_cons] at h
    by_cases hx : key x = k
    · have hnone : rest.filter (fun y => key y == k) = [] := by
        rw [List.filter_eq_nil_iff]
        intro y hy hk
        apply h.1
        rw [hx, ← (by simpa using hk : key y = k)]
        exact List.mem_map_of_mem key hy
      simp [List.filter_cons, hx, hnone]
    · simp only [List.filter_cons, beq_iff_eq, hx, if_false]
      exact ih h.2

/-- Every call of a creating method keeps the users and the invariant of the profile tables. -/
theorem ProfileInv_run (db : DB) (op : ProfileOp) (hinv : ProfileInv db) :
    ProfileInv (op.run db) ∧ (op.run db).users = db.users := by
  cases op with
  | createJobSeeker env userID req =>
    rcases JobSeeker_CreateProfile_cases db env userID req with
      ⟨e, he⟩ | ⟨user, row, huser, hrole, hany, hrow, -, hrun⟩
    · simp only [ProfileOp.run, he]
      exact ⟨hinv, trivial⟩
    · simp only [ProfileOp.run, hrun]
      refine ⟨⟨?_, hinv.employerRole, ?_, hinv.employerUnique⟩, trivial⟩
      · intro js hjs
        rcases List.mem_append.mp hjs with hold | hnew
        · exact hinv.seekerRole js hold
        · rw [List.mem_singleton] at hnew
          subst hnew
          refine ⟨user, ?_, hrole⟩
          rw [hrow]
          exact userRepository_GetByID_ok db env userID user huser
      · show ((db.jobSeekers ++ [row]).map (fun js => js.UserID)).Nodup
        rw [List.map_append, List.map_singleton]
        apply List.Nodup.append hinv.seekerUnique (List.nodup_singleton _)
        intro k hk hk2
        rw [List.mem_singleton] at hk2
        subst hk2
        rw [List.mem_map] at hk
        obtain ⟨js, hjs, hjk⟩ := hk
        have : db.jobSeekers.any (fun js => js.UserID == userID) = true := by
          rw [List.any_eq_true]
          exact ⟨js, hjs, by simp [hjk, hrow]⟩
        rw [hany] at this
        cases this
  | createEmployer env userID req =>
    rcases Employer_CreateProfile_cases db env userID req with
      ⟨e, he⟩ | ⟨user, row, huser, hrole, hany, hrow, hrun⟩
    · simp only [ProfileOp.run, he]
      exact ⟨hinv, trivial⟩
    · simp only [ProfileOp.run, hrun]
      refine ⟨⟨hinv.seekerRole, ?_, hinv.seekerUnique, ?_⟩, trivial⟩
      · intro e he
        rcases List.mem_append.mp he with hold | hnew
        · exact hinv.employerRole e hold
        · rw [List.mem_singleton] at hnew
          subst hnew
          refine ⟨user, ?_, hrole⟩
          rw [hrow]
          exact userRepository_GetByID_ok db env userID user huser
      · show ((db.employers ++ [row]).map (fun e => e.UserID)).Nodup
        rw [List.map_append, List.map_singleton]
        apply List.Nodup.append hinv.employerUnique (List.nodup_singleton _)
        intro k hk hk2
        rw [List.mem_singleton] at hk2
        subst hk2
        rw [List.mem_map] at hk
        obtain ⟨e, he, hek⟩ := hk
        have : db.employers.any (fun e => e.UserID == userID) = true := by
          rw [List.any_eq_true]
          exact ⟨e, he, by simp [hek, hrow]⟩
        rw [hany] at this
        cases this

/-- Claim C26: in every store reached from a store without base profiles by calls of
`jobSeekerService.CreateProfile` and `employerService.CreateProfile`, which leave the users and
their roles as they are, no user owns both a job seeker profile and an employer profile, and no
user owns two profiles of the same kind; in any store the creation of a job seeker profile
succeeds only for a user that the lookup returns with the role "job_seeker" and that has no job
seeker profile, and the creation of an employer profile only for a user with the role "employer"
that has no employer profile. -/
theorem profile_ownership (db0 : DB) (ops : List ProfileOp)
    (hempty : db0.jobSeekers = [] ∧ db0.employers = []) :
    (runProfileOps ops db0).users = db0.users ∧
    (∀ userID, ¬ ((∃ js ∈ (runProfileOps ops db0).jobSeekers, js.UserID = userID) ∧
      (∃ e ∈ (runProfileOps ops db0).employers, e.UserID = userID))) ∧
    (∀ userID, ((runProfileOps ops db0).jobSeekers.filter
      (fun js => js.UserID == userID)).length ≤ 1) ∧
    (∀ userID, ((runProfileOps ops db0).employers.filter
      (fun e => e.UserID == userID)).length ≤ 1) ∧
    (∀ (db : DB) (env : Env) (userID : Nat) (req : CreateJobSeekerRequest)
      (jobSeeker : models.JobSeeker) (db1 : DB),
      jobSeekerService.CreateProfile db env userID req = (.ok jobSeeker, db1) →
      (∃ user, repositories.userRepository.GetByID db env userID = .ok user ∧
        user.UserType = "job_seeker") ∧
      (∀ js ∈ db.jobSeekers, js.UserID ≠ userID)) ∧
    (∀ (db : DB) (env : Env) (userID : Nat) (req : CreateEmployerRequest)
      (employer : models.Employer) (db1 : DB),
      employerService.CreateProfile db env userID req = (.ok employer, db1) →
      (∃ user, repositories.userRepository.GetByID db env userID = .ok user ∧
        user.UserType = "employer") ∧
      (∀ e ∈ db.employers, e.UserID ≠ userID)) := by
  have h0 : ProfileInv db0 := by
    refine ⟨?_, ?_, ?_, ?_⟩
    · rw [hempty.1]
      intro js hjs
      exact absurd hjs (List.not_mem_nil js)
    · rw [hempty.2]
      intro e he
      exact absurd he (List.not_mem_nil e)
    · rw [hempty.1]
      exact List.nodup_nil
    · rw [hempty.2]
      exact List.nodup_nil
  have hinv : ∀ (ops : List ProfileOp) (db : DB), ProfileInv db →
      ProfileInv (runProfileOps ops db) ∧ (runProfileOps ops db).users = db.users := by
    intro ops
    induction ops with
    | nil => intro db h; exact ⟨h, rfl⟩
    | cons op rest ih =>
      intro db h
      simp only [runProfileOps, List.foldl_cons]
      have hstep := ProfileInv_run db op h
      have hrest := ih (op.run db) hstep.1
      exact ⟨hrest.1, hrest.2.trans hstep.2⟩
  obtain ⟨hfinal, husers⟩ := hinv ops db0 h0
  refine ⟨husers, ?_, ?_, ?_, ?_, ?_⟩
  · rintro userID ⟨⟨js, hjs, hju⟩, ⟨e, he, heu⟩⟩
    obtain ⟨u1, hf1, hr1⟩ := hfinal.seekerRole js hjs
    obtain ⟨u2, hf2, hr2⟩ := hfinal.employerRole e he
    rw [hju] at hf1
    rw [heu, hf1] at hf2
    have hu : u1 = u2 := Option.some.inj hf2
    rw [hu, hr2] at hr1
    exact absurd hr1 (by decide)
  · intro userID
    exact length_filter_key_le_one (fun (js : models.JobSeeker) => js.UserID) _ userID
      hfinal.seekerUnique
  · intro userID
    exact length_filter_key_le_one (fun (e : models.Employer) => e.UserID) _ userID
      hfinal.employerUnique
  · intro db env userID req jobSeeker db1 hok
    rcases JobSeeker_CreateProfile_cases db env userID req with
      ⟨e, he⟩ | ⟨user, row, huser, hrole, hany, -, -, -⟩
    · rw [he] at hok
      cases hok
    · refine ⟨⟨user, huser, hrole⟩, ?_⟩
      intro js hjs hk
      have : db.jobSeekers.any (fun js => js.UserID == userID) = true := by
        rw [List.any_eq_true]
        exact ⟨js, hjs, by simp [hk]⟩
      rw [hany] at this
      cases this
  · intro db env userID req employer db1 hok
    rcases Employer_CreateProfile_cases db env userID req with
      ⟨e, he⟩ | ⟨user, row, huser, hrole, hany, -, -⟩
    · rw [he] at hok
      cases hok
    · refine ⟨⟨user, huser, hrole⟩, ?_⟩
      intro e he hk
      have : db.employers.any (fun e => e.UserID == userID) = true := by
        rw [List.any_eq_true]
        exact ⟨e, he, by simp [hk]⟩
      rw [hany] at this
      cases this

/-- The five sample calls on the store with the two users: each user ends with one profile of
the kind of its role. -/
theorem profile_ownership_witness :
    runProfileOps sampleProfileOps sampleUsers = sampleUsersWithProfiles ∧
    ((runProfileOps sampleProfileOps sampleUsers).jobSeekers.filter
      (fun js => js.UserID == 1)).length ≤ 1 ∧
    ¬ ((∃ js ∈ (runProfileOps sampleProfileOps sampleUsers).jobSeekers, js.UserID = 1) ∧
      (∃ e ∈ (runProfileOps sampleProfileOps sampleUsers).employers, e.UserID = 1)) :=
  ⟨rfl, (profile_ownership sampleUsers sampleProfileOps ⟨rfl, rfl⟩).2.2.1 1,
    (profile_ownership sampleUsers sampleProfileOps ⟨rfl, rfl⟩).2.1 1⟩

end services

/-! ### Base profiles: the kind of a seeker and its student profile -/

namespace services

/-- Claim C29: the kind of a job seeker is checked only when a student profile is created. No
call of `jobSeekerService.UpdateProfile` touches the table of student profiles; and in the store
with the two sample users, the first user creates a job seeker profile of type "student" and a
student profile for it, then `UpdateProfile` with the type "professional" succeeds and the
student profile stays stored, so that it belongs to a seeker of type "professional"; a creation
of a student profile for that seeker then fails with the kind error, not with "student profile
already exists". -/
theorem student_profile_outlives_kind :
    (∀ (db : DB) (env : Env) (userID : Nat) (req : UpdateJobSeekerRequest),
      (jobSeekerService.UpdateProfile db env userID req).2.studentProfiles
        = db.studentProfiles) ∧
    ∃ (db1 db2 db3 : DB) (seeker seeker' : models.JobSeeker) (profile : models.StudentProfile),
      jobSeekerService.CreateProfile sampleUsers Env.reliable 1 sampleSeekerRequest
        = (.ok seeker, db1) ∧
      seeker.JobSeekerType = "student" ∧
      studentProfileService.CreateProfile db1 Env.reliable seeker.ID { CollegeName := "COA" }
        = (.ok profile, db2) ∧
      jobSeekerService.UpdateProfile db2 Env.reliable 1 { JobSeekerType := "professional" }
        = (.ok seeker', db3) ∧
      seeker'.ID = seeker.ID ∧ seeker'.JobSeekerType = "professional" ∧
      db3.jobSeekers = [seeker'] ∧
      db3.studentProfiles = [{ profile with JobSeeker := {} }] ∧
      profile.JobSeekerID = seeker'.ID ∧
      repositories.studentProfileRepository.GetByJobSeekerID db3 Env.reliable seeker'.ID
        = .ok { profile with JobSeeker := seeker' } ∧
      studentProfileService.CreateProfile db3 Env.reliable seeker'.ID {}
        = (.error (.New "student profile can only be created for student job seekers"), db3) := by
  constructor
  · intro db env userID req
    unfold jobSeekerService.UpdateProfile
    cases repositories.jobSeekerRepository.GetByUserID db env userID with
    | error e => rfl
    | ok jobSeeker =>
      dsimp only
      unfold repositories.jobSeekerRepository.Update
      by_cases hf : env.fails .jobSeekerUpdate = true
      · rw [if_pos hf]
      · rw [if_neg hf]
        by_cases hany : db.jobSeekers.any
            (fun js => js.ID == (jobSeekerService.UpdateProfile.patch jobSeeker req).ID) = true
        · rw [if_pos hany]
        · rw [if_neg hany]
  · exact ⟨_, _, _, _, _, _, rfl, rfl, rfl, rfl, rfl, rfl, rfl, rfl, rfl, rfl, rfl⟩

end services

/-! ### Registration: the password rules -/

namespace services

/-- Claim C30: `validatePassword` returns no error exactly for the passwords of at least 8 bytes
that contain a letter A to Z, a letter a to z and a digit 0 to 9; otherwise the error is that of
the first violated rule in the order length, uppercase, lowercase, number; and when
`validatePassword` returns an error, `Register` returns that error and leaves the store, and so
the users, as they were. -/
theorem validatePassword_rules (p : String) :
    (validatePassword p = none ↔
      8 ≤ p.utf8ByteSize ∧ (∃ c ∈ p.toList, 'A' ≤ c ∧ c ≤ 'Z') ∧
      (∃ c ∈ p.toList, 'a' ≤ c ∧ c ≤ 'z') ∧ (∃ c ∈ p.toList, '0' ≤ c ∧ c ≤ '9')) ∧
    (p.utf8ByteSize < 8 →
      validatePassword p = some (.New "password must be at least 8 characters long")) ∧
    (8 ≤ p.utf8ByteSize → (¬ ∃ c ∈ p.toList, 'A' ≤ c ∧ c ≤ 'Z') →
      validatePassword p = some (.New "password must contain at least one uppercase letter")) ∧
    (8 ≤ p.utf8ByteSize → (∃ c ∈ p.toList, 'A' ≤ c ∧ c ≤ 'Z') →
      (¬ ∃ c ∈ p.toList, 'a' ≤ c ∧ c ≤ 'z') →
      validatePassword p = some (.New "password must contain at least one lowercase letter")) ∧
    (8 ≤ p.utf8ByteSize → (∃ c ∈ p.toList, 'A' ≤ c ∧ c ≤ 'Z') →
      (∃ c ∈ p.toList, 'a' ≤ c ∧ c ≤ 'z') → (¬ ∃ c ∈ p.toList, '0' ≤ c ∧ c ≤ '9') →
      validatePassword p = some (.New "password must contain at least one number")) ∧
    (∀ (db : DB) (env : Env) (auth : AuthUtils) (req : RegisterRequest) (err : Error),
      req.Password = p → validatePassword p = some err →
      authService.Register db env auth req = (.error err, db)) := by
  have hU : (p.toList.any (fun c => decide ('A' ≤ c ∧ c ≤ 'Z')) = true)
      ↔ ∃ c ∈ p.toList, 'A' ≤ c ∧ c ≤ 'Z' := by
    simp [List.any_eq_true]
  have hL : (p.toList.any (fun c => decide ('a' ≤ c ∧ c ≤ 'z')) = true)
      ↔ ∃ c ∈ p.toList, 'a' ≤ c ∧ c ≤ 'z' := by
    simp [List.any_eq_true]
  have hN : (p.toList.any (fun c => decide ('0' ≤ c ∧ c ≤ '9')) = true)
      ↔ ∃ c ∈ p.toList, '0' ≤ c ∧ c ≤ '9' := by
    simp [List.any_eq_true]
  refine ⟨?_, ?_, ?_, ?_, ?_, ?_⟩
  · unfold validatePassword
    by_cases hlen : p.utf8ByteSize < 8
    · rw [if_pos hlen]
      constructor
      · intro h; cases h
      · intro h; omega
    · rw [if_neg hlen]
      have h8 : 8 ≤ p.utf8ByteSize := by omega
      dsimp only
      rw [← hU, ← hL, ← hN]
      cases p.toList.any (fun c => decide ('A' ≤ c ∧ c ≤ 'Z')) <;>
        cases p.toList.any (fun c => decide ('a' ≤ c ∧ c ≤ 'z')) <;>
        cases p.toList.any (fun c => decide ('0' ≤ c ∧ c ≤ '9')) <;>
        simp [h8]
  · intro hlen
    unfold validatePassword
    rw [if_pos hlen]
  · intro hlen hu
    unfold validatePassword
    rw [if_neg (by omega)]
    rw [← hU] at hu
    simp only [Bool.not_eq_true] at hu
    simp only [hu, Bool.not_false, Bool.not_true, Bool.false_eq_true, if_true, if_false]
  · intro hlen hu hl
    unfold validatePassword
    rw [if_neg (by omega)]
    rw [← hU] at hu
    rw [← hL] at hl
    simp only [Bool.not_eq_true] at hl
    simp only [hu, hl, Bool.not_false, Bool.not_true, Bool.false_eq_true, if_true, if_false]
  · intro hlen hu hl hn
    unfold validatePassword
    rw [if_neg (by omega)]
    rw [← hU] at hu
    rw [← hL] at hl
    rw [← hN] at hn
    simp only [Bool.not_eq_true] at hn
    simp only [hu, hl, hn, Bool.not_false, Bool.not_true, Bool.false_eq_true, if_true,
      if_false]
  · intro db env auth req err hreq herr
    unfold authService.Register
    rw [hreq, herr]

/-- The password "Passw0rd" passes, and a registration with the password "short" is refused
with the error of the length rule while the store keeps its two users. -/
theorem validatePassword_rules_witness :
    validatePassword "Passw0rd" = none ∧
    authService.Register sampleUsers Env.reliable sampleAuthUtils
        { Email := "new@example.com", Password := "short", UserType := "employer" }
      = (.error (.New "password must be at least 8 characters long"), sampleUsers) :=
  ⟨(validatePassword_rules "Passw0rd").1.mpr
      ⟨by decide, ⟨'P', by decide, by decide⟩, ⟨'a', by decide, by decide⟩,
        ⟨'0', by decide, by decide⟩⟩,
    (validatePassword_rules "short").2.2.2.2.2 sampleUsers Env.reliable sampleAuthUtils
      { Email := "new@example.com", Password := "short", UserType := "employer" }
      (.New "password must be at least 8 characters long") rfl
      ((validatePassword_rules "short").2.1 (by decide))⟩

end services
